import Mathlib

/-!
# Durable command queue of the design-patterns catalogue

Shallow embedding of
`patterns/Behavioral/Command/Go/RealWorldExample/DocumentProcessing.go` and
`patterns/Behavioral/Command/Go/RealWorldExample/WebScraping.go`, followed by the
embeddings of `SQLQueryBuilder.go`, `Prototype.go`, `HomeAutomation.go`, `Builder.go` and
`WebTemplate.go`.

Modelling conventions.

* Go `int` fields (`ID`, `Status`, `Page`) and the INTEGER columns are `Int`; the
  program does no arithmetic on them.
* Go `string` is `String`.
* The sqlite table `commands (id INTEGER PRIMARY KEY AUTOINCREMENT, command BLOB,
  status INTEGER)` is the list of its rows in rowid order together with the
  AUTOINCREMENT counter (`sqlite_sequence`).  `SELECT ... WHERE status = 0 LIMIT 1`
  is the first row of the rowid-order scan whose status is 0.  Statements do not fail
  and rowids do not run out.
* `encoding/base64` (`StdEncoding`) is embedded function by function: `EncodeToString`
  pads with `=`; `DecodeString` follows `decodeQuantum`, so it skips carriage returns and
  line feeds, returns the bytes decoded before a corrupt quantum, keeps the bytes of a
  padded quantum that is followed by more text, and reports the offset of the corrupt
  input.
* `encoding/gob`, writing: the stream that `Encode(command)` writes is embedded as a
  byte stream that carries what gob carries for these structs, the name of the concrete
  type followed by every exported field (`ID`, `Status`, `Document` / `URL`, `Page`).
  The byte layout is a stand-in for gob's own wire format; the program never inspects
  it.  The encoder made by `gob.NewEncoder(&buffer)` / `gob.NewEncoder(buf)` is read as
  writing that stream into the named buffer, the decoder made by `gob.NewDecoder(data)`
  as reading from the byte slice.
* `QueueInstance.CompleteCommand(c)` in `Complete` passes the receiver, the embedded
  struct; it is read as passing the command that embeds it, of which `CompleteCommand`
  uses `GetStatus()` and `GetID()` only.
* `encoding/gob`, reading: `Decode(&command)` is called with a pointer to a variable of
  the interface type `Command`.  gob stores into an interface variable only a value that
  was sent as an interface value and whose concrete type was registered with
  `gob.Register`; neither program registers a type, and `Encode(command)` sends the value
  as a value of its concrete struct type.  So `Decode(&command)` returns an error for
  every stream and leaves `command` nil.  Of the text of that error the part that does
  not depend on gob's wire format is kept.
* Standard output is the list of printed lines.  `log.Fatal` ends the process and is an
  `Except.error`; where the process state at that point matters the error carries it.
* `ioutil.ReadFile` reads from a map from file names to contents; a name that ends with
  `/` names no regular file, so reading it fails whatever the map holds.
* `sync.Mutex` is not part of the base state: every operation runs from `Lock` to the
  deferred `Unlock` without interleaving.  The section on the mutex embeds the same
  methods with the mutex as a part of the state and with a record of the calls made.
* In the other programs a pointer is `none` (nil) or an address into an explicit heap
  (a new object is allocated at the end), an interface value is its dynamic type
  together with the state of the object, and a panic is `Except.error` or `none`.
-/

/-! ## encoding/base64 -/

namespace Base64

/-- The `encodeStd` alphabet of `encoding/base64`. -/
def encodeStd : List Char :=
  "ABCDEFGHIJKLMNOPQRSTUVWXYZabcdefghijklmnopqrstuvwxyz0123456789+/".toList

/-- The character of the 6-bit value `n`. -/
def encChar (n : Nat) : Char := encodeStd.getD n 'A'

/-- The 6-bit value of a character of the alphabet (the decode map). -/
def decChar (c : Char) : Option Nat :=
  let i := encodeStd.indexOf c
  if i < 64 then some i else none

/-- Padded base64 of a byte sequence: three bytes become four characters. -/
def encode : List Nat → List Char
  | [] => []
  | [a] => [encChar (a / 4), encChar (a % 4 * 16), '=', '=']
  | [a, b] => [encChar (a / 4), encChar (a % 4 * 16 + b / 16), encChar (b % 16 * 4), '=']
  | a :: b :: c :: rest =>
      encChar (a / 4) :: encChar (a % 4 * 16 + b / 16) :: encChar (b % 16 * 4 + c / 64)
        :: encChar (c % 64) :: encode rest

/-- The characters `decodeQuantum` skips: line feed and carriage return. -/
def isNewline (c : Char) : Bool := c = Char.ofNat 10 || c = Char.ofNat 13

/-- The loop of `decodeQuantum` that advances `si` over line feeds and carriage returns:
how many characters it skips and the text from the first character it does not skip. -/
def skipNewlines : List Char → Nat × List Char
  | [] => (0, [])
  | c :: cs =>
      if isNewline c then ((skipNewlines cs).1 + 1, (skipNewlines cs).2) else (0, c :: cs)

/-- The bytes `decodeQuantum` writes for the 6-bit values of one quantum: `dlen - 1` bytes
for `dlen` values. -/
def quantumBytes : List Nat → List Nat
  | [v0, v1] => [v0 * 4 + v1 / 16]
  | [v0, v1, v2] => [v0 * 4 + v1 / 16, v1 % 16 * 16 + v2 / 4]
  | [v0, v1, v2, v3] => [v0 * 4 + v1 / 16, v1 % 16 * 16 + v2 / 4, v2 % 4 * 64 + v3]
  | _ => []

/-- The part of `decodeQuantum` that runs once a padding character has been read: `vals`
are the values of the quantum read before it, `si` is the index after the padding
character and `cs` the text from there.  The result is the bytes of the quantum and the
offset of the `CorruptInputError`, if any. -/
def decodePadding (vals : List Nat) (si : Nat) (cs : List Char) : List Nat × Option Nat :=
  if vals.length < 2 then ([], some (si - 1))
  else if vals.length = 2 then
    match (skipNewlines cs).2 with
    | [] => ([], some (si + (skipNewlines cs).1))
    | c :: rest =>
        if c = '=' then
          (quantumBytes vals,
            if (skipNewlines rest).2 = [] then none
            else some (si + (skipNewlines cs).1 + 1 + (skipNewlines rest).1))
        else ([], some (si + (skipNewlines cs).1 - 1))
  else
    (quantumBytes vals,
      if (skipNewlines cs).2 = [] then none else some (si + (skipNewlines cs).1))

/-- The loop of `Encoding.Decode` over `decodeQuantum`: `vals` are the values of the
current quantum read so far, `si` is the index of the next character.  The result is the
bytes decoded (`dbuf[:n]`) and the offset of the `CorruptInputError`, if any. -/
def decodeAux (vals : List Nat) (si : Nat) : List Char → List Nat × Option Nat
  | [] => if vals.length = 0 then ([], none) else ([], some (si - vals.length))
  | c :: cs =>
      match decChar c with
      | some v =>
          if vals.length = 3 then
            (quantumBytes (vals ++ [v]) ++ (decodeAux [] (si + 1) cs).1,
              (decodeAux [] (si + 1) cs).2)
          else decodeAux (vals ++ [v]) (si + 1) cs
      | none =>
          if isNewline c then decodeAux vals (si + 1) cs
          else if c = '=' then decodePadding vals (si + 1) cs
          else ([], some si)

/-- The Go call `base64.StdEncoding.EncodeToString`. -/
def EncodeToString (src : List Nat) : String := String.mk (encode src)

/-- The Go call `base64.StdEncoding.DecodeString`: the bytes and `err == nil`. -/
def DecodeString (s : String) : List Nat × Bool :=
  ((decodeAux [] 0 s.toList).1, (decodeAux [] 0 s.toList).2.isNone)

/-- The offset in the `CorruptInputError` that `DecodeString` returns, if it returns one. -/
def CorruptInputError (s : String) : Option Nat := (decodeAux [] 0 s.toList).2

end Base64

/-! ## encoding/gob: primitives of the byte stream -/

namespace Gob

/-- Unsigned integer, seven bits per byte, low group first; `fuel` bounds the
number of groups. -/
def putUintAux : Nat → Nat → List Nat
  | 0, n => [n % 128]
  | fuel + 1, n => if n < 128 then [n] else (128 + n % 128) :: putUintAux fuel (n / 128)

/-- Unsigned integer. -/
def putUint (n : Nat) : List Nat := putUintAux n n

/-- Reads an unsigned integer; fails on a truncated stream or a value that is not a byte. -/
def getUint : List Nat → Option (Nat × List Nat)
  | [] => none
  | b :: bs =>
      if b < 128 then some (b, bs)
      else if b < 256 then
        match getUint bs with
        | some (hi, rest) => some (b - 128 + 128 * hi, rest)
        | none => none
      else none

/-- Signed integer: as in gob, bit 0 of the unsigned value says whether to complement. -/
def putInt (i : Int) : List Nat :=
  if i < 0 then putUint (2 * (-i - 1).toNat + 1) else putUint (2 * i.toNat)

/-- The characters of a string, one unsigned integer each. -/
def putChars : List Char → List Nat
  | [] => []
  | c :: cs => putUint c.toNat ++ putChars cs

/-- Reads `n` characters. -/
def getChars : Nat → List Nat → Option (List Char × List Nat)
  | 0, bs => some ([], bs)
  | n + 1, bs =>
      match getUint bs with
      | some (u, rest) =>
          if (Char.ofNat u).toNat = u then
            match getChars n rest with
            | some (cs, rest2) => some (Char.ofNat u :: cs, rest2)
            | none => none
          else none
      | none => none

/-- String: its length, then its characters. -/
def putString (s : String) : List Nat := putUint s.length ++ putChars s.toList

/-- Reads a string. -/
def getString (bs : List Nat) : Option (String × List Nat) :=
  match getUint bs with
  | some (n, rest) =>
      match getChars n rest with
      | some (cs, rest2) => some (String.mk cs, rest2)
      | none => none
  | none => none

end Gob

namespace Gob

/-- The error of `Decode` when the variable to decode into has the interface type
`Command` and the stream transmits a value of a concrete type: the text names the local
type and the type received, the latter here by its name. -/
def localInterfaceError (received : String) : String :=
  "gob: local interface type *main.Command can only be decoded from remote interface type; received concrete type "
    ++ received

end Gob

/-! ## The sqlite table -/

/-- One row of `commands`. -/
structure Row where
  id : Int
  command : String
  status : Int
deriving DecidableEq, Repr

/-- The database behind `Queue.db`: the rows of `commands` in rowid order and the
AUTOINCREMENT counter, the largest rowid ever handed out. -/
structure DB where
  rows : List Row
  seq : Int
deriving DecidableEq, Repr

namespace DB

/-- The database right after `CREATE TABLE IF NOT EXISTS` on a new file. -/
def empty : DB := { rows := [], seq := 0 }

/-- Largest rowid in the table (0 for an empty table). -/
def maxRowid (rows : List Row) : Int := rows.foldr (fun r m => max r.id m) 0

/-- The rowid AUTOINCREMENT gives the next inserted row: one more than the largest
rowid that has ever existed in the table. -/
def nextRowid (db : DB) : Int := max db.seq (maxRowid db.rows) + 1

/-- The statement `INSERT INTO commands (command, status) VALUES (?, ?)`. -/
def insert (db : DB) (command : String) (status : Int) : DB :=
  { rows := db.rows ++ [{ id := db.nextRowid, command := command, status := status }],
    seq := db.nextRowid }

/-- The query `SELECT id, command FROM commands WHERE status = 0 LIMIT 1` (and the
`SELECT *` form of it): `none` is `sql.ErrNoRows`. -/
def selectPending (db : DB) : Option Row := db.rows.find? (fun r => r.status = 0)

/-- The statement `UPDATE commands SET status = ? WHERE id = ?`. -/
def update (db : DB) (status id : Int) : DB :=
  { db with rows := db.rows.map (fun r => if r.id = id then { r with status := status } else r) }

/-- The ids of the table, in rowid order. -/
def ids (db : DB) : List Int := db.rows.map (fun r => r.id)

/-- A table as sqlite keeps it: rowids strictly increasing along the scan. -/
def Ordered (db : DB) : Prop := db.rows.Pairwise (fun a b => a.id < b.id)

instance (db : DB) : Decidable db.Ordered := by
  unfold Ordered
  infer_instance

end DB

/-! ## DocumentProcessing.go -/

namespace DocumentProcessing

/-- The struct `DocumentCommand`, embedded in every concrete command. -/
structure DocumentCommand where
  ID : Int
  Status : Int
  Document : String
deriving DecidableEq, Repr

/-- A value of the interface `Command`: one of the three concrete types, each
embedding a `DocumentCommand`. -/
inductive Command where
  | PrintDocumentCommand (c : DocumentCommand)
  | SaveDocumentCommand (c : DocumentCommand)
  | ConvertDocumentCommand (c : DocumentCommand)
deriving DecidableEq, Repr

namespace Command

/-- The embedded `DocumentCommand`. -/
def DocumentCommand : Command → DocumentProcessing.DocumentCommand
  | PrintDocumentCommand c => c
  | SaveDocumentCommand c => c
  | ConvertDocumentCommand c => c

/-- The method `GetID`. -/
def GetID (c : Command) : Int := c.DocumentCommand.ID

/-- The method `GetStatus`. -/
def GetStatus (c : Command) : Int := c.DocumentCommand.Status

/-- The assignment `c.Status = v` on the embedded struct. -/
def setStatus (v : Int) : Command → Command
  | PrintDocumentCommand c => PrintDocumentCommand { c with Status := v }
  | SaveDocumentCommand c => SaveDocumentCommand { c with Status := v }
  | ConvertDocumentCommand c => ConvertDocumentCommand { c with Status := v }

/-- The name of the concrete type, as gob sends it. -/
def typeName : Command → String
  | PrintDocumentCommand _ => "PrintDocumentCommand"
  | SaveDocumentCommand _ => "SaveDocumentCommand"
  | ConvertDocumentCommand _ => "ConvertDocumentCommand"

end Command

/-- The call `enc.Encode(command)`: the concrete type and its exported fields. -/
def gobEncode (command : Command) : List Nat :=
  Gob.putString command.typeName ++ Gob.putInt command.DocumentCommand.ID
    ++ Gob.putInt command.DocumentCommand.Status
    ++ Gob.putString command.DocumentCommand.Document

/-- The call `dec.Decode(&command)` for `var command Command`: the error it returns, or
the value it leaves in `command`.  An empty input is `io.EOF`.  A stream that
`Encode(command)` wrote transmits a value of a concrete struct type, and gob refuses to
store it in the variable, whose type is an interface: the error names the local type and
the type received.  No stream makes the call store a command, because the program
registers no concrete type with gob. -/
def gobDecode (data : List Nat) : Except String (Option Command) :=
  if data = [] then Except.error "EOF"
  else
    match Gob.getString data with
    | none => Except.error "unexpected EOF"
    | some (name, _) =>
        Except.error (Gob.localInterfaceError name)

/-- The process state the program acts on: the database of the singleton
`QueueInstance` and what has been printed. -/
structure World where
  db : DB
  stdout : List String
deriving DecidableEq, Repr

/-- A new database file and nothing printed. -/
def World.empty : World := { db := DB.empty, stdout := [] }

namespace Queue

/-- The method `Queue.Add`: gob, base64, then the INSERT with the status the command
reports. -/
def Add (w : World) (command : Command) : World :=
  let buffer := gobEncode command
  let encoded := Base64.EncodeToString buffer
  { w with db := w.db.insert encoded command.GetStatus }

/-- The method `Queue.GetCommand`: `none` is the nil interface.  The id that `Scan` reads
from the row stays in the local variable `id`.  Each of the three error returns is there:
no row, the base64 error and the gob error, the last two after printing the error. -/
def GetCommand (w : World) : Option Command × World :=
  match w.db.selectPending with
  | none => (none, w)
  | some row =>
      match Base64.CorruptInputError row.command with
      | some offset =>
          (none, { w with stdout := w.stdout ++
            ["Error decoding command: illegal base64 data at input byte " ++ toString offset] })
      | none =>
          match gobDecode (Base64.DecodeString row.command).1 with
          | Except.error err =>
              (none, { w with stdout := w.stdout ++ ["Error decoding command object: " ++ err] })
          | Except.ok command => (command, w)

/-- The method `Queue.CompleteCommand`. -/
def CompleteCommand (w : World) (command : Command) : World :=
  { w with db := w.db.update command.GetStatus command.GetID }

end Queue

namespace Command

/-- The method `DocumentCommand.Complete`, promoted to every concrete command:
`c.Status = 1`, then `QueueInstance.CompleteCommand(c)`.  The result is the command
after the assignment and the world after the call. -/
def Complete (c : Command) (w : World) : Command × World :=
  let c1 := c.setStatus 1
  (c1, Queue.CompleteCommand w c1)

/-- The line each `Execute` prints. -/
def executeLine : Command → String
  | PrintDocumentCommand c => "PrintDocumentCommand: Printing document '" ++ c.Document ++ "'."
  | SaveDocumentCommand c => "SaveDocumentCommand: Saving document '" ++ c.Document ++ "'."
  | ConvertDocumentCommand c =>
      "ConvertDocumentCommand: Converting document '" ++ c.Document ++ "'."

/-- The method `Execute` of the three concrete commands: print, then `cmd.Complete()`. -/
def Execute (cmd : Command) (w : World) : Command × World :=
  cmd.Complete { w with stdout := w.stdout ++ [cmd.executeLine] }

end Command

/-- What a run of the loop of `Queue.Work` has done so far. -/
structure WorkRun where
  /-- The process state reached. -/
  world : World
  /-- The commands `Execute` was invoked on, in order. -/
  executed : List Command
  /-- Whether the loop reached its `break`. -/
  finished : Bool
deriving DecidableEq, Repr

/-- The method `Queue.Work`, run for at most `fuel` iterations of its `for` loop. -/
def Queue.Work : Nat → World → WorkRun
  | 0, w => { world := w, executed := [], finished := false }
  | fuel + 1, w =>
      match Queue.GetCommand w with
      | (none, w1) => { world := w1, executed := [], finished := true }
      | (some command, w1) =>
          let r := Queue.Work fuel (command.Execute w1).2
          { world := r.world, executed := command :: r.executed, finished := r.finished }

/-- The three `queue.Add` calls of `main` over one document. -/
def mainAdds (w : World) (document : String) : World :=
  let w1 := Queue.Add w (Command.PrintDocumentCommand { ID := 0, Status := 0, Document := document })
  let w2 := Queue.Add w1 (Command.SaveDocumentCommand { ID := 0, Status := 0, Document := document })
  Queue.Add w2 (Command.ConvertDocumentCommand { ID := 0, Status := 0, Document := document })

/-- The function `main`, with the loop of `Work` bounded by `fuel`. -/
def main (fuel : Nat) (w : World) : WorkRun :=
  Queue.Work fuel (mainAdds w "Document1.pdf")

/-- Store states reachable from the new database by `Add`, `GetCommand` and
`CompleteCommand`. -/
inductive Reachable : World → Prop where
  | empty : Reachable World.empty
  | add {w : World} (c : Command) : Reachable w → Reachable (Queue.Add w c)
  | get {w : World} : Reachable w → Reachable (Queue.GetCommand w).2
  | complete {w : World} (c : Command) : Reachable w → Reachable (Queue.CompleteCommand w c)

end DocumentProcessing

/-! ## regexp: the three patterns of WebScraping.go -/

namespace Regexp

/-- The double quote. -/
def quote : Char := Char.ofNat 34

/-- The line feed, the one character `.` does not match. -/
def newline : Char := Char.ofNat 10

/-- One position of a pattern outside `.*?`: a literal character, or `.`. -/
inductive Atom where
  | chr (c : Char)
  | dot
deriving DecidableEq, Repr

/-- Whether the atom matches the character: `.` matches every character but the line
feed. -/
def Atom.accepts : Atom → Char → Bool
  | Atom.chr x, c => x = c
  | Atom.dot, c => c ≠ newline

/-- The atoms of a run of literal characters. -/
def lit (s : String) : List Atom := s.toList.map Atom.chr

/-- Matches a sequence of atoms at the head of the text: the text matched and the text
after it. -/
def atoms : List Atom → List Char → Option (List Char × List Char)
  | [], s => some ([], s)
  | _ :: _, [] => none
  | a :: as, c :: cs =>
      if a.accepts c then
        match atoms as cs with
        | some (m, rest) => some (c :: m, rest)
        | none => none
      else none

/-- Matches `.*?` followed by the atoms `stop`: the shortest run of characters other
than the line feed after which `stop` matches.  The result is the run and the text after
`stop`. -/
def lazyUntil (stop : List Atom) : List Char → Option (List Char × List Char)
  | [] =>
      match atoms stop [] with
      | some (_, rest) => some ([], rest)
      | none => none
  | c :: cs =>
      match atoms stop (c :: cs) with
      | some (_, rest) => some ([], rest)
      | none =>
          if c = newline then none
          else
            match lazyUntil stop cs with
            | some (run, rest) => some (c :: run, rest)
            | none => none

/-- A pattern of the shape `before(inside.*?)stop`: three runs of atoms around one lazy
wildcard, the parentheses being the capture group. -/
structure Pattern where
  before : List Atom
  inside : List Atom
  stop : List Atom

/-- Matches the pattern at the head of the text: submatch 1 and the text after the match. -/
def Pattern.matchHere (p : Pattern) (s : List Char) : Option (List Char × List Char) :=
  match atoms p.before s with
  | none => none
  | some (_, s1) =>
      match atoms p.inside s1 with
      | none => none
      | some (m, s2) =>
          match lazyUntil p.stop s2 with
          | some (run, rest) => some (m ++ run, rest)
          | none => none

/-- The successive non-overlapping matches, leftmost first; `fuel` bounds the scan. -/
def Pattern.findAllAux (p : Pattern) : Nat → List Char → List (List Char)
  | 0, _ => []
  | _ + 1, [] => []
  | fuel + 1, c :: cs =>
      match p.matchHere (c :: cs) with
      | some (sub, rest) => sub :: p.findAllAux fuel rest
      | none => p.findAllAux fuel cs

/-- The call `re.FindAllStringSubmatch(html, -1)`, reduced to `match[1]` of every match. -/
def Pattern.FindAllStringSubmatch (p : Pattern) (html : String) : List String :=
  (p.findAllAux html.length html.toList).map String.mk

/-- The first match, scanning from the left. -/
def Pattern.findFirst (p : Pattern) : List Char → Option (List Char)
  | [] => none
  | c :: cs =>
      match p.matchHere (c :: cs) with
      | some (sub, _) => some sub
      | none => p.findFirst cs

/-- The call `re.FindStringSubmatch(html)`, reduced to `match[1]` when there is a match. -/
def Pattern.FindStringSubmatch (p : Pattern) (html : String) : Option String :=
  (p.findFirst html.toList).map String.mk

/-- The pattern of `IMDBGenresScrapingCommand.Parse`; `\?` is the literal question mark,
the two dots of `www.imdb.com` are not escaped. -/
def genreLink : Pattern :=
  { before := lit "href=" ++ [Atom.chr quote],
    inside := lit "https://www" ++ [Atom.dot] ++ lit "imdb" ++ [Atom.dot]
      ++ lit "com/search/title?genres=",
    stop := [Atom.chr quote] }

/-- The pattern of `IMDBGenrePageScrapingCommand.Parse`. -/
def movieLink : Pattern :=
  { before := lit "href=" ++ [Atom.chr quote],
    inside := lit "/title/",
    stop := [Atom.chr '/', Atom.chr quote] }

/-- The pattern of `IMDBMovieScrapingCommand.Parse`. -/
def movieTitle : Pattern :=
  { before := lit "<h1 itemprop=" ++ [Atom.chr quote] ++ lit "name" ++ [Atom.chr quote]
      ++ lit " class=" ++ [Atom.chr quote, Atom.chr quote, Atom.chr '>'],
    inside := [],
    stop := lit "</h1>" }

/-! The matches of a pattern in a text, stated without the matcher. -/

/-- The text is matched by the atoms, position by position. -/
def Accepts (as : List Atom) (t : List Char) : Prop :=
  List.Forall₂ (fun a c => a.accepts c = true) as t

/-- The text `m` is a match of the pattern and `sub` its submatch 1: `m` is a text
matched by `before`, then `sub`, then a text matched by `stop`, and `sub` is a text
matched by `inside` followed by characters other than the line feed. -/
def Pattern.IsMatch (p : Pattern) (m sub : List Char) : Prop :=
  ∃ b i run e, m = b ++ (i ++ run) ++ e ∧ sub = i ++ run ∧ Accepts p.before b ∧
    Accepts p.inside i ∧ newline ∉ run ∧ Accepts p.stop e

/-- A match with submatch `sub` starts at the head of the text `s` and ends before
`rest`. -/
def Pattern.StartsWith (p : Pattern) (s sub rest : List Char) : Prop :=
  ∃ m, s = m ++ rest ∧ p.IsMatch m sub

/-- The successive matches of the pattern in a text, as `FindAllStringSubmatch` defines
them: the first match is the leftmost one and, of the matches starting there, the
shortest (the wildcard is lazy); the following matches are those of the text after it. -/
inductive Pattern.Finds (p : Pattern) : List Char → List (List Char) → Prop where
  | done (s : List Char) :
      (∀ u v sub rest, s = u ++ v → ¬ p.StartsWith v sub rest) → Pattern.Finds p s []
  | found (pre m sub rest : List Char) (subs : List (List Char)) :
      p.IsMatch m sub →
      (∀ u v sub1 rest1, pre = u ++ v → v ≠ [] → ¬ p.StartsWith (v ++ (m ++ rest)) sub1 rest1) →
      (∀ sub1 rest1, p.StartsWith (m ++ rest) sub1 rest1 → rest1.length ≤ rest.length) →
      Pattern.Finds p rest subs →
      Pattern.Finds p (pre ++ (m ++ rest)) (sub :: subs)

end Regexp

/-! ## WebScraping.go -/

namespace WebScraping

/-- The struct `WebScrapingCommand`, embedded in every concrete command. -/
structure WebScrapingCommand where
  ID : Int
  Status : Int
  URL : String
deriving DecidableEq, Repr

/-- A value of the interface `Command`: one of the three concrete types. -/
inductive Command where
  | IMDBGenresScrapingCommand (c : WebScrapingCommand)
  | IMDBGenrePageScrapingCommand (c : WebScrapingCommand) (Page : Int)
  | IMDBMovieScrapingCommand (c : WebScrapingCommand)
deriving DecidableEq, Repr

namespace Command

/-- The embedded `WebScrapingCommand`. -/
def WebScrapingCommand : Command → WebScraping.WebScrapingCommand
  | IMDBGenresScrapingCommand c => c
  | IMDBGenrePageScrapingCommand c _ => c
  | IMDBMovieScrapingCommand c => c

/-- The method `GetID`. -/
def GetID (c : Command) : Int := c.WebScrapingCommand.ID

/-- The method `GetStatus`. -/
def GetStatus (c : Command) : Int := c.WebScrapingCommand.Status

/-- The assignment `c.Status = v` on the embedded struct. -/
def setStatus (v : Int) : Command → Command
  | IMDBGenresScrapingCommand c => IMDBGenresScrapingCommand { c with Status := v }
  | IMDBGenrePageScrapingCommand c p => IMDBGenrePageScrapingCommand { c with Status := v } p
  | IMDBMovieScrapingCommand c => IMDBMovieScrapingCommand { c with Status := v }

/-- The name of the concrete type, as gob sends it. -/
def typeName : Command → String
  | IMDBGenresScrapingCommand _ => "IMDBGenresScrapingCommand"
  | IMDBGenrePageScrapingCommand _ _ => "IMDBGenrePageScrapingCommand"
  | IMDBMovieScrapingCommand _ => "IMDBMovieScrapingCommand"

end Command

/-- The constructor `NewIMDBGenresScrapingCommand`. -/
def NewIMDBGenresScrapingCommand : Command :=
  Command.IMDBGenresScrapingCommand
    { ID := 0, Status := 0, URL := "https://www.imdb.com/feature/genre/" }

/-- The call `gob.NewEncoder(buf).Encode(command)`: the concrete type and its exported
fields, `Page` last where the type has it. -/
def gobEncode (command : Command) : List Nat :=
  Gob.putString command.typeName ++ Gob.putInt command.WebScrapingCommand.ID
    ++ Gob.putInt command.WebScrapingCommand.Status
    ++ Gob.putString command.WebScrapingCommand.URL
    ++ (match command with
        | Command.IMDBGenrePageScrapingCommand _ p => Gob.putInt p
        | _ => [])

/-- The call `gob.NewDecoder(commandBytes).Decode(&command)` for `var command Command`:
the error it returns, or the value it leaves in `command`.  An empty input is `io.EOF`.
A stream that `Encode(command)` wrote transmits a value of a concrete struct type, and gob
refuses to store it in the variable, whose type is an interface.  No stream makes the
call store a command, because the program registers no concrete type with gob. -/
def gobDecode (data : List Nat) : Except String (Option Command) :=
  if data = [] then Except.error "EOF"
  else
    match Gob.getString data with
    | none => Except.error "unexpected EOF"
    | some (name, _) =>
        Except.error (Gob.localInterfaceError name)

/-- The process state the program acts on: the database of `QueueInstance` and what
has been printed. -/
structure World where
  db : DB
  stdout : List String
deriving DecidableEq, Repr

/-- A new database file and nothing printed. -/
def World.empty : World := { db := DB.empty, stdout := [] }

/-- The end of the process by `log.Fatalf`: the message logged and the process state at
that point. -/
structure Fatal where
  msg : String
  world : World
deriving DecidableEq, Repr

/-- The call `ioutil.ReadFile(filename)`: `none` is an error.  `files` maps the name of a
regular file to its content; a name that ends with `/` names no regular file. -/
def ReadFile (files : String → Option String) (filename : String) : Option String :=
  if filename.toList.getLast? = some '/' then none else files filename

namespace Queue

/-- The method `Queue.Add`: gob into `buf`, base64 of `buf`, then the INSERT with the
status the command reports. -/
def Add (w : World) (command : Command) : World :=
  let buf := gobEncode command
  { w with db := w.db.insert (Base64.EncodeToString buf) command.GetStatus }

/-- The method `Queue.GetCommand`.  `Except.error` is `log.Fatal(err)` after a failed
`Scan`; the base64 error and the gob error are both discarded, and `none` is the nil
interface.  The `id` and `status` that `Scan` reads stay in local variables. -/
def GetCommand (w : World) : Except String (Option Command) :=
  match w.db.selectPending with
  | none => Except.error "sql: no rows in result set"
  | some row =>
      let commandBytes := (Base64.DecodeString row.command).1
      match gobDecode commandBytes with
      | Except.error _ => Except.ok none
      | Except.ok command => Except.ok command

/-- The method `Queue.CompleteCommand`. -/
def CompleteCommand (w : World) (command : Command) : World :=
  { w with db := w.db.update command.GetStatus command.GetID }

end Queue

namespace Command

/-- The method `WebScrapingCommand.Complete`, promoted to every concrete command. -/
def Complete (c : Command) (w : World) : Command × World :=
  let c1 := c.setStatus 1
  (c1, Queue.CompleteCommand w c1)

/-- The loop of `IMDBGenresScrapingCommand.Parse` over the matches: one `Add` per
match, of a genre-page command for page 1. -/
def addGenrePages (w : World) (matched : List String) : World :=
  matched.foldl
    (fun w1 m => Queue.Add w1
      (IMDBGenrePageScrapingCommand { ID := 0, Status := 0, URL := m } 1)) w

/-- The method `IMDBGenresScrapingCommand.Parse`. -/
def parseGenres (w : World) (html : String) : World :=
  let matched := Regexp.genreLink.FindAllStringSubmatch html
  addGenrePages
    { w with stdout := w.stdout ++
        ["IMDBGenresScrapingCommand: Discovered " ++ toString matched.length ++ " genres."] }
    matched

/-- The loop of `IMDBGenrePageScrapingCommand.Parse` over the matches. -/
def addMovies (w : World) (matched : List String) : World :=
  matched.foldl
    (fun w1 m => Queue.Add w1
      (IMDBMovieScrapingCommand { ID := 0, Status := 0, URL := "https://www.imdb.com" ++ m })) w

/-- The method `IMDBGenrePageScrapingCommand.Parse`. -/
def parseGenrePage (w : World) (html : String) : World :=
  let matched := Regexp.movieLink.FindAllStringSubmatch html
  addMovies
    { w with stdout := w.stdout ++
        ["IMDBGenrePageScrapingCommand: Discovered " ++ toString matched.length ++ " movies."] }
    matched

/-- The method `IMDBMovieScrapingCommand.Parse`. -/
def parseMovie (w : World) (html : String) : World :=
  match Regexp.movieTitle.FindStringSubmatch html with
  | some title =>
      { w with stdout := w.stdout ++ ["IMDBMovieScrapingCommand: Parsed movie " ++ title ++ "."] }
  | none => w

/-- The method `Parse` of the concrete type of the command. -/
def Parse (c : Command) (w : World) (html : String) : World :=
  match c with
  | IMDBGenresScrapingCommand _ => parseGenres w html
  | IMDBGenrePageScrapingCommand _ _ => parseGenrePage w html
  | IMDBMovieScrapingCommand _ => parseMovie w html

/-- The method `WebScrapingCommand.Download`; `files` is what `ioutil.ReadFile` reads
from, `Except.error` is `log.Fatalf`, which ends the process in the state it is in.  The
text of the error of `ReadFile` is reduced to the name of the file. -/
def Download (files : String → Option String) (c : Command) (w : World) :
    Except Fatal (String × World) :=
  match ReadFile files c.WebScrapingCommand.URL with
  | none => Except.error { msg := "Failed to download: " ++ c.WebScrapingCommand.URL, world := w }
  | some resp =>
      Except.ok (resp, { w with stdout := w.stdout ++
        ["WebScrapingCommand: Downloaded " ++ c.WebScrapingCommand.URL] })

/-- The method `Execute` of the three concrete commands: `Download`, `Parse`,
`Complete`.  The result is the command after `Complete` and the world reached. -/
def Execute (files : String → Option String) (c : Command) (w : World) :
    Except Fatal (Command × World) :=
  match c.Download files w with
  | Except.error e => Except.error e
  | Except.ok (html, w1) => Except.ok (c.Complete (c.Parse w1 html))

end Command

/-- How a run of the loop of `main` stands: still looping, left through `break`, or
ended by `log.Fatal`. -/
inductive Ending where
  | running
  | done
  | fatal (msg : String)
deriving DecidableEq, Repr

/-- What a run of the loop of `main` has done so far. -/
structure MainRun where
  /-- The process state reached. -/
  world : World
  /-- The commands `Execute` was invoked on, in order. -/
  executed : List Command
  /-- How the run stands. -/
  ending : Ending
deriving DecidableEq, Repr

/-- The `for` loop of `main`, run for at most `fuel` iterations. -/
def mainLoop (files : String → Option String) : Nat → World → MainRun
  | 0, w => { world := w, executed := [], ending := Ending.running }
  | fuel + 1, w =>
      match Queue.GetCommand w with
      | Except.error e => { world := w, executed := [], ending := Ending.fatal e }
      | Except.ok none => { world := w, executed := [], ending := Ending.done }
      | Except.ok (some command) =>
          match command.Execute files w with
          | Except.error e =>
              { world := e.world, executed := [command], ending := Ending.fatal e.msg }
          | Except.ok (_, w1) =>
              let r := mainLoop files fuel w1
              { world := r.world, executed := command :: r.executed, ending := r.ending }

/-- The function `main`, with its loop bounded by `fuel`. -/
def main (files : String → Option String) (fuel : Nat) (w : World) : MainRun :=
  mainLoop files fuel (Queue.Add w NewIMDBGenresScrapingCommand)

end WebScraping

/-! ## Calling sequences used by the statements -/

namespace DocumentProcessing

/-- One `Queue.Add` call per command of the list, in order. -/
def Queue.AddAll (w : World) (cs : List Command) : World := cs.foldl Queue.Add w

/-- The given number of consecutive `Queue.GetCommand` calls: what each call returned,
in order, and the world after the last. -/
def Queue.GetCommands : Nat → World → List (Option Command) × World
  | 0, w => ([], w)
  | n + 1, w =>
      let r := Queue.GetCommands n (Queue.GetCommand w).2
      ((Queue.GetCommand w).1 :: r.1, r.2)

end DocumentProcessing

/-! ## Relations between store states used by the statements -/

namespace DB

/-- Every row of `a` is still a row of `b`, under the same id and with the same payload. -/
def Keeps (a b : DB) : Prop :=
  ∀ r ∈ a.rows, ∃ q ∈ b.rows, q.id = r.id ∧ q.command = r.command

instance (a b : DB) : Decidable (a.Keeps b) := by
  unfold Keeps
  infer_instance

end DB

namespace DocumentProcessing

/-- Store states reachable from the new database by `Add` and `CompleteCommand` called
with commands that satisfy `ok`. -/
inductive ReachableWith (ok : Command → Prop) : World → Prop where
  | empty : ReachableWith ok World.empty
  | add {w : World} (c : Command) : ok c → ReachableWith ok w → ReachableWith ok (Queue.Add w c)
  | complete {w : World} (c : Command) :
      ok c → ReachableWith ok w → ReachableWith ok (Queue.CompleteCommand w c)

end DocumentProcessing

namespace DocumentProcessing

/-- Store states that follow the state `w`: those reached from it by any number of
further `Add`, `GetCommand` and `CompleteCommand` calls. -/
inductive After (w : World) : World → Prop where
  | start : After w w
  | add {v : World} (c : Command) : After w v → After w (Queue.Add v c)
  | get {v : World} : After w v → After w (Queue.GetCommand v).2
  | complete {v : World} (c : Command) : After w v → After w (Queue.CompleteCommand v c)

end DocumentProcessing

/-! ## A genres page with two genre links -/

namespace WebScraping

/-- A genres page with two genre links; the second link has other characters where the
pattern has its two dots. -/
def genresPage : String :=
  "<a href=" ++ String.mk [Regexp.quote] ++ "https://www.imdb.com/search/title?genres=comedy"
    ++ String.mk [Regexp.quote] ++ ">Comedy</a> <a href=" ++ String.mk [Regexp.quote]
    ++ "https://wwwXimdbYcom/search/title?genres=drama" ++ String.mk [Regexp.quote] ++ ">Drama</a>"

end WebScraping

/-! ## A store whose oldest Pending row is not base64 -/

namespace DocumentProcessing

/-- A store with two Pending rows: row 1 holds a payload that is not base64, row 2 the
payload `Add` stores for a Save command. -/
def badRowStore : World :=
  { db := { rows := [{ id := 1, command := "!", status := 0 },
                     { id := 2,
                       command := Base64.EncodeToString (gobEncode
                         (Command.SaveDocumentCommand
                           { ID := 0, Status := 0, Document := "X.pdf" })),
                       status := 0 }],
            seq := 2 },
    stdout := [] }

end DocumentProcessing

/-! ## DocumentProcessing.go with the mutex of the queue and a record of the calls -/

namespace DocumentProcessing

/-- What a run records, in order: the entry into a method of the queue or into `Execute`,
with the argument of the call, and the operations on `q.lock` that went through. -/
inductive Event where
  | Add (command : Command)
  | GetCommand
  | CompleteCommand (command : Command)
  | Execute (command : Command)
  | Lock
  | Unlock
deriving DecidableEq, Repr

/-- The process state together with the state of `q.lock` (`locked` says that the mutex
is held) and the record of the run. -/
structure Locked where
  world : World
  locked : Bool
  trace : List Event
deriving DecidableEq, Repr

/-- How a call ends: it blocks for ever on the mutex, the runtime ends the process, or
it returns a value in a state. -/
inductive Outcome (α : Type) where
  | blocked
  | fatal (msg : String)
  | returned (value : α) (s : Locked)

/-- The call `q.lock.Lock()`: on a held mutex it never returns (`none`), this being the
only goroutine; otherwise it takes the mutex. -/
def Mutex.Lock (s : Locked) : Option Locked :=
  if s.locked then none
  else some { s with locked := true, trace := s.trace ++ [Event.Lock] }

/-- The call `q.lock.Unlock()`: it frees a held mutex; on a free mutex it is a fatal
error of the runtime (`none`). -/
def Mutex.Unlock (s : Locked) : Option Locked :=
  if s.locked then some { s with locked := false, trace := s.trace ++ [Event.Unlock] }
  else none

/-- A `return` in a method that has `defer q.lock.Unlock()` pending: the deferred call
runs in the state reached, then the method returns `value`. -/
def returnWithUnlock {α : Type} (value : α) (s : Locked) : Outcome α :=
  match Mutex.Unlock s with
  | some s1 => Outcome.returned value s1
  | none => Outcome.fatal "fatal error: sync: unlock of unlocked mutex"

/-- The statement `fmt.Println` in a state with the mutex. -/
def Locked.println (s : Locked) (line : String) : Locked :=
  { s with world := { s.world with stdout := s.world.stdout ++ [line] } }

/-- The method `Queue.Add`, statement by statement, with its three returns.  `encodeErr`
and `insertErr` are the errors that `enc.Encode` and `q.db.Exec` return in this call
(`none`: the call succeeds, as it does in the rest of this development). -/
def Queue.LockedAdd (encodeErr insertErr : Option String) (s : Locked) (command : Command) :
    Outcome Unit :=
  match Mutex.Lock { s with trace := s.trace ++ [Event.Add command] } with
  | none => Outcome.blocked
  | some s1 =>
      match encodeErr with
      | some err => returnWithUnlock () (s1.println ("Error encoding command: " ++ err))
      | none =>
          let encoded := Base64.EncodeToString (gobEncode command)
          match insertErr with
          | some err =>
              returnWithUnlock () (s1.println ("Error inserting command into DB: " ++ err))
          | none =>
              returnWithUnlock ()
                { s1 with world :=
                    { s1.world with db := s1.world.db.insert encoded command.GetStatus } }

/-- The method `Queue.GetCommand`, statement by statement, with its four returns. -/
def Queue.LockedGetCommand (s : Locked) : Outcome (Option Command) :=
  match Mutex.Lock { s with trace := s.trace ++ [Event.GetCommand] } with
  | none => Outcome.blocked
  | some s1 =>
      match s1.world.db.selectPending with
      | none => returnWithUnlock none s1
      | some row =>
          match Base64.CorruptInputError row.command with
          | some offset =>
              returnWithUnlock none
                (s1.println
                  ("Error decoding command: illegal base64 data at input byte "
                    ++ toString offset))
          | none =>
              match gobDecode (Base64.DecodeString row.command).1 with
              | Except.error err =>
                  returnWithUnlock none (s1.println ("Error decoding command object: " ++ err))
              | Except.ok command => returnWithUnlock command s1

/-- The method `Queue.CompleteCommand`, statement by statement. -/
def Queue.LockedCompleteCommand (s : Locked) (command : Command) : Outcome Unit :=
  match Mutex.Lock { s with trace := s.trace ++ [Event.CompleteCommand command] } with
  | none => Outcome.blocked
  | some s1 =>
      returnWithUnlock ()
        { s1 with world :=
            { s1.world with db := s1.world.db.update command.GetStatus command.GetID } }

/-- The method `DocumentCommand.Complete`: `c.Status = 1`, then
`QueueInstance.CompleteCommand(c)`; the value returned here is the command after the
assignment. -/
def Command.LockedComplete (c : Command) (s : Locked) : Outcome Command :=
  match Queue.LockedCompleteCommand s (c.setStatus 1) with
  | Outcome.blocked => Outcome.blocked
  | Outcome.fatal msg => Outcome.fatal msg
  | Outcome.returned _ s1 => Outcome.returned (c.setStatus 1) s1

/-- The method `Execute` of the three concrete commands: print, then `cmd.Complete()`. -/
def Command.LockedExecute (cmd : Command) (s : Locked) : Outcome Command :=
  cmd.LockedComplete
    ({ s with trace := s.trace ++ [Event.Execute cmd] }.println cmd.executeLine)

/-- The method `Queue.Work` for at most `fuel` iterations of its loop: the commands
`Execute` was invoked on and whether the loop reached its `break`. -/
def Queue.LockedWork : Nat → Locked → Outcome (List Command × Bool)
  | 0, s => Outcome.returned ([], false) s
  | fuel + 1, s =>
      match Queue.LockedGetCommand s with
      | Outcome.blocked => Outcome.blocked
      | Outcome.fatal msg => Outcome.fatal msg
      | Outcome.returned none s1 => Outcome.returned ([], true) s1
      | Outcome.returned (some command) s1 =>
          match command.LockedExecute s1 with
          | Outcome.blocked => Outcome.blocked
          | Outcome.fatal msg => Outcome.fatal msg
          | Outcome.returned _ s2 =>
              match Queue.LockedWork fuel s2 with
              | Outcome.blocked => Outcome.blocked
              | Outcome.fatal msg => Outcome.fatal msg
              | Outcome.returned r s3 => Outcome.returned (command :: r.1, r.2) s3

/-- Whether an entry of the record is a call of `CompleteCommand`. -/
def Event.isCompleteCommand : Event → Bool
  | Event.CompleteCommand _ => true
  | _ => false

end DocumentProcessing

/-! ## WebScraping.go with a record of the calls of the queue -/

namespace WebScraping

/-- A call of a method of the queue that changes the table, with its argument. -/
inductive Call where
  | Add (command : Command)
  | CompleteCommand (command : Command)
deriving DecidableEq, Repr

/-- The process state together with the calls made so far, in order. -/
structure Traced where
  world : World
  calls : List Call
deriving DecidableEq, Repr

/-- The method `Queue.Add`, recorded. -/
def Queue.TracedAdd (s : Traced) (command : Command) : Traced :=
  { world := Queue.Add s.world command, calls := s.calls ++ [Call.Add command] }

/-- The method `Queue.CompleteCommand`, recorded. -/
def Queue.TracedCompleteCommand (s : Traced) (command : Command) : Traced :=
  { world := Queue.CompleteCommand s.world command,
    calls := s.calls ++ [Call.CompleteCommand command] }

namespace Command

/-- The method `WebScrapingCommand.Complete`: `c.Status = 1`, then
`QueueInstance.CompleteCommand(c)`. -/
def TracedComplete (c : Command) (s : Traced) : Command × Traced :=
  let c1 := c.setStatus 1
  (c1, Queue.TracedCompleteCommand s c1)

/-- The method `Parse` of the concrete type of the command: each prints the number of
matches and calls `QueueInstance.Add` once per match; the one for a movie only prints. -/
def TracedParse (c : Command) (s : Traced) (html : String) : Traced :=
  match c with
  | IMDBGenresScrapingCommand _ =>
      let matched := Regexp.genreLink.FindAllStringSubmatch html
      matched.foldl
        (fun s1 m => Queue.TracedAdd s1
          (IMDBGenrePageScrapingCommand { ID := 0, Status := 0, URL := m } 1))
        { s with world := { s.world with stdout := s.world.stdout ++
            ["IMDBGenresScrapingCommand: Discovered " ++ toString matched.length
              ++ " genres."] } }
  | IMDBGenrePageScrapingCommand _ _ =>
      let matched := Regexp.movieLink.FindAllStringSubmatch html
      matched.foldl
        (fun s1 m => Queue.TracedAdd s1
          (IMDBMovieScrapingCommand
            { ID := 0, Status := 0, URL := "https://www.imdb.com" ++ m }))
        { s with world := { s.world with stdout := s.world.stdout ++
            ["IMDBGenrePageScrapingCommand: Discovered " ++ toString matched.length
              ++ " movies."] } }
  | IMDBMovieScrapingCommand _ => { s with world := parseMovie s.world html }

/-- The method `WebScrapingCommand.Download`: `Except.error` is `log.Fatalf`, with the
message and the state in which the process ends. -/
def TracedDownload (files : String → Option String) (c : Command) (s : Traced) :
    Except (String × Traced) (String × Traced) :=
  match ReadFile files c.WebScrapingCommand.URL with
  | none => Except.error ("Failed to download: " ++ c.WebScrapingCommand.URL, s)
  | some resp =>
      Except.ok (resp, { s with world := { s.world with stdout := s.world.stdout ++
        ["WebScrapingCommand: Downloaded " ++ c.WebScrapingCommand.URL] } })

/-- The method `Execute` of the three concrete commands: `Download`, `Parse`,
`Complete`. -/
def TracedExecute (files : String → Option String) (c : Command) (s : Traced) :
    Except (String × Traced) (Command × Traced) :=
  match c.TracedDownload files s with
  | Except.error e => Except.error e
  | Except.ok (html, s1) => Except.ok (c.TracedComplete (c.TracedParse s1 html))

end Command

end WebScraping

/-! ## SQLQueryBuilder.go -/

namespace SQL

/-- The struct `SQLQuery`. -/
structure SQLQuery where
  base : String
  where_ : List String
  limit : String
  queryType : String
deriving DecidableEq, Repr

/-- The struct `MysqlQueryBuilder`: `query` is a pointer, `none` is nil (as in
`&MysqlQueryBuilder{}`). -/
structure MysqlQueryBuilder where
  query : Option SQLQuery
deriving DecidableEq, Repr

/-- The struct `PostgresQueryBuilder`, which embeds a `MysqlQueryBuilder`. -/
structure PostgresQueryBuilder where
  MysqlQueryBuilder : MysqlQueryBuilder
deriving DecidableEq, Repr

/-- A value of the interface `SQLQueryBuilder`: the dynamic type of the pointer it holds
and the state of the builder the pointer refers to.  A `*MysqlQueryBuilder` that points
into a `PostgresQueryBuilder` is still a `*MysqlQueryBuilder`. -/
inductive SQLQueryBuilder where
  | mysql (b : MysqlQueryBuilder)
  | postgres (b : PostgresQueryBuilder)
deriving DecidableEq, Repr

namespace MysqlQueryBuilder

/-- The method `reset`: `b.query = &SQLQuery{}`. -/
def reset (_ : MysqlQueryBuilder) : MysqlQueryBuilder :=
  { query := some { base := "", where_ := [], limit := "", queryType := "" } }

/-- The method `Select`, as the state of the receiver after it. -/
def Select (b : MysqlQueryBuilder) (table : String) (fields : List String) :
    MysqlQueryBuilder :=
  match b.reset.query with
  | none => b.reset
  | some q =>
      { query := some { q with
          base := "SELECT " ++ ", ".intercalate fields ++ " FROM " ++ table,
          queryType := "select" } }

/-- The method `Where`, as the state of the receiver after it; `Except.error` is a
panic. -/
def Where (b : MysqlQueryBuilder) (field value operator : String) :
    Except String MysqlQueryBuilder :=
  match b.query with
  | none => Except.error "invalid memory address or nil pointer dereference"
  | some q =>
      if q.queryType ≠ "select" ∧ q.queryType ≠ "update" ∧ q.queryType ≠ "delete" then
        Except.error "WHERE can only be added to SELECT, UPDATE OR DELETE"
      else
        Except.ok { query := some { q with
          where_ := q.where_ ++ [field ++ " " ++ operator ++ " '" ++ value ++ "'"] } }

/-- The method `Limit`, as the state of the receiver after it. -/
def Limit (b : MysqlQueryBuilder) (start offset : Int) : Except String MysqlQueryBuilder :=
  match b.query with
  | none => Except.error "invalid memory address or nil pointer dereference"
  | some q =>
      if q.queryType ≠ "select" then Except.error "LIMIT can only be added to SELECT"
      else
        Except.ok { query := some { q with
          limit := " LIMIT " ++ toString start ++ ", " ++ toString offset } }

/-- The method `GetSQL`. -/
def GetSQL (b : MysqlQueryBuilder) : Except String String :=
  match b.query with
  | none => Except.error "invalid memory address or nil pointer dereference"
  | some q =>
      let sql := q.base
      let sql := if q.where_.length > 0 then sql ++ " WHERE " ++ " AND ".intercalate q.where_
                 else sql
      let sql := if q.limit ≠ "" then sql ++ q.limit else sql
      Except.ok (sql ++ ";")

end MysqlQueryBuilder

/-- The method `PostgresQueryBuilder.Limit`: the embedded `Limit`, then the limit in
PostgreSQL form. -/
def PostgresQueryBuilder.Limit (b : PostgresQueryBuilder) (start offset : Int) :
    Except String PostgresQueryBuilder :=
  match b.MysqlQueryBuilder.Limit start offset with
  | Except.error e => Except.error e
  | Except.ok m =>
      match m.query with
      | none => Except.error "invalid memory address or nil pointer dereference"
      | some q =>
          Except.ok { MysqlQueryBuilder := { query := some { q with
            limit := " LIMIT " ++ toString start ++ " OFFSET " ++ toString offset } } }

namespace SQLQueryBuilder

/-- The call `builder.Select(table, fields)` on an interface value.  On a
`*PostgresQueryBuilder` the method is the promoted `MysqlQueryBuilder.Select`, whose
receiver `b` is the embedded `*MysqlQueryBuilder`; `return b` hands back that pointer. -/
def Select : SQLQueryBuilder → String → List String → SQLQueryBuilder
  | mysql b, table, fields => mysql (b.Select table fields)
  | postgres p, table, fields => mysql (p.MysqlQueryBuilder.Select table fields)

/-- The call `builder.Where(field, value, operator)` on an interface value; promoted in
the same way on a `*PostgresQueryBuilder`. -/
def Where : SQLQueryBuilder → String → String → String → Except String SQLQueryBuilder
  | mysql b, field, value, operator =>
      match b.Where field value operator with
      | Except.error e => Except.error e
      | Except.ok m => Except.ok (mysql m)
  | postgres p, field, value, operator =>
      match p.MysqlQueryBuilder.Where field value operator with
      | Except.error e => Except.error e
      | Except.ok m => Except.ok (mysql m)

/-- The call `builder.Limit(start, offset)` on an interface value: dispatch on the
dynamic type. -/
def Limit : SQLQueryBuilder → Int → Int → Except String SQLQueryBuilder
  | mysql b, start, offset =>
      match b.Limit start offset with
      | Except.error e => Except.error e
      | Except.ok m => Except.ok (mysql m)
  | postgres p, start, offset =>
      match p.Limit start offset with
      | Except.error e => Except.error e
      | Except.ok m => Except.ok (postgres m)

/-- The call `builder.GetSQL()` on an interface value. -/
def GetSQL : SQLQueryBuilder → Except String String
  | mysql b => b.GetSQL
  | postgres p => p.MysqlQueryBuilder.GetSQL

end SQLQueryBuilder

/-- The chain `builder.Select(t, fs).Limit(s, o).GetSQL()`. -/
def selectLimitSQL (builder : SQLQueryBuilder) (table : String) (fields : List String)
    (start offset : Int) : Except String String :=
  match (builder.Select table fields).Limit start offset with
  | Except.error e => Except.error e
  | Except.ok b => b.GetSQL

/-- The function `clientCode`: the query it prints. -/
def clientCode (builder : SQLQueryBuilder) : Except String String :=
  match (builder.Select "users" ["name", "email", "password"]).Where "age" "18" ">" with
  | Except.error e => Except.error e
  | Except.ok b1 =>
      match b1.Where "age" "30" "<" with
      | Except.error e => Except.error e
      | Except.ok b2 =>
          match b2.Limit 10 20 with
          | Except.error e => Except.error e
          | Except.ok b3 => b3.GetSQL

/-- One call of the fluent chain after `Select`. -/
inductive Step where
  | Where (field value operator : String)
  | Limit (start offset : Int)
deriving DecidableEq, Repr

/-- The calls of a list made one after the other on the builder the chain has reached. -/
def chain : SQLQueryBuilder → List Step → Except String SQLQueryBuilder
  | b, [] => Except.ok b
  | b, Step.Where field value operator :: rest =>
      match b.Where field value operator with
      | Except.error e => Except.error e
      | Except.ok b1 => chain b1 rest
  | b, Step.Limit start offset :: rest =>
      match b.Limit start offset with
      | Except.error e => Except.error e
      | Except.ok b1 => chain b1 rest

/-- The `Where` calls for a list of conditions (field, value, operator), followed by the
`Limit` call when there is one. -/
def steps (conds : List (String × String × String)) (lim : Option (Int × Int)) : List Step :=
  conds.map (fun c => Step.Where c.1 c.2.1 c.2.2)
    ++ (match lim with
        | none => []
        | some l => [Step.Limit l.1 l.2])

/-- The text `field op 'value'` of a condition. -/
def condition (c : String × String × String) : String :=
  c.1 ++ " " ++ c.2.2 ++ " '" ++ c.2.1 ++ "'"

end SQL

/-! ## Prototype.go -/

namespace PrototypeGo

/-- A pointer: `none` is nil, `some a` the address of an allocated object. -/
abbrev Ptr := Option Nat

/-- The struct `Prototype`; `Component` is a `time.Time` value, kept as the instant it
denotes. -/
structure Prototype where
  Primitive : Int
  Component : Int
  CircularReference : Ptr
deriving DecidableEq, Repr

/-- The struct `ComponentWithBackReference`. -/
structure ComponentWithBackReference where
  Prototype : Ptr
deriving DecidableEq, Repr

/-- The heap: the allocated `Prototype` objects and the allocated
`ComponentWithBackReference` objects, each addressed by its position.  A new object is
allocated at the end. -/
structure Heap where
  prototypes : List Prototype
  components : List ComponentWithBackReference
deriving DecidableEq, Repr

/-- The method `Prototype.Clone` on the pointer `p`: the pointer it returns and the heap
after it; `none` is the panic of `*p` on a pointer to no object.  The local `clone`
escapes (its address is taken), so it is one heap object, `&clone` is its address in both
places, and the fields are those of `*p` with `CircularReference` replaced by the new
component. -/
def Clone (h : Heap) (p : Nat) : Option (Nat × Heap) :=
  match h.prototypes[p]? with
  | none => none
  | some obj =>
      let clone := h.prototypes.length
      let back := h.components.length
      some (clone,
        { prototypes := h.prototypes ++
            [{ Primitive := obj.Primitive, Component := obj.Component,
               CircularReference := some back }],
          components := h.components ++ [{ Prototype := some clone }] })

/-- The heap of `clientCode` before the call of `Clone`, for the instant `now`: the inner
`&Prototype{}` at address 0, `p1` at address 1, its component at address 0. -/
def clientHeap (now : Int) : Heap :=
  { prototypes := [{ Primitive := 0, Component := 0, CircularReference := none },
                   { Primitive := 245, Component := now, CircularReference := some 0 }],
    components := [{ Prototype := some 0 }] }

end PrototypeGo

/-! ## HomeAutomation.go -/

namespace HomeAutomation

/-- A value of the interface `Command`: one of the three concrete commands.  The
receivers (`Light`, `Thermostat`, `SecuritySystem`) have no fields and only print. -/
inductive Command where
  | LightOnCommand
  | ThermostatSetCommand (temperature : Int)
  | SecuritySystemActivateCommand
deriving DecidableEq, Repr

/-- A method call on a command. -/
inductive Call where
  | Execute (c : Command)
  | Undo (c : Command)
deriving DecidableEq, Repr

/-- The state of the program: the `commandHistory` of the controller, what has been
printed, and the calls made on commands so far, in order. -/
structure Home where
  commandHistory : List Command
  stdout : List String
  calls : List Call
deriving DecidableEq, Repr

namespace Command

/-- The line `Execute` prints through its receiver. -/
def executeLine : Command → String
  | LightOnCommand => "Light: Turned on"
  | ThermostatSetCommand temperature =>
      "Thermostat: Set temperature to " ++ toString temperature ++ "Â°C"
  | SecuritySystemActivateCommand => "SecuritySystem: Activated"

/-- The line `Undo` prints through its receiver. -/
def undoLine : Command → String
  | LightOnCommand => "Light: Turned off"
  | ThermostatSetCommand _ => "Thermostat: Reset to default temperature"
  | SecuritySystemActivateCommand => "SecuritySystem: Deactivated"

/-- The method `Execute`. -/
def Execute (c : Command) (s : Home) : Home :=
  { s with stdout := s.stdout ++ [c.executeLine], calls := s.calls ++ [Call.Execute c] }

/-- The method `Undo`. -/
def Undo (c : Command) (s : Home) : Home :=
  { s with stdout := s.stdout ++ [c.undoLine], calls := s.calls ++ [Call.Undo c] }

end Command

namespace HomeAutomationController

/-- The method `ExecuteCommand`: `cmd.Execute()`, then the append to the history. -/
def ExecuteCommand (s : Home) (cmd : Command) : Home :=
  let s1 := cmd.Execute s
  { s1 with commandHistory := s1.commandHistory ++ [cmd] }

/-- The method `UndoLastCommand`. -/
def UndoLastCommand (s : Home) : Home :=
  if s.commandHistory.length > 0 then
    match s.commandHistory.getLast? with
    | none => s
    | some lastCmd => lastCmd.Undo { s with commandHistory := s.commandHistory.dropLast }
  else s

/-- One `ExecuteCommand` call per command of the list, in order. -/
def executeAll (s : Home) (cmds : List Command) : Home := cmds.foldl ExecuteCommand s

/-- The given number of `UndoLastCommand` calls. -/
def undoTimes : Nat → Home → Home
  | 0, s => s
  | n + 1, s => undoTimes n (UndoLastCommand s)

end HomeAutomationController

end HomeAutomation

/-! ## Builder.go -/

namespace BuilderGo

/-- The struct `Product`. -/
structure Product where
  parts : List String
deriving DecidableEq, Repr

/-- The struct `ConcreteBuilder1`: `product` is a pointer, `none` is nil. -/
structure ConcreteBuilder1 where
  product : Option Nat
deriving DecidableEq, Repr

/-- The state the program acts on: the allocated `Product` objects, each addressed by its
position, and the one builder of `main`. -/
structure State where
  products : List Product
  builder : ConcreteBuilder1
deriving DecidableEq, Repr

/-- The step of the three `ProducePart` methods. -/
inductive Part where
  | A
  | B
  | C
deriving DecidableEq, Repr

/-- The string a step appends. -/
def Part.name : Part → String
  | Part.A => "PartA1"
  | Part.B => "PartB1"
  | Part.C => "PartC1"

/-- The function `NewConcreteBuilder1`, on a heap that holds `products`. -/
def NewConcreteBuilder1 (products : List Product) : State :=
  { products := products ++ [{ parts := [] }], builder := { product := some products.length } }

namespace ConcreteBuilder1

/-- The method `Reset`: `b.product = &Product{}`. -/
def Reset (s : State) : State :=
  { products := s.products ++ [{ parts := [] }],
    builder := { product := some s.products.length } }

/-- The body shared by `ProducePartA`, `ProducePartB` and `ProducePartC`:
`b.product.parts = append(b.product.parts, name)`; `none` is the panic on a nil
`b.product`. -/
def Produce (part : Part) (s : State) : Option State :=
  match s.builder.product with
  | none => none
  | some a =>
      match s.products[a]? with
      | none => none
      | some p => some { s with products := s.products.set a { parts := p.parts ++ [part.name] } }

/-- The method `ProducePartA`. -/
def ProducePartA (s : State) : Option State := Produce Part.A s

/-- The method `ProducePartB`. -/
def ProducePartB (s : State) : Option State := Produce Part.B s

/-- The method `ProducePartC`. -/
def ProducePartC (s : State) : Option State := Produce Part.C s

/-- The method `GetProduct`: the pointer it returns and the state after the `Reset`. -/
def GetProduct (s : State) : Option Nat × State := (s.builder.product, Reset s)

/-- The `ProducePart` calls of a list, in order. -/
def produceAll : State → List Part → Option State
  | s, [] => some s
  | s, part :: rest =>
      match Produce part s with
      | none => none
      | some s1 => produceAll s1 rest

end ConcreteBuilder1

namespace Director

/-- The method `BuildMinimalViableProduct`. -/
def BuildMinimalViableProduct (s : State) : Option State := ConcreteBuilder1.ProducePartA s

/-- The method `BuildFullFeaturedProduct`. -/
def BuildFullFeaturedProduct (s : State) : Option State :=
  match ConcreteBuilder1.ProducePartA s with
  | none => none
  | some s1 =>
      match ConcreteBuilder1.ProducePartB s1 with
      | none => none
      | some s2 => ConcreteBuilder1.ProducePartC s2

end Director

/-- The parts of the product a pointer refers to. -/
def partsAt (s : State) (p : Option Nat) : Option (List String) :=
  match p with
  | none => none
  | some a =>
      match s.products[a]? with
      | none => none
      | some q => some q.parts

end BuilderGo

/-! ## WebTemplate.go -/

namespace WebTemplate

/-- Whether the text starts with `old`. -/
def startsWith : List Char → List Char → Bool
  | [], _ => true
  | _ :: _, [] => false
  | p :: ps, c :: cs => p = c && startsWith ps cs

/-- The scan of `strings.ReplaceAll` for a non-empty `old`: `skip` counts the characters of
a matched instance that are still to be passed over. -/
def replaceAux (old new : List Char) : Nat → List Char → List Char
  | _, [] => []
  | skip + 1, _ :: cs => replaceAux old new skip cs
  | 0, c :: cs =>
      if startsWith old (c :: cs) then new ++ replaceAux old new (old.length - 1) cs
      else c :: replaceAux old new 0 cs

/-- The text with `new` before each of its characters and after the last one: what
`strings.ReplaceAll` does for an empty `old`. -/
def interleave (new : List Char) : List Char → List Char
  | [] => new
  | c :: cs => new ++ c :: interleave new cs

/-- The function `strings.ReplaceAll`: the non-overlapping instances of `old`, found from
the left, replaced by `new`. -/
def ReplaceAll (s old new : String) : String :=
  if old.toList = [] then String.mk (interleave new.toList s.toList)
  else String.mk (replaceAux old.toList new.toList 0 s.toList)

/-- The two renderers behind the interface `TemplateRenderer`. -/
inductive TemplateRenderer where
  | TwigRenderer
  | PHPTemplateRenderer
deriving DecidableEq, Repr

/-- The placeholder a renderer builds for a key: `{{ key }}` for Twig, `<?= $key; ?>`
for PHP. -/
def TemplateRenderer.placeholder : TemplateRenderer → String → String
  | TwigRenderer, key => "\x7b\x7b " ++ key ++ " \x7d\x7d"
  | PHPTemplateRenderer, key => "<?= $" ++ key ++ "; ?>"

/-- The first character of every placeholder of the renderer. -/
def TemplateRenderer.opening : TemplateRenderer → Char
  | TwigRenderer => Char.ofNat 123
  | PHPTemplateRenderer => '<'

/-- The method `Render` of both renderers.  `arguments` is the map as the `range` loop
visits it: its entries in visiting order, each value already formatted by `%v`. -/
def TemplateRenderer.Render (r : TemplateRenderer) (templateString : String)
    (arguments : List (String × String)) : String :=
  arguments.foldl (fun t kv => ReplaceAll t (r.placeholder kv.1) kv.2) templateString

/-- The two concrete factories behind the interface `TemplateFactory`. -/
inductive TemplateFactory where
  | TwigTemplateFactory
  | PHPTemplateFactory
deriving DecidableEq, Repr

namespace TemplateFactory

/-- The method `GetTemplateString` of the title template the factory creates. -/
def titleTemplateString : TemplateFactory → String
  | TwigTemplateFactory => "<h1>\x7b\x7b title \x7d\x7d</h1>"
  | PHPTemplateFactory => "<h1><?= $title; ?></h1>"

/-- The method `GetTemplateString` of the page template the factory creates. -/
def pageTemplateString : TemplateFactory → String
  | TwigTemplateFactory =>
      "\n\t\t<div class=\"page\">\n\t\t\t" ++ titleTemplateString TwigTemplateFactory
        ++ "\n\t\t\t<article class=\"content\">\x7b\x7b content \x7d\x7d</article>\n\t\t</div>\n\t"
  | PHPTemplateFactory =>
      "\n\t\t<div class=\"page\">\n\t\t\t" ++ titleTemplateString PHPTemplateFactory
        ++ "\n\t\t\t<article class=\"content\"><?= $content; ?></article>\n\t\t</div>\n\t"

/-- The method `GetRenderer`. -/
def GetRenderer : TemplateFactory → TemplateRenderer
  | TwigTemplateFactory => TemplateRenderer.TwigRenderer
  | PHPTemplateFactory => TemplateRenderer.PHPTemplateRenderer

end TemplateFactory

/-- The struct `Page`. -/
structure Page where
  title : String
  content : String
deriving DecidableEq, Repr

/-- The method `Page.Render`.  The map literal has the entries `title` and `content`;
`titleFirst` says which of the two the `range` loop of the renderer visits first. -/
def Page.Render (p : Page) (factory : TemplateFactory) (titleFirst : Bool) : String :=
  factory.GetRenderer.Render factory.pageTemplateString
    (if titleFirst then [("title", p.title), ("content", p.content)]
     else [("content", p.content), ("title", p.title)])

end WebTemplate

/-! ## Lemmas: base64 -/

namespace Base64

theorem decChar_encChar : ∀ n, n < 64 → decChar (encChar n) = some n := by decide

theorem decChar_pad : decChar '=' = none := by decide

theorem decodeAux_encode (bs : List Nat) (h : ∀ b ∈ bs, b < 256) :
    ∀ si, decodeAux [] si (encode bs) = (bs, none) := by
  induction bs using encode.induct with
  | case1 => intro si; rfl
  | case2 a =>
      intro si
      have ha : a < 256 := h a (by simp)
      have h0 := decChar_encChar (a / 4) (by omega)
      have h1 := decChar_encChar (a % 4 * 16) (by omega)
      simp [encode, decodeAux, h0, h1, decChar_pad, isNewline, decodePadding, skipNewlines,
        quantumBytes]
      omega
  | case3 a b =>
      intro si
      have ha : a < 256 := h a (by simp)
      have hb : b < 256 := h b (by simp)
      have h0 := decChar_encChar (a / 4) (by omega)
      have h1 := decChar_encChar (a % 4 * 16 + b / 16) (by omega)
      have h2 := decChar_encChar (b % 16 * 4) (by omega)
      simp [encode, decodeAux, h0, h1, h2, decChar_pad, isNewline, decodePadding, skipNewlines,
        quantumBytes]
      omega
  | case4 a b c rest ih =>
      intro si
      have ha : a < 256 := h a (by simp)
      have hb : b < 256 := h b (by simp)
      have hc : c < 256 := h c (by simp)
      have h0 := decChar_encChar (a / 4) (by omega)
      have h1 := decChar_encChar (a % 4 * 16 + b / 16) (by omega)
      have h2 := decChar_encChar (b % 16 * 4 + c / 64) (by omega)
      have h3 := decChar_encChar (c % 64) (by omega)
      have ih1 := ih (fun x hx => h x (by simp [hx]))
      simp [encode, decodeAux, h0, h1, h2, h3, ih1, quantumBytes]
      omega

theorem DecodeString_EncodeToString (bs : List Nat) (h : ∀ b ∈ bs, b < 256) :
    DecodeString (EncodeToString bs) = (bs, true) := by
  simp [DecodeString, EncodeToString, decodeAux_encode bs h]

end Base64

/-! ## Lemmas: the gob stream -/

namespace Gob

theorem putUintAux_byte (fuel : Nat) : ∀ n, ∀ b ∈ putUintAux fuel n, b < 256 := by
  induction fuel with
  | zero =>
      intro n b hb
      simp [putUintAux] at hb
      omega
  | succ k ih =>
      intro n b hb
      unfold putUintAux at hb
      split at hb
      · simp at hb; omega
      · simp only [List.mem_cons] at hb
        rcases hb with hb | hb
        · omega
        · exact ih _ b hb

theorem getUint_putUintAux (fuel : Nat) :
    ∀ n, n ≤ fuel → ∀ rest, getUint (putUintAux fuel n ++ rest) = some (n, rest) := by
  induction fuel with
  | zero =>
      intro n hn rest
      have : n = 0 := by omega
      subst this
      simp [putUintAux, getUint]
  | succ k ih =>
      intro n hn rest
      unfold putUintAux
      split
      · simp [getUint, *]
      · have h1 : ¬ (128 + n % 128 < 128) := by omega
        have h2 : 128 + n % 128 < 256 := by omega
        have h3 : 128 + n % 128 - 128 + 128 * (n / 128) = n := by omega
        rw [List.cons_append, getUint]
        simp only [h1, h2, if_true, if_false, ih (n / 128) (by omega) rest, h3]

theorem putUint_byte (n : Nat) : ∀ b ∈ putUint n, b < 256 := putUintAux_byte n n

theorem getUint_putUint (n : Nat) (rest : List Nat) :
    getUint (putUint n ++ rest) = some (n, rest) :=
  getUint_putUintAux n n (Nat.le_refl n) rest

theorem putInt_byte (i : Int) : ∀ b ∈ putInt i, b < 256 := by
  unfold putInt
  split <;> exact putUint_byte _

theorem putChars_byte (cs : List Char) : ∀ b ∈ putChars cs, b < 256 := by
  induction cs with
  | nil => simp [putChars]
  | cons c cs ih =>
      intro b hb
      simp only [putChars, List.mem_append] at hb
      rcases hb with hb | hb
      · exact putUint_byte _ b hb
      · exact ih b hb

theorem getChars_putChars (cs : List Char) (rest : List Nat) :
    getChars cs.length (putChars cs ++ rest) = some (cs, rest) := by
  induction cs with
  | nil => simp [putChars, getChars]
  | cons c cs ih =>
      simp only [putChars, List.length_cons, getChars, List.append_assoc, getUint_putUint,
        Char.ofNat_toNat, if_true, ih]

theorem putString_byte (s : String) : ∀ b ∈ putString s, b < 256 := by
  intro b hb
  simp only [putString, List.mem_append] at hb
  rcases hb with hb | hb
  · exact putUint_byte _ b hb
  · exact putChars_byte _ b hb

theorem getString_putString (s : String) (rest : List Nat) :
    getString (putString s ++ rest) = some (s, rest) := by
  simp only [putString, getString, List.append_assoc, getUint_putUint]
  have h : s.length = s.toList.length := rfl
  rw [h, getChars_putChars]
  rfl

end Gob

/-! ## Lemmas: the codec of the two programs -/

namespace Base64

theorem CorruptInputError_EncodeToString (bs : List Nat) (h : ∀ b ∈ bs, b < 256) :
    CorruptInputError (EncodeToString bs) = none := by
  simp [CorruptInputError, EncodeToString, decodeAux_encode bs h]

theorem DecodeString_snd (s : String) :
    (DecodeString s).2 = (CorruptInputError s).isNone := rfl

end Base64

namespace Gob

theorem putUint_ne_nil (n : Nat) (rest : List Nat) : putUint n ++ rest ≠ [] := by
  unfold putUint
  cases n with
  | zero => simp [putUintAux]
  | succ k =>
      unfold putUintAux
      split <;> simp

theorem putString_ne_nil (s : String) (rest : List Nat) : putString s ++ rest ≠ [] := by
  unfold putString
  rw [List.append_assoc]
  exact putUint_ne_nil _ _

end Gob

namespace DocumentProcessing

theorem doc_gobEncode_byte (c : Command) : ∀ b ∈ gobEncode c, b < 256 := by
  intro b hb
  simp only [gobEncode, List.mem_append] at hb
  rcases hb with ((hb | hb) | hb) | hb
  · exact Gob.putString_byte _ b hb
  · exact Gob.putInt_byte _ b hb
  · exact Gob.putInt_byte _ b hb
  · exact Gob.putString_byte _ b hb

theorem doc_gobDecode_gobEncode (c : Command) :
    gobDecode (gobEncode c) = Except.error (Gob.localInterfaceError c.typeName) := by
  have hne : gobEncode c ≠ [] := by
    unfold gobEncode
    rw [List.append_assoc, List.append_assoc]
    exact Gob.putString_ne_nil _ _
  unfold gobDecode
  rw [if_neg hne]
  unfold gobEncode
  rw [List.append_assoc, List.append_assoc, Gob.getString_putString]

theorem doc_gobDecode_error (data : List Nat) : ∃ e, gobDecode data = Except.error e := by
  unfold gobDecode
  split
  · exact ⟨_, rfl⟩
  · split
    · exact ⟨_, rfl⟩
    · exact ⟨_, rfl⟩

end DocumentProcessing

namespace WebScraping

theorem web_gobEncode_byte (c : Command) : ∀ b ∈ gobEncode c, b < 256 := by
  intro b hb
  simp only [gobEncode, List.mem_append] at hb
  rcases hb with (((hb | hb) | hb) | hb) | hb
  · exact Gob.putString_byte _ b hb
  · exact Gob.putInt_byte _ b hb
  · exact Gob.putInt_byte _ b hb
  · exact Gob.putString_byte _ b hb
  · cases c <;> simp at hb
    exact Gob.putInt_byte _ b hb

theorem web_gobDecode_gobEncode (c : Command) :
    gobDecode (gobEncode c) = Except.error (Gob.localInterfaceError c.typeName) := by
  have hne : gobEncode c ≠ [] := by
    unfold gobEncode
    rw [List.append_assoc, List.append_assoc, List.append_assoc]
    exact Gob.putString_ne_nil _ _
  unfold gobDecode
  rw [if_neg hne]
  unfold gobEncode
  rw [List.append_assoc, List.append_assoc, List.append_assoc, Gob.getString_putString]

theorem web_gobDecode_error (data : List Nat) : ∃ e, gobDecode data = Except.error e := by
  unfold gobDecode
  split
  · exact ⟨_, rfl⟩
  · split
    · exact ⟨_, rfl⟩
    · exact ⟨_, rfl⟩

end WebScraping

/-! ## Lemmas: the table -/

namespace DB

theorem le_maxRowid (rows : List Row) : ∀ r ∈ rows, r.id ≤ maxRowid rows := by
  induction rows with
  | nil => intro r hr; cases hr
  | cons a rows ih =>
      intro r hr
      have hfold : maxRowid (a :: rows) = max a.id (maxRowid rows) := rfl
      rw [hfold]
      rcases List.mem_cons.mp hr with h | h
      · subst h
        exact le_max_left _ _
      · exact le_trans (ih r h) (le_max_right _ _)

theorem lt_nextRowid (db : DB) : ∀ r ∈ db.rows, r.id < db.nextRowid := by
  intro r hr
  have h1 := le_maxRowid db.rows r hr
  have h2 : maxRowid db.rows ≤ max db.seq (maxRowid db.rows) := le_max_right _ _
  unfold nextRowid
  omega

theorem insert_rows (db : DB) (command : String) (status : Int) :
    (db.insert command status).rows
      = db.rows ++ [{ id := db.nextRowid, command := command, status := status }] := rfl

theorem update_ids (db : DB) (status id : Int) : (db.update status id).ids = db.ids := by
  simp only [ids, update, List.map_map]
  apply List.map_congr_left
  intro r _
  by_cases h : r.id = id <;> simp [h]

theorem ordered_iff (db : DB) : db.Ordered ↔ db.ids.Pairwise (fun a b => a < b) := by
  simp [Ordered, ids, List.pairwise_map]

theorem ordered_insert (db : DB) (command : String) (status : Int) (h : db.Ordered) :
    (db.insert command status).Ordered := by
  unfold Ordered at *
  rw [insert_rows, List.pairwise_append]
  refine ⟨h, by simp, ?_⟩
  intro a ha b hb
  simp only [List.mem_singleton] at hb
  subst hb
  exact lt_nextRowid db a ha

theorem ordered_update (db : DB) (status id : Int) (h : db.Ordered) :
    (db.update status id).Ordered := by
  rw [ordered_iff] at *
  rwa [update_ids]

theorem ordered_nodup (db : DB) (h : db.Ordered) : db.ids.Nodup := by
  rw [ordered_iff] at h
  exact h.imp (fun hab => ne_of_lt hab)


theorem update_update (db : DB) (status id : Int) :
    (db.update status id).update status id = db.update status id := by
  simp only [update, List.map_map]
  congr 1
  apply List.map_congr_left
  intro r _
  by_cases h : r.id = id <;> simp [h]

theorem update_of_fixed (db : DB) (status id : Int)
    (h : ∀ r ∈ db.rows, r.id = id → r.status = status) : db.update status id = db := by
  cases db with
  | mk rows seq =>
      simp only [update, DB.mk.injEq, and_true]
      conv_rhs => rw [← List.map_id rows]
      apply List.map_congr_left
      intro r hr
      by_cases hid : r.id = id
      · have hst := h r hr hid
        cases r
        simp_all
      · simp [hid]

theorem update_status (db : DB) (status id : Int) :
    ∀ r ∈ (db.update status id).rows, r.id = id → r.status = status := by
  intro r hr hid
  simp only [update, List.mem_map] at hr
  obtain ⟨q, _, hq⟩ := hr
  by_cases h : q.id = id
  · simp only [h, if_true] at hq
    rw [← hq]
  · simp only [h, if_false] at hq
    rw [hq] at h
    exact absurd hid h

theorem keeps_refl (a : DB) : a.Keeps a := fun r hr => ⟨r, hr, rfl, rfl⟩

theorem keeps_trans {a b c : DB} (hab : a.Keeps b) (hbc : b.Keeps c) : a.Keeps c := by
  intro r hr
  obtain ⟨q, hq, hid, hcmd⟩ := hab r hr
  obtain ⟨t, ht, hid2, hcmd2⟩ := hbc q hq
  exact ⟨t, ht, hid2.trans hid, hcmd2.trans hcmd⟩

theorem keeps_insert (a : DB) (command : String) (status : Int) :
    a.Keeps (a.insert command status) := by
  intro r hr
  exact ⟨r, by rw [insert_rows]; exact List.mem_append_left _ hr, rfl, rfl⟩

theorem keeps_update (a : DB) (status id : Int) : a.Keeps (a.update status id) := by
  intro r hr
  refine ⟨if r.id = id then { r with status := status } else r, ?_, ?_, ?_⟩
  · simp only [update, List.mem_map]
    exact ⟨r, hr, rfl⟩
  · split <;> rfl
  · split <;> rfl


theorem maxRowid_nonneg (rows : List Row) : 0 ≤ maxRowid rows := by
  induction rows with
  | nil => exact le_refl _
  | cons a rows ih =>
      have hfold : maxRowid (a :: rows) = max a.id (maxRowid rows) := rfl
      rw [hfold]
      exact le_trans ih (le_max_right _ _)

theorem one_le_nextRowid (db : DB) : 1 ≤ db.nextRowid := by
  have h1 := maxRowid_nonneg db.rows
  have h2 : maxRowid db.rows ≤ max db.seq (maxRowid db.rows) := le_max_right _ _
  unfold nextRowid
  omega

end DB

/-! ## Lemmas: the operations of the document queue -/

namespace DocumentProcessing

theorem Add_rows (w : World) (c : Command) :
    (Queue.Add w c).db.rows = w.db.rows ++
      [{ id := w.db.nextRowid, command := Base64.EncodeToString (gobEncode c),
         status := c.GetStatus }] := rfl

theorem GetCommand_cases (w : World) :
    Queue.GetCommand w = (none, w) ∨
      ∃ line : String, Queue.GetCommand w = (none, { w with stdout := w.stdout ++ [line] }) := by
  cases hsel : w.db.selectPending with
  | none =>
      left
      simp [Queue.GetCommand, hsel]
  | some row =>
      right
      cases hb : Base64.CorruptInputError row.command with
      | some offset =>
          exact ⟨"Error decoding command: illegal base64 data at input byte " ++ toString offset,
            by simp [Queue.GetCommand, hsel, hb]⟩
      | none =>
          obtain ⟨e, he⟩ := doc_gobDecode_error (Base64.DecodeString row.command).1
          exact ⟨"Error decoding command object: " ++ e,
            by simp [Queue.GetCommand, hsel, hb, he]⟩

theorem GetCommand_db (w : World) : (Queue.GetCommand w).2.db = w.db := by
  rcases GetCommand_cases w with h | ⟨line, h⟩ <;> rw [h]

theorem GetCommand_nil (w : World) : (Queue.GetCommand w).1 = none := by
  rcases GetCommand_cases w with h | ⟨line, h⟩ <;> rw [h]

theorem reachable_ordered {w : World} (h : Reachable w) : w.db.Ordered := by
  induction h with
  | empty => exact List.Pairwise.nil
  | add _ _ ih => exact DB.ordered_insert _ _ _ ih
  | get _ ih => rw [GetCommand_db]; exact ih
  | complete _ _ ih => exact DB.ordered_update _ _ _ ih

end DocumentProcessing

/-! ## Lemmas: fetching from the document queue -/

namespace DocumentProcessing

theorem GetCommand_of_no_pending (w : World) (h : w.db.selectPending = none) :
    Queue.GetCommand w = (none, w) := by
  simp [Queue.GetCommand, h]

theorem GetCommand_of_bad_base64 (w : World) (row : Row) (offset : Nat)
    (h : w.db.selectPending = some row)
    (hbad : Base64.CorruptInputError row.command = some offset) :
    Queue.GetCommand w = (none, { w with stdout := w.stdout ++
      ["Error decoding command: illegal base64 data at input byte " ++ toString offset] }) := by
  simp [Queue.GetCommand, h, hbad]

theorem GetCommand_of_gob_error (w : World) (row : Row) (err : String)
    (h : w.db.selectPending = some row)
    (hok : Base64.CorruptInputError row.command = none)
    (hbad : gobDecode (Base64.DecodeString row.command).1 = Except.error err) :
    Queue.GetCommand w = (none, { w with stdout := w.stdout ++
      ["Error decoding command object: " ++ err] }) := by
  simp [Queue.GetCommand, h, hok, hbad]

theorem GetCommand_of_encoded (w : World) (row : Row) (c : Command)
    (h : w.db.selectPending = some row)
    (hrow : row.command = Base64.EncodeToString (gobEncode c)) :
    Queue.GetCommand w = (none, { w with stdout := w.stdout ++
      ["Error decoding command object: " ++ Gob.localInterfaceError c.typeName] }) := by
  apply GetCommand_of_gob_error w row _ h
  · rw [hrow]
    exact Base64.CorruptInputError_EncodeToString _ (doc_gobEncode_byte c)
  · rw [hrow, Base64.DecodeString_EncodeToString _ (doc_gobEncode_byte c)]
    exact doc_gobDecode_gobEncode c

theorem GetCommands_nil : ∀ (n : Nat) (w : World),
    (Queue.GetCommands n w).1 = List.replicate n none ∧ (Queue.GetCommands n w).2.db = w.db := by
  intro n
  induction n with
  | zero => intro w; exact ⟨rfl, rfl⟩
  | succ n ih =>
      intro w
      obtain ⟨h1, h2⟩ := ih (Queue.GetCommand w).2
      refine ⟨?_, ?_⟩
      · simp only [Queue.GetCommands, h1, GetCommand_nil, List.replicate_succ]
      · simp only [Queue.GetCommands, h2, GetCommand_db]

theorem Work_succ (fuel : Nat) (w : World) :
    Queue.Work (fuel + 1) w
      = { world := (Queue.GetCommand w).2, executed := [], finished := true } := by
  rcases GetCommand_cases w with h | ⟨line, h⟩ <;> simp only [Queue.Work, h]

theorem find_pairwise {α : Type} (R : α → α → Prop) (p : α → Bool) (a : α) :
    ∀ l : List α, l.Pairwise R → l.find? p = some a →
      ∀ b ∈ l, p b = true → b = a ∨ R a b := by
  intro l
  induction l with
  | nil => intro _ h; simp at h
  | cons x xs ih =>
      intro hpw hfind b hb hpb
      rw [List.pairwise_cons] at hpw
      by_cases hx : p x = true
      · rw [List.find?_cons_of_pos _ hx] at hfind
        have hxa : x = a := Option.some.inj hfind
        subst hxa
        rcases List.mem_cons.mp hb with h | h
        · exact Or.inl h
        · exact Or.inr (hpw.1 b h)
      · rw [List.find?_cons_of_neg _ hx] at hfind
        rcases List.mem_cons.mp hb with h | h
        · subst h
          exact absurd hpb hx
        · exact ih hpw.2 hfind b h hpb

theorem selectPending_of_oldest (db : DB) (hord : db.Ordered) (r : Row) (hr : r ∈ db.rows)
    (hs : r.status = 0) (hmin : ∀ q ∈ db.rows, q.status = 0 → r.id ≤ q.id) :
    db.selectPending = some r := by
  unfold DB.selectPending
  cases hfind : db.rows.find? (fun r => decide (r.status = 0)) with
  | none =>
      rw [List.find?_eq_none] at hfind
      exact absurd (by simpa using hs) (hfind r hr)
  | some a =>
      have ha : a ∈ db.rows := List.mem_of_find?_eq_some hfind
      have hpa : a.status = 0 := by simpa using List.find?_some hfind
      rcases find_pairwise (fun a b : Row => a.id < b.id) _ a db.rows hord hfind r hr
          (by simpa using hs) with h | h
      · rw [h]
      · have := hmin a ha hpa
        omega

theorem selectPending_Add_of_none (w : World) (c : Command)
    (h : w.db.selectPending = none) (hc : c.GetStatus = 0) :
    (Queue.Add w c).db.selectPending = some
      { id := w.db.nextRowid, command := Base64.EncodeToString (gobEncode c), status := 0 } := by
  unfold DB.selectPending at *
  rw [Add_rows, List.find?_append, h, hc]
  rfl

end DocumentProcessing

/-! ## Lemmas: the matcher and the matches of a pattern -/

namespace Regexp

theorem accepts_length {as : List Atom} {t : List Char} (h : Accepts as t) :
    t.length = as.length := (List.Forall₂.length_eq h).symm

theorem atoms_some (as : List Atom) :
    ∀ (s m rest : List Char), atoms as s = some (m, rest) → s = m ++ rest ∧ Accepts as m := by
  induction as with
  | nil =>
      intro s m rest h
      simp only [atoms, Option.some.injEq, Prod.mk.injEq] at h
      obtain ⟨h1, h2⟩ := h
      subst h1 h2
      exact ⟨rfl, List.Forall₂.nil⟩
  | cons a as ih =>
      intro s m rest h
      cases s with
      | nil => simp [atoms] at h
      | cons c cs =>
          simp only [atoms] at h
          by_cases hacc : a.accepts c = true
          · simp only [hacc, if_true] at h
            cases hrec : atoms as cs with
            | none => simp [hrec] at h
            | some r =>
                obtain ⟨m1, rest1⟩ := r
                simp only [hrec, Option.some.injEq, Prod.mk.injEq] at h
                obtain ⟨h1, h2⟩ := h
                subst h1 h2
                obtain ⟨e1, e2⟩ := ih cs m1 rest1 hrec
                exact ⟨by rw [e1]; rfl, List.Forall₂.cons hacc e2⟩
          · simp [hacc] at h

theorem atoms_of_accepts (as : List Atom) :
    ∀ (m rest : List Char), Accepts as m → atoms as (m ++ rest) = some (m, rest) := by
  induction as with
  | nil =>
      intro m rest h
      cases h
      rfl
  | cons a as ih =>
      intro m rest h
      cases h with
      | cons hacc htail =>
          rename_i c cs
          have hrec := ih cs rest htail
          simp only [List.cons_append, atoms, hacc, if_true, List.append_eq, hrec]

theorem lazyUntil_some (stop : List Atom) :
    ∀ (s run rest : List Char), lazyUntil stop s = some (run, rest) →
      ∃ e, s = run ++ (e ++ rest) ∧ newline ∉ run ∧ Accepts stop e := by
  intro s
  induction s with
  | nil =>
      intro run rest h
      simp only [lazyUntil] at h
      cases hst : atoms stop [] with
      | none => simp [hst] at h
      | some r =>
          obtain ⟨e, rest1⟩ := r
          simp only [hst, Option.some.injEq, Prod.mk.injEq] at h
          obtain ⟨h1, h2⟩ := h
          subst h1 h2
          obtain ⟨e1, e2⟩ := atoms_some stop [] e rest1 hst
          exact ⟨e, by simpa using e1, by simp, e2⟩
  | cons c cs ih =>
      intro run rest h
      simp only [lazyUntil] at h
      cases hst : atoms stop (c :: cs) with
      | some r =>
          obtain ⟨e, rest1⟩ := r
          simp only [hst, Option.some.injEq, Prod.mk.injEq] at h
          obtain ⟨h1, h2⟩ := h
          subst h1 h2
          obtain ⟨e1, e2⟩ := atoms_some stop (c :: cs) e rest1 hst
          exact ⟨e, by simpa using e1, by simp, e2⟩
      | none =>
          simp only [hst] at h
          by_cases hc : c = newline
          · simp [hc] at h
          · simp only [hc, if_false] at h
            cases hrec : lazyUntil stop cs with
            | none => simp [hrec] at h
            | some r =>
                obtain ⟨run1, rest1⟩ := r
                simp only [hrec, Option.some.injEq, Prod.mk.injEq] at h
                obtain ⟨h1, h2⟩ := h
                subst h1 h2
                obtain ⟨e, e1, e2, e3⟩ := ih run1 rest1 hrec
                refine ⟨e, by rw [e1]; rfl, ?_, e3⟩
                intro hmem
                rcases List.mem_cons.mp hmem with h | h
                · exact hc h.symm
                · exact e2 h

theorem lazyUntil_of (stop : List Atom) (e rest : List Char) (he : Accepts stop e) :
    ∀ run : List Char, newline ∉ run →
      ∃ run1 rest1, lazyUntil stop (run ++ (e ++ rest)) = some (run1, rest1) ∧
        rest.length ≤ rest1.length := by
  intro run
  induction run with
  | nil =>
      intro _
      have hst := atoms_of_accepts stop e rest he
      refine ⟨[], rest, ?_, le_refl _⟩
      cases hs : e ++ rest with
      | nil =>
          rw [hs] at hst
          simp only [List.nil_append, hs, lazyUntil, hst]
      | cons c cs =>
          rw [hs] at hst
          simp only [List.nil_append, hs, lazyUntil, hst]
  | cons c run ih =>
      intro hnl
      have hc : c ≠ newline := fun h => hnl (by rw [h]; exact List.mem_cons_self _ _)
      have hrun : newline ∉ run := fun h => hnl (List.mem_cons_of_mem _ h)
      obtain ⟨run1, rest1, hrec, hlen⟩ := ih hrun
      simp only [List.cons_append, lazyUntil]
      cases hst : atoms stop (c :: (run ++ (e ++ rest))) with
      | some r =>
          obtain ⟨e2, rest2⟩ := r
          refine ⟨[], rest2, rfl, ?_⟩
          obtain ⟨e1, eacc⟩ := atoms_some stop _ e2 rest2 hst
          have hl1 := accepts_length he
          have hl2 := accepts_length eacc
          have hlen2 := congrArg List.length e1
          simp only [List.length_cons, List.length_append] at hlen2
          omega
      | none =>
          simp only [hc, if_false, List.append_eq, hrec]
          exact ⟨c :: run1, rest1, rfl, hlen⟩

theorem matchHere_some (p : Pattern) (s sub rest : List Char)
    (h : p.matchHere s = some (sub, rest)) : p.StartsWith s sub rest := by
  unfold Pattern.matchHere at h
  cases hb : atoms p.before s with
  | none => simp [hb] at h
  | some r1 =>
      obtain ⟨b, s1⟩ := r1
      simp only [hb] at h
      cases hi : atoms p.inside s1 with
      | none => simp [hi] at h
      | some r2 =>
          obtain ⟨i, s2⟩ := r2
          simp only [hi] at h
          cases hl : lazyUntil p.stop s2 with
          | none => simp [hl] at h
          | some r3 =>
              obtain ⟨run, rest1⟩ := r3
              simp only [hl, Option.some.injEq, Prod.mk.injEq] at h
              obtain ⟨h1, h2⟩ := h
              subst h1 h2
              obtain ⟨eb, hbacc⟩ := atoms_some _ _ _ _ hb
              obtain ⟨ei, hiacc⟩ := atoms_some _ _ _ _ hi
              obtain ⟨e, el, hnl, heacc⟩ := lazyUntil_some _ _ _ _ hl
              refine ⟨b ++ (i ++ run) ++ e, ?_, b, i, run, e, rfl, rfl, hbacc, hiacc, hnl, heacc⟩
              rw [eb, ei, el]
              simp

theorem matchHere_of_startsWith (p : Pattern) (s sub rest : List Char)
    (h : p.StartsWith s sub rest) :
    ∃ sub1 rest1, p.matchHere s = some (sub1, rest1) ∧ rest.length ≤ rest1.length := by
  obtain ⟨m, hs, b, i, run, e, hm, _, hb, hi, hnl, he⟩ := h
  have hs2 : s = b ++ (i ++ (run ++ (e ++ rest))) := by
    rw [hs, hm]
    simp
  obtain ⟨run1, rest1, hl, hlen⟩ := lazyUntil_of p.stop e rest he run hnl
  refine ⟨i ++ run1, rest1, ?_, hlen⟩
  unfold Pattern.matchHere
  rw [hs2, atoms_of_accepts p.before b _ hb]
  simp only [atoms_of_accepts p.inside i _ hi, hl]

theorem matchHere_none (p : Pattern) (s : List Char) (h : p.matchHere s = none) :
    ∀ sub rest, ¬ p.StartsWith s sub rest := by
  intro sub rest hst
  obtain ⟨sub1, rest1, h1, _⟩ := matchHere_of_startsWith p s sub rest hst
  rw [h] at h1
  cases h1

theorem isMatch_length (p : Pattern) (m sub : List Char) (h : p.IsMatch m sub) :
    p.before.length ≤ m.length := by
  obtain ⟨b, i, run, e, hm, _, hb, _, _, _⟩ := h
  have := accepts_length hb
  rw [hm]
  simp only [List.length_append]
  omega

theorem isMatch_sub (p : Pattern) (m sub : List Char) (h : p.IsMatch m sub) :
    sub = (m.drop p.before.length).take (m.length - p.before.length - p.stop.length) := by
  obtain ⟨b, i, run, e, hm, hsub, hb, _, _, he⟩ := h
  have hlb := accepts_length hb
  have hle := accepts_length he
  rw [hm, hsub]
  rw [List.append_assoc, List.drop_left' hlb]
  have hlen : (b ++ ((i ++ run) ++ e)).length - p.before.length - p.stop.length
      = (i ++ run).length := by
    simp only [List.length_append]
    omega
  rw [hlen, List.take_left]

theorem append_cancel_of_length {α : Type} (a b c d : List α) (h : a ++ b = c ++ d)
    (hlen : b.length = d.length) : a = c ∧ b = d := by
  have hl := congrArg List.length h
  simp only [List.length_append] at hl
  have hac : a.length = c.length := by omega
  exact List.append_inj h hac

/-- The matcher returns the successive matches of the specification. -/
theorem findAllAux_finds (p : Pattern) (hp : 0 < p.before.length) (fuel : Nat) :
    ∀ s : List Char, s.length ≤ fuel → p.Finds s (p.findAllAux fuel s) := by
  induction fuel with
  | zero =>
      intro s hs
      have : s = [] := List.length_eq_zero.mp (by omega)
      subst this
      refine Pattern.Finds.done [] ?_
      intro u v sub rest huv hst
      obtain ⟨m, hv, hm⟩ := hst
      have h1 := isMatch_length p m sub hm
      have h2 := congrArg List.length huv
      have h3 := congrArg List.length hv
      simp only [List.length_append, List.length_nil] at h2 h3
      omega
  | succ n ih =>
      intro s hs
      cases s with
      | nil =>
          refine Pattern.Finds.done [] ?_
          intro u v sub rest huv hst
          obtain ⟨m, hv, hm⟩ := hst
          have h1 := isMatch_length p m sub hm
          have h2 := congrArg List.length huv
          have h3 := congrArg List.length hv
          simp only [List.length_append, List.length_nil] at h2 h3
          omega
      | cons c cs =>
          simp only [Pattern.findAllAux]
          cases hmh : p.matchHere (c :: cs) with
          | some r =>
              obtain ⟨sub, rest⟩ := r
              simp only
              obtain ⟨m, hcs, hm⟩ := matchHere_some p _ _ _ hmh
              have hmlen := isMatch_length p m sub hm
              have hl := congrArg List.length hcs
              simp only [List.length_cons, List.length_append] at hl hs
              have hrest : rest.length ≤ n := by omega
              have hfound := Pattern.Finds.found [] m sub rest (p.findAllAux n rest) hm
                (by
                  intro u v sub1 rest1 huv hv
                  exact absurd (List.append_eq_nil.mp huv.symm).2 hv)
                (by
                  intro sub1 rest1 hst
                  rw [← hcs] at hst
                  obtain ⟨sub2, rest2, h2, hlen2⟩ := matchHere_of_startsWith p _ _ _ hst
                  rw [hmh] at h2
                  simp only [Option.some.injEq, Prod.mk.injEq] at h2
                  rw [← h2.2] at hlen2
                  exact hlen2)
                (ih rest hrest)
              rw [List.nil_append, ← hcs] at hfound
              exact hfound
          | none =>
              simp only
              simp only [List.length_cons] at hs
              have hrec := ih cs (by omega)
              have hno := matchHere_none p _ hmh
              generalize p.findAllAux n cs = subs at hrec
              cases hrec with
              | done _ hdone =>
                  refine Pattern.Finds.done _ ?_
                  intro u v sub rest huv hst
                  cases u with
                  | nil =>
                      simp only [List.nil_append] at huv
                      rw [← huv] at hst
                      exact hno sub rest hst
                  | cons x u1 =>
                      simp only [List.cons_append, List.cons.injEq] at huv
                      exact hdone u1 v sub rest huv.2 hst
              | found pre m sub rest subs1 hm hearly hshort hrest =>
                  have hfound := Pattern.Finds.found (c :: pre) m sub rest subs1 hm
                    (by
                      intro u v sub1 rest1 huv hv hst
                      cases u with
                      | nil =>
                          simp only [List.nil_append] at huv
                          rw [← huv] at hst
                          exact hno sub1 rest1 hst
                      | cons x u1 =>
                          simp only [List.cons_append, List.cons.injEq] at huv
                          exact hearly u1 v sub1 rest1 huv.2 hv hst)
                    hshort hrest
                  exact hfound

theorem findAllAux_of_no_match (p : Pattern) :
    ∀ (s : List Char), (∀ u v sub rest, s = u ++ v → ¬ p.StartsWith v sub rest) →
      ∀ fuel, p.findAllAux fuel s = [] := by
  intro s
  induction s with
  | nil =>
      intro _ fuel
      cases fuel <;> rfl
  | cons c cs ih =>
      intro h fuel
      cases fuel with
      | zero => rfl
      | succ n =>
          simp only [Pattern.findAllAux]
          cases hmh : p.matchHere (c :: cs) with
          | some r =>
              obtain ⟨sub, rest⟩ := r
              exact absurd (matchHere_some p _ _ _ hmh) (h [] (c :: cs) sub rest rfl)
          | none =>
              simp only
              exact ih (fun u v sub rest huv => h (c :: u) v sub rest (by rw [huv]; rfl)) n

/-- The successive matches of the specification are what the matcher returns. -/
theorem findAllAux_of_finds (p : Pattern) (hp : 0 < p.before.length) (s : List Char)
    (subs : List (List Char)) (h : p.Finds s subs) :
    ∀ fuel, s.length ≤ fuel → p.findAllAux fuel s = subs := by
  induction h with
  | done s hdone =>
      intro fuel _
      exact findAllAux_of_no_match p s hdone fuel
  | found pre m sub rest subs hm hearly hshort _ ih =>
      induction pre with
      | nil =>
          intro fuel hfuel
          have hmlen := isMatch_length p m sub hm
          simp only [List.nil_append, List.length_append] at hfuel ⊢
          obtain ⟨sub1, rest1, hmh, hlen1⟩ :=
            matchHere_of_startsWith p (m ++ rest) sub rest ⟨m, rfl, hm⟩
          obtain ⟨m1, hcs1, hm1⟩ := matchHere_some p _ _ _ hmh
          have hlen2 := hshort sub1 rest1 ⟨m1, hcs1, hm1⟩
          have heq := append_cancel_of_length m rest m1 rest1 hcs1 (by omega)
          have hsub : sub1 = sub := by
            rw [isMatch_sub p m1 sub1 hm1, isMatch_sub p m sub hm, heq.1]
          rw [hsub, ← heq.2] at hmh
          cases hmr : m ++ rest with
          | nil =>
              have := congrArg List.length hmr
              simp only [List.length_append, List.length_nil] at this
              omega
          | cons c cs =>
              rw [hmr] at hmh
              cases fuel with
              | zero =>
                  have := congrArg List.length hmr
                  simp only [List.length_append, List.length_cons] at this
                  omega
              | succ n =>
                  simp only [Pattern.findAllAux, hmh]
                  rw [ih n (by omega)]
      | cons x pre ihpre =>
          intro fuel hfuel
          simp only [List.cons_append, List.length_cons] at hfuel ⊢
          cases fuel with
          | zero => omega
          | succ n =>
              have hno : p.matchHere (x :: (pre ++ (m ++ rest))) = none := by
                cases hmh : p.matchHere (x :: (pre ++ (m ++ rest))) with
                | none => rfl
                | some r =>
                    obtain ⟨sub1, rest1⟩ := r
                    exact absurd (matchHere_some p _ _ _ hmh)
                      (hearly [] (x :: pre) sub1 rest1 rfl (by simp))
              simp only [Pattern.findAllAux, hno]
              exact ihpre
                (fun u v sub1 rest1 huv hv =>
                  hearly (x :: u) v sub1 rest1 (by rw [huv]; rfl) hv)
                n (by omega)

end Regexp

/-! ## Lemmas: the operations of the scraping queue -/

namespace WebScraping

theorem web_Add_rows (w : World) (c : Command) :
    (Queue.Add w c).db.rows = w.db.rows ++
      [{ id := w.db.nextRowid, command := Base64.EncodeToString (gobEncode c),
         status := c.GetStatus }] := rfl

theorem addGenrePages_rows (matched : List String) :
    ∀ w : World, ∃ news : List Row,
      (Command.addGenrePages w matched).db.rows = w.db.rows ++ news ∧
      news.length = matched.length ∧
      news.map (fun r => r.command) = matched.map (fun m => Base64.EncodeToString
        (gobEncode (Command.IMDBGenrePageScrapingCommand { ID := 0, Status := 0, URL := m } 1))) ∧
      ∀ r ∈ news, r.status = 0 ∧ ∀ old ∈ w.db.rows, old.id < r.id := by
  induction matched with
  | nil =>
      intro w
      exact ⟨[], by simp [Command.addGenrePages], rfl, rfl, by simp⟩
  | cons m ms ih =>
      intro w
      obtain ⟨news, hrows, hlen, hcmd, hnew⟩ :=
        ih (Queue.Add w (Command.IMDBGenrePageScrapingCommand { ID := 0, Status := 0, URL := m } 1))
      refine ⟨{ id := w.db.nextRowid,
                command := Base64.EncodeToString
                  (gobEncode (Command.IMDBGenrePageScrapingCommand
                    { ID := 0, Status := 0, URL := m } 1)),
                status := 0 } :: news, ?_, by simp [hlen], ?_, ?_⟩
      · have hstep : Command.addGenrePages w (m :: ms)
            = Command.addGenrePages
                (Queue.Add w
                  (Command.IMDBGenrePageScrapingCommand { ID := 0, Status := 0, URL := m } 1))
                ms := rfl
        rw [hstep, hrows, web_Add_rows, List.append_assoc, List.singleton_append]
        rfl
      · simp only [List.map_cons, hcmd]
      · intro r hr
        rcases List.mem_cons.mp hr with h | h
        · subst h
          exact ⟨rfl, fun old hold => DB.lt_nextRowid w.db old hold⟩
        · refine ⟨(hnew r h).1, fun old hold => (hnew r h).2 old ?_⟩
          rw [web_Add_rows]
          exact List.mem_append_left _ hold

theorem FindAllStringSubmatch_of_finds (p : Regexp.Pattern) (hp : 0 < p.before.length)
    (html : String) (subs : List (List Char)) (h : p.Finds html.toList subs) :
    p.FindAllStringSubmatch html = subs.map String.mk := by
  unfold Regexp.Pattern.FindAllStringSubmatch
  rw [Regexp.findAllAux_of_finds p hp html.toList subs h html.length (le_refl _)]

end WebScraping

/-! ## Properties of the two queues -/

namespace DocumentProcessing

/-- C8. In every store state reachable from the empty store by `Add`, `GetCommand` and
`CompleteCommand` the row ids are pairwise distinct, and every `Add` appends one row
whose id is strictly greater than every id already in the store. -/
theorem C8_row_ids_distinct_and_increasing (w : World) (h : Reachable w) :
    w.db.ids.Nodup ∧
    ∀ c : Command, ∃ r : Row, (Queue.Add w c).db.rows = w.db.rows ++ [r] ∧
      ∀ old ∈ w.db.rows, old.id < r.id := by
  refine ⟨DB.ordered_nodup _ (reachable_ordered h), ?_⟩
  intro c
  exact ⟨_, Add_rows w c, fun old hold => DB.lt_nextRowid w.db old hold⟩

/-- C8, at the store of `main` after its three `Add` calls: the store is reachable, its
ids are 1, 2, 3, and a fourth `Add` gets an id above all of them. -/
theorem C8_row_ids_witness :
    Reachable (mainAdds World.empty "Document1.pdf") ∧
    ((mainAdds World.empty "Document1.pdf").db.ids.Nodup ∧
      ∀ c : Command, ∃ r : Row,
        (Queue.Add (mainAdds World.empty "Document1.pdf") c).db.rows
          = (mainAdds World.empty "Document1.pdf").db.rows ++ [r] ∧
        ∀ old ∈ (mainAdds World.empty "Document1.pdf").db.rows, old.id < r.id) :=
  ⟨Reachable.add _ (Reachable.add _ (Reachable.add _ Reachable.empty)),
   C8_row_ids_distinct_and_increasing _
     (Reachable.add _ (Reachable.add _ (Reachable.add _ Reachable.empty)))⟩

end DocumentProcessing

/-- C7 as stated fails: `Add` of a command whose in-memory `Status` is 1 persists a row
whose status is 1, not Pending. -/
theorem C7_counterexample :
    (DocumentProcessing.Queue.Add DocumentProcessing.World.empty
        (DocumentProcessing.Command.PrintDocumentCommand
          { ID := 0, Status := 1, Document := "X.pdf" })).db.rows.map (fun r => (r.id, r.status))
      = [(1, 1)] := by
  decide

/-- C7, amended. For every command `c`, `Queue.Add(c)` of either program persists exactly
one new row, after the existing ones, and the status of that row is `c.GetStatus()`, so
it is Pending (0) when the in-memory `Status` of `c` is 0. -/
theorem C7_Add_persists_one_row_with_GetStatus :
    (∀ (w : DocumentProcessing.World) (c : DocumentProcessing.Command),
      ∃ r : Row, (DocumentProcessing.Queue.Add w c).db.rows = w.db.rows ++ [r] ∧
        r.status = c.GetStatus) ∧
    (∀ (w : WebScraping.World) (c : WebScraping.Command),
      ∃ r : Row, (WebScraping.Queue.Add w c).db.rows = w.db.rows ++ [r] ∧
        r.status = c.GetStatus) :=
  ⟨fun w c => ⟨_, DocumentProcessing.Add_rows w c, rfl⟩,
   fun w _ => ⟨_, DB.insert_rows w.db _ _, rfl⟩⟩

/-- C9, what the code does. For every document command and every scraping command `c`,
the payload that `Add` stores for `c` is well-formed base64 of the bytes that
`Encode(c)` wrote, and `Decode(&command)` on those bytes does not yield `c`: it returns the
error that the local type is an interface and a value of the concrete type of `c` was
received. So `GetCommand` on the store that holds only the row of a Pending `c` returns
nil, after printing that error in the document program and silently in the scraping
program. -/
theorem C9_Decode_rejects_what_Encode_wrote :
    (∀ (w : DocumentProcessing.World) (c : DocumentProcessing.Command),
      ∃ r : Row, (DocumentProcessing.Queue.Add w c).db.rows = w.db.rows ++ [r] ∧
        Base64.DecodeString r.command = (DocumentProcessing.gobEncode c, true) ∧
        DocumentProcessing.gobDecode (Base64.DecodeString r.command).1
          = Except.error (Gob.localInterfaceError c.typeName)) ∧
    (∀ (w : WebScraping.World) (c : WebScraping.Command),
      ∃ r : Row, (WebScraping.Queue.Add w c).db.rows = w.db.rows ++ [r] ∧
        Base64.DecodeString r.command = (WebScraping.gobEncode c, true) ∧
        WebScraping.gobDecode (Base64.DecodeString r.command).1
          = Except.error (Gob.localInterfaceError c.typeName)) ∧
    (∀ c : DocumentProcessing.Command,
      DocumentProcessing.Queue.GetCommand
          (DocumentProcessing.Queue.Add DocumentProcessing.World.empty (c.setStatus 0))
        = (none,
           { db := (DocumentProcessing.Queue.Add DocumentProcessing.World.empty
               (c.setStatus 0)).db,
             stdout := ["Error decoding command object: "
               ++ Gob.localInterfaceError c.typeName] })) ∧
    (∀ c : WebScraping.Command,
      WebScraping.Queue.GetCommand
        (WebScraping.Queue.Add WebScraping.World.empty (c.setStatus 0))
        = Except.ok none) := by
  refine ⟨?_, ?_, ?_, ?_⟩
  · intro w c
    refine ⟨_, DocumentProcessing.Add_rows w c, ?_, ?_⟩
    · exact Base64.DecodeString_EncodeToString _ (DocumentProcessing.doc_gobEncode_byte c)
    · simp only [Base64.DecodeString_EncodeToString _ (DocumentProcessing.doc_gobEncode_byte c),
        DocumentProcessing.doc_gobDecode_gobEncode]
  · intro w c
    refine ⟨_, DB.insert_rows w.db _ _, ?_, ?_⟩
    · exact Base64.DecodeString_EncodeToString _ (WebScraping.web_gobEncode_byte c)
    · simp only [Base64.DecodeString_EncodeToString _ (WebScraping.web_gobEncode_byte c),
        WebScraping.web_gobDecode_gobEncode]
  · intro c
    have hsel : (DocumentProcessing.Queue.Add DocumentProcessing.World.empty
        (c.setStatus 0)).db.selectPending
        = some { id := 1,
                 command := Base64.EncodeToString (DocumentProcessing.gobEncode (c.setStatus 0)),
                 status := 0 } := by
      cases c <;> rfl
    have hname : (c.setStatus 0).typeName = c.typeName := by
      cases c <;> rfl
    rw [DocumentProcessing.GetCommand_of_encoded _ _ _ hsel rfl, hname]
    rfl
  · intro c
    have hsel : (WebScraping.Queue.Add WebScraping.World.empty
        (c.setStatus 0)).db.selectPending
        = some { id := 1,
                 command := Base64.EncodeToString (WebScraping.gobEncode (c.setStatus 0)),
                 status := 0 } := by
      cases c <;> rfl
    unfold WebScraping.Queue.GetCommand
    simp only [hsel,
      Base64.DecodeString_EncodeToString _ (WebScraping.web_gobEncode_byte (c.setStatus 0)),
      WebScraping.web_gobDecode_gobEncode]

/-- C10. Self-expansion: for every store state, every genres command and every page text,
the genre-link pattern has its successive matches in the text (leftmost first, each the
shortest at its place), and whenever these have the submatches `subs`,
`IMDBGenresScrapingCommand.Parse` leaves the rows that were there as they are and appends
exactly one row per match, in order: the payload of each is the one `Add` stores for the
genre-page command of that link, each is Pending (0) and has an id greater than every id
that was in the store before the call. -/
theorem C10_Parse_adds_one_pending_row_per_match (w : WebScraping.World)
    (c : WebScraping.WebScrapingCommand) (html : String) :
    (∃ subs : List (List Char), Regexp.genreLink.Finds html.toList subs) ∧
    ∀ subs : List (List Char), Regexp.genreLink.Finds html.toList subs →
      ∃ news : List Row,
        ((WebScraping.Command.IMDBGenresScrapingCommand c).Parse w html).db.rows
          = w.db.rows ++ news ∧
        news.length = subs.length ∧
        news.map (fun r => r.command) = subs.map (fun m => Base64.EncodeToString
          (WebScraping.gobEncode (WebScraping.Command.IMDBGenrePageScrapingCommand
            { ID := 0, Status := 0, URL := String.mk m } 1))) ∧
        ∀ r ∈ news, r.status = 0 ∧ ∀ old ∈ w.db.rows, old.id < r.id := by
  refine ⟨⟨_, Regexp.findAllAux_finds Regexp.genreLink (by decide) html.length html.toList
    (le_refl _)⟩, ?_⟩
  intro subs hfinds
  have hall := WebScraping.FindAllStringSubmatch_of_finds Regexp.genreLink (by decide) html
    subs hfinds
  obtain ⟨news, h1, h2, h3, h4⟩ := WebScraping.addGenrePages_rows
    (Regexp.genreLink.FindAllStringSubmatch html)
    { w with stdout := w.stdout ++
        ["IMDBGenresScrapingCommand: Discovered "
          ++ toString (Regexp.genreLink.FindAllStringSubmatch html).length ++ " genres."] }
  refine ⟨news, h1, ?_, ?_, h4⟩
  · rw [h2, hall, List.length_map]
  · rw [h3, hall, List.map_map]
    rfl

set_option maxRecDepth 100000 in
/-- C10, at the page with two genre links, the second with other characters in the place
of the two dots of the pattern: the pattern has these two matches, and `Parse` on the
empty store appends two Pending rows with ids 1 and 2. -/
theorem C10_Parse_witness :
    Regexp.genreLink.Finds WebScraping.genresPage.toList
      ["https://www.imdb.com/search/title?genres=comedy".toList,
       "https://wwwXimdbYcom/search/title?genres=drama".toList] ∧
    (∃ news : List Row,
      ((WebScraping.Command.IMDBGenresScrapingCommand
          { ID := 0, Status := 0, URL := "https://www.imdb.com/feature/genre/" }).Parse
        WebScraping.World.empty WebScraping.genresPage).db.rows
        = WebScraping.World.empty.db.rows ++ news ∧
      news.length =
        ["https://www.imdb.com/search/title?genres=comedy".toList,
         "https://wwwXimdbYcom/search/title?genres=drama".toList].length ∧
      news.map (fun r => r.command) =
        ["https://www.imdb.com/search/title?genres=comedy".toList,
         "https://wwwXimdbYcom/search/title?genres=drama".toList].map
          (fun m => Base64.EncodeToString
            (WebScraping.gobEncode (WebScraping.Command.IMDBGenrePageScrapingCommand
              { ID := 0, Status := 0, URL := String.mk m } 1))) ∧
      ∀ r ∈ news, r.status = 0 ∧ ∀ old ∈ WebScraping.World.empty.db.rows, old.id < r.id) ∧
    ((WebScraping.Command.IMDBGenresScrapingCommand
          { ID := 0, Status := 0, URL := "https://www.imdb.com/feature/genre/" }).Parse
        WebScraping.World.empty WebScraping.genresPage).db.rows.map
      (fun r => (r.id, r.status)) = [(1, 0), (2, 0)] := by
  have hev : Regexp.genreLink.findAllAux WebScraping.genresPage.length
      WebScraping.genresPage.toList
      = ["https://www.imdb.com/search/title?genres=comedy".toList,
         "https://wwwXimdbYcom/search/title?genres=drama".toList] := by
    decide
  have hfinds := Regexp.findAllAux_finds Regexp.genreLink (by decide)
    WebScraping.genresPage.length WebScraping.genresPage.toList (le_refl _)
  rw [hev] at hfinds
  refine ⟨hfinds, (C10_Parse_adds_one_pending_row_per_match _ _ _).2 _ hfinds, ?_⟩
  decide

namespace DocumentProcessing

/-- C1, what the code does at the scenario of `main`. After the three `Add` calls over one
document, `Queue.Work` reaches its `break` in its first iteration: `GetCommand` reads the
row of the Print command, `Decode(&command)` fails on it, the error is printed and nil is
returned. `Execute` is invoked 0 times (not 3 times), and the three rows still have status
Pending (0). -/
theorem C1_Work_executes_nothing (document : String) (fuel : Nat) :
    (Queue.Work (fuel + 1) (mainAdds World.empty document)).finished = true ∧
    (Queue.Work (fuel + 1) (mainAdds World.empty document)).executed = [] ∧
    (Queue.Work (fuel + 1) (mainAdds World.empty document)).world.db.rows.map
      (fun r => (r.id, r.status)) = [(1, 0), (2, 0), (3, 0)] ∧
    (Queue.Work (fuel + 1) (mainAdds World.empty document)).world.stdout
      = ["Error decoding command object: " ++ Gob.localInterfaceError "PrintDocumentCommand"] ∧
    (main (fuel + 1) World.empty).executed = [] ∧
    (main (fuel + 1) World.empty).world.stdout
      = ["Error decoding command object: gob: local interface type *main.Command can only be decoded from remote interface type; received concrete type PrintDocumentCommand"] := by
  have hget : ∀ d : String, Queue.GetCommand (mainAdds World.empty d)
      = (none, { (mainAdds World.empty d) with stdout := [] ++
          ["Error decoding command object: "
            ++ Gob.localInterfaceError "PrintDocumentCommand"] }) := fun d =>
    GetCommand_of_encoded (mainAdds World.empty d)
      { id := 1,
        command := Base64.EncodeToString (gobEncode
          (Command.PrintDocumentCommand { ID := 0, Status := 0, Document := d })),
        status := 0 }
      (Command.PrintDocumentCommand { ID := 0, Status := 0, Document := d }) rfl rfl
  refine ⟨?_, ?_, ?_, ?_, ?_, ?_⟩
  · rw [Work_succ]
  · rw [Work_succ]
  · rw [Work_succ, GetCommand_db]
    rfl
  · rw [Work_succ, hget]
    rfl
  · show (Queue.Work (fuel + 1) (mainAdds World.empty "Document1.pdf")).executed = []
    rw [Work_succ]
  · show (Queue.Work (fuel + 1) (mainAdds World.empty "Document1.pdf")).world.stdout = _
    rw [Work_succ, hget]
    decide

/-- C2, what the code does. A command `c` with `Status` 0 is added to a store without a
Pending row: it is persisted in a new row whose id `i` is the next rowid (at least 1 and
above all other ids), and that row is the one `GetCommand` reads. `GetCommand` returns nil
for it, after printing the error of `Decode(&command)`: no command that reports
`GetID() = i` is returned. -/
theorem C2_GetCommand_returns_no_command_for_the_row (w : World) (c : Command)
    (hw : w.db.selectPending = none) (hc : c.GetStatus = 0) :
    (Queue.Add w c).db.rows = w.db.rows ++
      [{ id := w.db.nextRowid, command := Base64.EncodeToString (gobEncode c), status := 0 }] ∧
    1 ≤ w.db.nextRowid ∧
    (∀ old ∈ w.db.rows, old.id < w.db.nextRowid) ∧
    (Queue.Add w c).db.selectPending = some
      { id := w.db.nextRowid, command := Base64.EncodeToString (gobEncode c), status := 0 } ∧
    (Queue.GetCommand (Queue.Add w c)).1 = none ∧
    (Queue.GetCommand (Queue.Add w c)).2.stdout = w.stdout ++
      ["Error decoding command object: " ++ Gob.localInterfaceError c.typeName] := by
  have hsel := selectPending_Add_of_none w c hw hc
  have hget := GetCommand_of_encoded (Queue.Add w c) _ c hsel rfl
  refine ⟨?_, DB.one_le_nextRowid w.db, DB.lt_nextRowid w.db, hsel, ?_, ?_⟩
  · rw [Add_rows, hc]
  · rw [hget]
  · rw [hget]
    rfl

/-- C2, at the first command of `main` on the empty store: the Print command has
`GetID() = 0`, it is persisted in the row with id 1, and `GetCommand` returns nil. -/
theorem C2_GetCommand_witness :
    (Command.PrintDocumentCommand { ID := 0, Status := 0, Document := "Document1.pdf" }).GetID
      = 0 ∧
    World.empty.db.selectPending = none ∧
    (Queue.Add World.empty
      (Command.PrintDocumentCommand
        { ID := 0, Status := 0, Document := "Document1.pdf" })).db.ids = [1] ∧
    (Queue.GetCommand (Queue.Add World.empty
      (Command.PrintDocumentCommand
        { ID := 0, Status := 0, Document := "Document1.pdf" }))).1 = none :=
  ⟨rfl, rfl, rfl,
   (C2_GetCommand_returns_no_command_for_the_row World.empty
      (Command.PrintDocumentCommand { ID := 0, Status := 0, Document := "Document1.pdf" })
      rfl rfl).2.2.2.2.1⟩

/-- C3. For every store state and every command `c`: after `c` has run `Complete`, the
next `GetCommand` returns nil, and so does every `GetCommand` in every store state that
follows through further `Add`, `GetCommand` and `CompleteCommand` calls. No subsequent
`GetCommand` returns a command, so none returns the command of the completed row. -/
theorem C3_no_GetCommand_returns_the_completed_command (w : World) (c : Command) :
    (Queue.GetCommand (c.Complete w).2).1 = none ∧
    ∀ v : World, After (c.Complete w).2 v → (Queue.GetCommand v).1 = none :=
  ⟨GetCommand_nil _, fun v _ => GetCommand_nil v⟩

/-- C4, what the code does. In every store state `GetCommand` returns nil, also when a
Pending row exists: after `Add` of any command with `Status` 0 the store has a Pending
row, and `GetCommand` returns nil and not the command of the oldest Pending row. -/
theorem C4_GetCommand_returns_nil_with_a_pending_row (w : World) :
    (Queue.GetCommand w).1 = none ∧
    ∀ c : Command, c.GetStatus = 0 →
      (∃ r ∈ (Queue.Add w c).db.rows, r.status = 0) ∧
      (Queue.Add w c).db.selectPending ≠ none ∧
      (Queue.GetCommand (Queue.Add w c)).1 = none := by
  refine ⟨GetCommand_nil w, ?_⟩
  intro c hc
  have hmem : ∃ r ∈ (Queue.Add w c).db.rows, r.status = 0 := by
    rw [Add_rows]
    exact ⟨_, List.mem_append_right _ (List.mem_singleton_self _), hc⟩
  refine ⟨hmem, ?_, GetCommand_nil _⟩
  intro hnone
  obtain ⟨r, hr, hs⟩ := hmem
  unfold DB.selectPending at hnone
  rw [List.find?_eq_none] at hnone
  have := hnone r hr
  simp [hs] at this

/-- C5, what the code does. For every N and commands c1 .. cN: starting from the empty
store, after the N `Add` calls (which store N rows) and no `CompleteCommand` call, each
of N consecutive `GetCommand` calls (of any number of calls) returns nil, and the calls
leave the table as it was. None of the inserted commands is returned. -/
theorem C5_GetCommands_return_nil (cs : List Command) (n : Nat) :
    (Queue.AddAll World.empty cs).db.rows.length = cs.length ∧
    (Queue.GetCommands cs.length (Queue.AddAll World.empty cs)).1
      = List.replicate cs.length none ∧
    (Queue.GetCommands n (Queue.AddAll World.empty cs)).1 = List.replicate n none ∧
    (Queue.GetCommands n (Queue.AddAll World.empty cs)).2.db
      = (Queue.AddAll World.empty cs).db := by
  refine ⟨?_, (GetCommands_nil _ _).1, (GetCommands_nil _ _).1, (GetCommands_nil _ _).2⟩
  have hlen : ∀ (l : List Command) (w : World),
      (Queue.AddAll w l).db.rows.length = w.db.rows.length + l.length := by
    intro l
    induction l with
    | nil => intro w; rfl
    | cons c l ih =>
        intro w
        have hstep : Queue.AddAll w (c :: l) = Queue.AddAll (Queue.Add w c) l := rfl
        rw [hstep, ih, Add_rows]
        simp
        omega
  rw [hlen]
  simp [World.empty, DB.empty]


/-- C6 as stated fails: `CompleteCommand` with a command whose `ID` is 1 and whose `Status`
is 0 moves row 1 from Complete (1) back to Pending (0). -/
theorem C6_counterexample :
    (Queue.CompleteCommand
      { db := { rows := [{ id := 1, command := "", status := 1 }], seq := 1 }, stdout := [] }
      (Command.PrintDocumentCommand { ID := 1, Status := 0, Document := "X.pdf" })).db.rows
      = [{ id := 1, command := "", status := 0 }] := by
  decide

/-- C6, amended. For every store state, every row whose status is Complete (1) is still
there, with the same id, payload and status, after any call of `Add` or `GetCommand`,
after `CompleteCommand` with any command whose `GetStatus()` is 1 or whose `GetID()` is
not the id of the row, and after `Complete` or `Execute` of any command (these pass
`Status` 1 to `CompleteCommand`). -/
theorem C6_complete_rows_stay_complete (w : World) (r : Row) (hr : r ∈ w.db.rows)
    (hs : r.status = 1) :
    (∀ c : Command, r ∈ (Queue.Add w c).db.rows) ∧
    r ∈ (Queue.GetCommand w).2.db.rows ∧
    (∀ c : Command, c.GetStatus = 1 ∨ c.GetID ≠ r.id → r ∈ (Queue.CompleteCommand w c).db.rows) ∧
    (∀ c : Command, r ∈ (c.Complete w).2.db.rows) ∧
    (∀ c : Command, r ∈ (c.Execute w).2.db.rows) := by
  have hupd : ∀ status id : Int, status = 1 ∨ id ≠ r.id → r ∈ (w.db.update status id).rows := by
    intro status id h
    simp only [DB.update, List.mem_map]
    refine ⟨r, hr, ?_⟩
    by_cases hid : r.id = id
    · rcases h with h | h
      · simp only [hid, if_true, h]
        cases r
        simp_all
      · exact absurd hid.symm h
    · simp [hid]
  have hone : ∀ c : Command, (c.setStatus 1).GetStatus = 1 := by
    intro c
    cases c <;> rfl
  refine ⟨?_, ?_, ?_, ?_, ?_⟩
  · intro c
    rw [Add_rows]
    exact List.mem_append_left _ hr
  · rw [GetCommand_db]
    exact hr
  · intro c h
    exact hupd _ _ h
  · intro c
    exact hupd _ _ (Or.inl (hone c))
  · intro c
    exact hupd _ _ (Or.inl (hone c))

/-- C6, amended, at a store with one Complete row: the row survives `Add`, `GetCommand`,
`CompleteCommand` with `Status` 1, `Complete` and `Execute`. -/
theorem C6_complete_rows_witness :
    ({ id := 1, command := "", status := 1 } : Row) ∈
      ({ db := { rows := [{ id := 1, command := "", status := 1 }], seq := 1 },
         stdout := [] } : World).db.rows ∧
    (∀ c : Command, c.GetStatus = 1 ∨ c.GetID ≠ 1 →
      ({ id := 1, command := "", status := 1 } : Row) ∈
        (Queue.CompleteCommand
          { db := { rows := [{ id := 1, command := "", status := 1 }], seq := 1 }, stdout := [] }
          c).db.rows) :=
  ⟨by decide,
   (C6_complete_rows_stay_complete
      { db := { rows := [{ id := 1, command := "", status := 1 }], seq := 1 }, stdout := [] }
      { id := 1, command := "", status := 1 } (by decide) rfl).2.2.1⟩

end DocumentProcessing

/-! ## Lemmas: completion and preservation of rows -/

namespace DocumentProcessing

theorem setStatus_GetStatus (c : Command) (v : Int) : (c.setStatus v).GetStatus = v := by
  cases c <;> rfl

theorem setStatus_GetID (c : Command) (v : Int) : (c.setStatus v).GetID = c.GetID := by
  cases c <;> rfl

theorem setStatus_setStatus (c : Command) (v : Int) :
    (c.setStatus v).setStatus v = c.setStatus v := by
  cases c <;> rfl

theorem Complete_world (c : Command) (w : World) :
    (c.Complete w).2 = { w with db := w.db.update 1 c.GetID } := by
  simp only [Command.Complete, Queue.CompleteCommand, setStatus_GetStatus, setStatus_GetID]

theorem Work_keeps (fuel : Nat) : ∀ w : World, w.db.Keeps (Queue.Work fuel w).world.db := by
  induction fuel with
  | zero => intro w; exact DB.keeps_refl _
  | succ n ih =>
      intro w
      unfold Queue.Work
      cases hget : Queue.GetCommand w with
      | mk x w1 =>
          have hdb : w1.db = w.db := by
            have h := GetCommand_db w
            rw [hget] at h
            exact h
          cases x with
          | none =>
              simp only
              rw [hdb]
              exact DB.keeps_refl _
          | some command =>
              simp only
              refine DB.keeps_trans ?_ (ih _)
              rw [← hdb]
              exact DB.keeps_update _ _ _

/-- C12. `Complete` is idempotent: for every store state and every command `c`, running
`c.Complete()` a second time (on the command as the first run left it, or on `c` as it
was) leaves the store exactly as the first run left it; after it every row with the id of
`c` has status Complete (1), and every row that had that id before is still there with
status 1. -/
theorem C12_Complete_twice_is_Complete_once (w : World) (c : Command) :
    ((c.Complete w).1.Complete (c.Complete w).2).2 = (c.Complete w).2 ∧
    (c.Complete (c.Complete w).2).2 = (c.Complete w).2 ∧
    (∀ r ∈ (c.Complete w).2.db.rows, r.id = c.GetID → r.status = 1) ∧
    (∀ r ∈ w.db.rows, r.id = c.GetID → { r with status := 1 } ∈ (c.Complete w).2.db.rows) := by
  refine ⟨?_, ?_, ?_, ?_⟩
  · simp only [Command.Complete, Queue.CompleteCommand, setStatus_GetStatus, setStatus_GetID,
      setStatus_setStatus, DB.update_update]
  · simp only [Command.Complete, Queue.CompleteCommand, setStatus_GetStatus, setStatus_GetID,
      DB.update_update]
  · rw [Complete_world]
    exact DB.update_status w.db 1 c.GetID
  · intro r hr hid
    rw [Complete_world]
    simp only [DB.update, List.mem_map]
    exact ⟨r, hr, by simp [hid]⟩

/-- C13 as stated fails: in a store whose only row has id 1 and is Complete, with nothing
printed so far, `CompleteCommand` with a command of id 7 (no such row) and with a command
of id 1 (row already Complete) returns the very same process state: nothing is reported,
the call succeeds silently. -/
theorem C13_counterexample :
    Queue.CompleteCommand
        { db := { rows := [{ id := 1, command := "", status := 1 }], seq := 1 }, stdout := [] }
        (Command.PrintDocumentCommand { ID := 7, Status := 1, Document := "X.pdf" })
      = { db := { rows := [{ id := 1, command := "", status := 1 }], seq := 1 }, stdout := [] } ∧
    Queue.CompleteCommand
        { db := { rows := [{ id := 1, command := "", status := 1 }], seq := 1 }, stdout := [] }
        (Command.PrintDocumentCommand { ID := 1, Status := 1, Document := "X.pdf" })
      = { db := { rows := [{ id := 1, command := "", status := 1 }], seq := 1 }, stdout := [] } := by
  decide

end DocumentProcessing

/-- C13, amended. In both programs, for every store state and every command,
`CompleteCommand` reports nothing (it has no result and prints nothing); it leaves the
whole process state unchanged when the id of the command matches no row, and also when
the command has `Status` 1 and every row with its id is already Complete. -/
theorem C13_CompleteCommand_is_silent :
    (∀ (w : DocumentProcessing.World) (c : DocumentProcessing.Command),
      (DocumentProcessing.Queue.CompleteCommand w c).stdout = w.stdout ∧
      ((∀ r ∈ w.db.rows, r.id ≠ c.GetID) → DocumentProcessing.Queue.CompleteCommand w c = w) ∧
      (c.GetStatus = 1 → (∀ r ∈ w.db.rows, r.id = c.GetID → r.status = 1) →
        DocumentProcessing.Queue.CompleteCommand w c = w)) ∧
    (∀ (w : WebScraping.World) (c : WebScraping.Command),
      (WebScraping.Queue.CompleteCommand w c).stdout = w.stdout ∧
      ((∀ r ∈ w.db.rows, r.id ≠ c.GetID) → WebScraping.Queue.CompleteCommand w c = w) ∧
      (c.GetStatus = 1 → (∀ r ∈ w.db.rows, r.id = c.GetID → r.status = 1) →
        WebScraping.Queue.CompleteCommand w c = w)) := by
  constructor
  · intro w c
    refine ⟨rfl, ?_, ?_⟩
    · intro h
      unfold DocumentProcessing.Queue.CompleteCommand
      rw [DB.update_of_fixed _ _ _ (fun r hr hid => absurd hid (h r hr))]
    · intro hc h
      unfold DocumentProcessing.Queue.CompleteCommand
      rw [DB.update_of_fixed _ _ _ (fun r hr hid => by rw [hc]; exact h r hr hid)]
  · intro w c
    refine ⟨rfl, ?_, ?_⟩
    · intro h
      unfold WebScraping.Queue.CompleteCommand
      rw [DB.update_of_fixed _ _ _ (fun r hr hid => absurd hid (h r hr))]
    · intro hc h
      unfold WebScraping.Queue.CompleteCommand
      rw [DB.update_of_fixed _ _ _ (fun r hr hid => by rw [hc]; exact h r hr hid)]

/-- C13, amended, at a store whose only row has id 1 and is Complete: a command of id 7
and a command of id 1 with `Status` 1 both leave the process state as it was. -/
theorem C13_CompleteCommand_witness :
    DocumentProcessing.Queue.CompleteCommand
        { db := { rows := [{ id := 1, command := "", status := 1 }], seq := 1 }, stdout := [] }
        (DocumentProcessing.Command.SaveDocumentCommand
          { ID := 7, Status := 1, Document := "X.pdf" })
      = { db := { rows := [{ id := 1, command := "", status := 1 }], seq := 1 }, stdout := [] } ∧
    DocumentProcessing.Queue.CompleteCommand
        { db := { rows := [{ id := 1, command := "", status := 1 }], seq := 1 }, stdout := [] }
        (DocumentProcessing.Command.SaveDocumentCommand
          { ID := 1, Status := 1, Document := "X.pdf" })
      = { db := { rows := [{ id := 1, command := "", status := 1 }], seq := 1 }, stdout := [] } :=
  ⟨(C13_CompleteCommand_is_silent.1 _ _).2.1 (by decide),
   (C13_CompleteCommand_is_silent.1 _ _).2.2 rfl (by decide)⟩

namespace DocumentProcessing

/-- C18. No deletion: for every store state, after any call of `Add`, `GetCommand`,
`CompleteCommand` or `Execute`, and at every point of a run of `Work`, every row that was
in the store before the call is still there under the same id and with the same payload;
so completed commands stay in the store. -/
theorem C18_rows_are_never_deleted (w : World) :
    (∀ c : Command, w.db.Keeps (Queue.Add w c).db) ∧
    w.db.Keeps (Queue.GetCommand w).2.db ∧
    (∀ c : Command, w.db.Keeps (Queue.CompleteCommand w c).db) ∧
    (∀ c : Command, w.db.Keeps (c.Execute w).2.db) ∧
    (∀ fuel : Nat, w.db.Keeps (Queue.Work fuel w).world.db) := by
  refine ⟨?_, ?_, ?_, ?_, ?_⟩
  · intro c
    exact DB.keeps_insert _ _ _
  · rw [GetCommand_db]
    exact DB.keeps_refl _
  · intro c
    exact DB.keeps_update _ _ _
  · intro c
    exact DB.keeps_update _ _ _
  · intro fuel
    exact Work_keeps fuel w

/-- C19 as stated fails: `Add` of a command whose `Status` is 2 to the empty store gives a
reachable store state whose row has status 2, neither Pending nor Complete. -/
theorem C19_counterexample :
    ReachableWith (fun _ => True)
      (Queue.Add World.empty
        (Command.PrintDocumentCommand { ID := 0, Status := 2, Document := "X.pdf" })) ∧
    (Queue.Add World.empty
      (Command.PrintDocumentCommand { ID := 0, Status := 2, Document := "X.pdf" })).db.rows.map
      (fun r => r.status) = [2] :=
  ⟨ReachableWith.add _ trivial ReachableWith.empty, by decide⟩

/-- C19, amended. In every store state reachable from the empty store by `Add` and
`CompleteCommand` called with commands whose `Status` is 0 or 1, every row's status is
either 0 (Pending) or 1 (Complete). -/
theorem C19_status_is_pending_or_complete (w : World)
    (h : ReachableWith (fun c => c.GetStatus = 0 ∨ c.GetStatus = 1) w) :
    ∀ r ∈ w.db.rows, r.status = 0 ∨ r.status = 1 := by
  induction h with
  | empty => intro r hr; cases hr
  | @add w c hc _ ih =>
      intro r hr
      rw [Add_rows] at hr
      rcases List.mem_append.mp hr with h | h
      · exact ih r h
      · rw [List.mem_singleton] at h
        rw [h]
        exact hc
  | @complete w c hc _ ih =>
      intro r hr
      simp only [Queue.CompleteCommand, DB.update, List.mem_map] at hr
      obtain ⟨q, hq, hqr⟩ := hr
      by_cases hid : q.id = c.GetID
      · simp only [hid, if_true] at hqr
        rw [← hqr]
        exact hc
      · simp only [hid, if_false] at hqr
        rw [← hqr]
        exact ih q hq

/-- C19, amended, at the store of `main` after its three `Add` calls and the completion
of row 2: it is reachable with statuses 0 and 1 only, and its rows are Pending, Complete,
Pending. -/
theorem C19_status_witness :
    ReachableWith (fun c => c.GetStatus = 0 ∨ c.GetStatus = 1)
      (Queue.CompleteCommand (mainAdds World.empty "X.pdf")
        (Command.SaveDocumentCommand { ID := 2, Status := 1, Document := "X.pdf" })) ∧
    (Queue.CompleteCommand (mainAdds World.empty "X.pdf")
        (Command.SaveDocumentCommand { ID := 2, Status := 1, Document := "X.pdf" })).db.rows.map
      (fun r => r.status) = [0, 1, 0] ∧
    ∀ r ∈ (Queue.CompleteCommand (mainAdds World.empty "X.pdf")
        (Command.SaveDocumentCommand { ID := 2, Status := 1, Document := "X.pdf" })).db.rows,
      r.status = 0 ∨ r.status = 1 :=
  ⟨ReachableWith.complete _ (Or.inr rfl)
      (ReachableWith.add _ (Or.inl rfl)
        (ReachableWith.add _ (Or.inl rfl) (ReachableWith.add _ (Or.inl rfl) ReachableWith.empty))),
   by decide,
   C19_status_is_pending_or_complete _
     (ReachableWith.complete _ (Or.inr rfl)
      (ReachableWith.add _ (Or.inl rfl)
        (ReachableWith.add _ (Or.inl rfl)
          (ReachableWith.add _ (Or.inl rfl) ReachableWith.empty))))⟩

/-- C20. `CompleteCommand(c)` touches one row only: for every store state and every
command `c`, the table after the call has the same rows in the same order, each with its
id and payload unchanged; a row whose id differs from `c.GetID()` keeps its status, the
row with that id gets the status `c.GetStatus()`; the AUTOINCREMENT counter and the output
are unchanged. -/
theorem C20_CompleteCommand_touches_one_row (w : World) (c : Command) :
    (Queue.CompleteCommand w c).stdout = w.stdout ∧
    (Queue.CompleteCommand w c).db.seq = w.db.seq ∧
    List.Forall₂
      (fun r q : Row => q.id = r.id ∧ q.command = r.command ∧
        (r.id ≠ c.GetID → q = r) ∧ (r.id = c.GetID → q.status = c.GetStatus))
      w.db.rows (Queue.CompleteCommand w c).db.rows := by
  refine ⟨rfl, rfl, ?_⟩
  simp only [Queue.CompleteCommand, DB.update]
  rw [List.forall₂_map_right_iff, List.forall₂_same]
  intro r _
  by_cases hid : r.id = c.GetID <;> simp [hid]

end DocumentProcessing

namespace DocumentProcessing

theorem AddAll_rows (cs : List Command) :
    ∀ w : World, ∃ news : List Row,
      (Queue.AddAll w cs).db.rows = w.db.rows ++ news ∧ news.length = cs.length ∧
      ∀ r ∈ news, 1 ≤ r.id ∧ ∃ x ∈ cs, r.status = x.GetStatus := by
  induction cs with
  | nil => intro w; exact ⟨[], by simp [Queue.AddAll], rfl, by simp⟩
  | cons c cs ih =>
      intro w
      obtain ⟨news, hrows, hlen, hnew⟩ := ih (Queue.Add w c)
      refine ⟨{ id := w.db.nextRowid, command := Base64.EncodeToString (gobEncode c),
                status := c.GetStatus } :: news, ?_, by simp [hlen], ?_⟩
      · have hstep : Queue.AddAll w (c :: cs) = Queue.AddAll (Queue.Add w c) cs := rfl
        rw [hstep, hrows, Add_rows, List.append_assoc, List.singleton_append]
      · intro r hr
        rcases List.mem_cons.mp hr with h | h
        · subst h
          exact ⟨DB.one_le_nextRowid w.db, c, List.mem_cons_self _ _, rfl⟩
        · obtain ⟨h1, x, hx, hst⟩ := hnew r h
          exact ⟨h1, x, List.mem_cons_of_mem _ hx, hst⟩

/-- C17, what the code does. In every store state `Queue.Work` reaches its `break` in its
first iteration without invoking `Execute` and leaves the table as it was. So on the
store with n Pending rows made by `Add` of n document commands (`Status` 0) it terminates
after 0 `Execute` invocations, not n, and all n rows are still Pending. -/
theorem C17_Work_ends_with_every_row_pending (w : World) (fuel : Nat) :
    (Queue.Work (fuel + 1) w).finished = true ∧
    (Queue.Work (fuel + 1) w).executed = [] ∧
    (Queue.Work (fuel + 1) w).world.db = w.db ∧
    ∀ cs : List Command, (∀ x ∈ cs, x.GetStatus = 0) →
      (Queue.AddAll World.empty cs).db.rows.length = cs.length ∧
      (∀ r ∈ (Queue.AddAll World.empty cs).db.rows, r.status = 0) ∧
      (Queue.Work (fuel + 1) (Queue.AddAll World.empty cs)).finished = true ∧
      (Queue.Work (fuel + 1) (Queue.AddAll World.empty cs)).executed = [] ∧
      ∀ r ∈ (Queue.Work (fuel + 1) (Queue.AddAll World.empty cs)).world.db.rows,
        r.status = 0 := by
  refine ⟨by rw [Work_succ], by rw [Work_succ], by rw [Work_succ, GetCommand_db], ?_⟩
  intro cs hst
  obtain ⟨news, hrows, hlen, hnew⟩ := AddAll_rows cs World.empty
  have hrows2 : (Queue.AddAll World.empty cs).db.rows = news := by
    rw [hrows]; rfl
  have hpend : ∀ r ∈ (Queue.AddAll World.empty cs).db.rows, r.status = 0 := by
    intro r hr
    rw [hrows2] at hr
    obtain ⟨_, x, hx, hsx⟩ := hnew r hr
    rw [hsx]
    exact hst x hx
  refine ⟨by rw [hrows2, hlen], hpend, by rw [Work_succ], by rw [Work_succ], ?_⟩
  rw [Work_succ, GetCommand_db]
  exact hpend

end DocumentProcessing

/-! ## Lemmas: fetching and executing in the scraping program -/

namespace WebScraping

theorem web_GetCommand_of_no_pending (w : World) (h : w.db.selectPending = none) :
    Queue.GetCommand w = Except.error "sql: no rows in result set" := by
  simp [Queue.GetCommand, h]

theorem web_GetCommand_of_row (w : World) (row : Row) (h : w.db.selectPending = some row) :
    Queue.GetCommand w = Except.ok none := by
  obtain ⟨e, he⟩ := web_gobDecode_error (Base64.DecodeString row.command).1
  simp [Queue.GetCommand, h, he]

theorem selectPending_none_of_no_pending (db : DB) (h : ∀ r ∈ db.rows, r.status ≠ 0) :
    db.selectPending = none := by
  unfold DB.selectPending
  rw [List.find?_eq_none]
  intro r hr
  simpa using h r hr

theorem ReadFile_genres (files : String → Option String) :
    ReadFile files "https://www.imdb.com/feature/genre/" = none := by
  unfold ReadFile
  rw [if_pos (by decide)]

theorem TracedExecute_of_failed_Download (files : String → Option String) (c : Command)
    (s : Traced) (h : ReadFile files c.WebScrapingCommand.URL = none) :
    c.TracedExecute files s
      = Except.error ("Failed to download: " ++ c.WebScrapingCommand.URL, s) := by
  simp [Command.TracedExecute, Command.TracedDownload, h]

theorem Execute_of_failed_Download (files : String → Option String) (c : Command) (w : World)
    (h : ReadFile files c.WebScrapingCommand.URL = none) :
    c.Execute files w
      = Except.error { msg := "Failed to download: " ++ c.WebScrapingCommand.URL, world := w } := by
  simp [Command.Execute, Command.Download, h]

theorem TracedAdd_fold_world (f : String → Command) (ms : List String) :
    ∀ t : Traced,
      (ms.foldl (fun s1 m => Queue.TracedAdd s1 (f m)) t).world
        = ms.foldl (fun w1 m => Queue.Add w1 (f m)) t.world := by
  induction ms with
  | nil => intro t; rfl
  | cons m ms ih =>
      intro t
      rw [List.foldl_cons, List.foldl_cons, ih]
      rfl

theorem TracedParse_world (c : Command) (s : Traced) (html : String) :
    (c.TracedParse s html).world = c.Parse s.world html := by
  cases c with
  | IMDBGenresScrapingCommand x =>
      simp only [Command.TracedParse, Command.Parse, Command.parseGenres,
        Command.addGenrePages, TracedAdd_fold_world]
  | IMDBGenrePageScrapingCommand x p =>
      simp only [Command.TracedParse, Command.Parse, Command.parseGenrePage,
        Command.addMovies, TracedAdd_fold_world]
  | IMDBMovieScrapingCommand x => rfl

theorem TracedExecute_world (files : String → Option String) (c : Command) (s : Traced) :
    c.Execute files s.world =
      match c.TracedExecute files s with
      | Except.error e => Except.error { msg := e.1, world := e.2.world }
      | Except.ok r => Except.ok (r.1, r.2.world) := by
  cases hread : ReadFile files c.WebScrapingCommand.URL with
  | none =>
      simp [Command.Execute, Command.Download, Command.TracedExecute, Command.TracedDownload,
        hread]
  | some html =>
      simp [Command.Execute, Command.Download, Command.TracedExecute, Command.TracedDownload,
        hread, Command.TracedComplete, Command.Complete, Queue.TracedCompleteCommand,
        TracedParse_world]

end WebScraping

namespace WebScraping

/-- C15. Failed work leaves the command Pending: for every scraping command whose
`Download` fails (nothing can be read at its URL) and every state, `Execute` fails, through
`log.Fatalf` with the message "Failed to download", and the process ends in the very state
in which `Execute` was invoked: no call of `Add` and no call of `CompleteCommand` has been
made, no row has been inserted and every row, the row of the command included, has the
status it had, so a Pending row is still Pending. By contrast, when `Download` succeeds,
`Execute` returns and the last call it made is `CompleteCommand` with the command, its
`Status` set to 1. -/
theorem C15_failed_Download_ends_before_any_call (files : String → Option String)
    (c : Command) (s : Traced) (hfail : ReadFile files c.WebScrapingCommand.URL = none) :
    c.TracedExecute files s
      = Except.error ("Failed to download: " ++ c.WebScrapingCommand.URL, s) ∧
    c.Execute files s.world
      = Except.error
          { msg := "Failed to download: " ++ c.WebScrapingCommand.URL, world := s.world } ∧
    (∀ (files2 : String → Option String) (html : String),
      ReadFile files2 c.WebScrapingCommand.URL = some html →
      ∃ t : Traced, c.TracedExecute files2 s
        = Except.ok (c.setStatus 1,
            { world := Queue.CompleteCommand t.world (c.setStatus 1),
              calls := t.calls ++ [Call.CompleteCommand (c.setStatus 1)] }) ∧
        ∃ more : List Call, t.calls = s.calls ++ more) := by
  refine ⟨TracedExecute_of_failed_Download files c s hfail,
    Execute_of_failed_Download files c s.world hfail, ?_⟩
  intro files2 html hread
  have hfold : ∀ (f : String → Command) (ms : List String) (t : Traced),
      ∃ more : List Call,
        (ms.foldl (fun s1 m => Queue.TracedAdd s1 (f m)) t).calls = t.calls ++ more := by
    intro f ms
    induction ms with
    | nil => intro t; exact ⟨[], by simp⟩
    | cons m ms ih =>
        intro t
        obtain ⟨more, hmore⟩ := ih (Queue.TracedAdd t (f m))
        exact ⟨Call.Add (f m) :: more, by
          rw [List.foldl_cons, hmore]
          simp [Queue.TracedAdd]⟩
  refine ⟨c.TracedParse
      { s with world := { s.world with stdout := s.world.stdout ++
          ["WebScrapingCommand: Downloaded " ++ c.WebScrapingCommand.URL] } } html, ?_, ?_⟩
  · simp [Command.TracedExecute, Command.TracedDownload, hread, Command.TracedComplete,
      Queue.TracedCompleteCommand]
  · cases c with
    | IMDBGenresScrapingCommand x => exact hfold _ _ _
    | IMDBGenrePageScrapingCommand x p => exact hfold _ _ _
    | IMDBMovieScrapingCommand x => exact ⟨[], by simp [Command.TracedParse]⟩

/-- C15, at the state `main` reaches by its `Add` of the genres command, whose URL ends
with `/` so that nothing can be read there even from a map that has a page for every name:
`Execute` is fatal, the only call on record is that `Add`, and row 1 is still Pending and
the only row. -/
theorem C15_failed_Download_witness :
    ReadFile (fun _ => some "page") NewIMDBGenresScrapingCommand.WebScrapingCommand.URL = none ∧
    NewIMDBGenresScrapingCommand.TracedExecute (fun _ => some "page")
        (Queue.TracedAdd { world := World.empty, calls := [] } NewIMDBGenresScrapingCommand)
      = Except.error ("Failed to download: https://www.imdb.com/feature/genre/",
          { world := Queue.Add World.empty NewIMDBGenresScrapingCommand,
            calls := [Call.Add NewIMDBGenresScrapingCommand] }) ∧
    (Queue.Add World.empty NewIMDBGenresScrapingCommand).db.rows.map
      (fun r => (r.id, r.status)) = [(1, 0)] :=
  ⟨ReadFile_genres _,
   (C15_failed_Download_ends_before_any_call (fun _ => some "page")
      NewIMDBGenresScrapingCommand
      (Queue.TracedAdd { world := World.empty, calls := [] } NewIMDBGenresScrapingCommand)
      (ReadFile_genres _)).1,
   rfl⟩

/-- C16, what the code does. In the scraping queue, for every store state with no Pending
row, `GetCommand` does not return nil: the failed `Scan` makes it call `log.Fatal`, and the
loop of `main` ends by that fatal error instead of reaching its `command == nil` break. -/
theorem C16_GetCommand_is_fatal_without_pending (files : String → Option String) (w : World)
    (hnone : ∀ r ∈ w.db.rows, r.status ≠ 0) (fuel : Nat) :
    Queue.GetCommand w = Except.error "sql: no rows in result set" ∧
    Queue.GetCommand w ≠ Except.ok none ∧
    mainLoop files (fuel + 1) w =
      { world := w, executed := [], ending := Ending.fatal "sql: no rows in result set" } := by
  have hget := web_GetCommand_of_no_pending w (selectPending_none_of_no_pending w.db hnone)
  refine ⟨hget, ?_, ?_⟩
  · rw [hget]
    intro h
    cases h
  · simp only [mainLoop, hget]

/-- C16, at the empty store and at a store whose only row is Complete: `GetCommand` is
fatal on both. -/
theorem C16_GetCommand_is_fatal_witness :
    (∀ r ∈ World.empty.db.rows, r.status ≠ 0) ∧
    Queue.GetCommand World.empty = Except.error "sql: no rows in result set" ∧
    Queue.GetCommand
        { db := { rows := [{ id := 1, command := "", status := 1 }], seq := 1 }, stdout := [] }
      = Except.error "sql: no rows in result set" :=
  ⟨by decide,
   (C16_GetCommand_is_fatal_without_pending (fun _ => none) World.empty (by decide) 0).1,
   (C16_GetCommand_is_fatal_without_pending (fun _ => none)
      { db := { rows := [{ id := 1, command := "", status := 1 }], seq := 1 }, stdout := [] }
      (by decide) 0).1⟩

end WebScraping

namespace WebScraping

/-- C11, what the code does. Starting from the empty store, `main` inserts the genres
command, and the loop of `main` ends in its first iteration through the `command == nil`
break: `GetCommand` reads row 1, `Decode(&command)` fails on it, the error is discarded and
nil is returned. `Execute` is invoked 0 times (not 3 times), on no command, and row 1 is
still Pending and the only row. This is so whatever pages can be read; and the `Execute`
of the genres command, were it invoked, would end the process, because its URL ends with
`/` and cannot be read. -/
theorem C11_main_ends_before_any_Execute (files : String → Option String) (fuel : Nat) :
    Queue.GetCommand (Queue.Add World.empty NewIMDBGenresScrapingCommand) = Except.ok none ∧
    (main files (fuel + 1) World.empty).ending = Ending.done ∧
    (main files (fuel + 1) World.empty).executed = [] ∧
    (main files (fuel + 1) World.empty).world
      = Queue.Add World.empty NewIMDBGenresScrapingCommand ∧
    (main files (fuel + 1) World.empty).world.db.rows.map (fun r => (r.id, r.status))
      = [(1, 0)] ∧
    (∀ w : World, NewIMDBGenresScrapingCommand.Execute files w
      = Except.error
          { msg := "Failed to download: https://www.imdb.com/feature/genre/", world := w }) := by
  have hget : Queue.GetCommand (Queue.Add World.empty NewIMDBGenresScrapingCommand)
      = Except.ok none :=
    web_GetCommand_of_row _
      { id := 1, command := Base64.EncodeToString (gobEncode NewIMDBGenresScrapingCommand),
        status := 0 } rfl
  have hmain : main files (fuel + 1) World.empty
      = { world := Queue.Add World.empty NewIMDBGenresScrapingCommand, executed := [],
          ending := Ending.done } := by
    simp only [main, mainLoop, hget]
  refine ⟨hget, by rw [hmain], by rw [hmain], by rw [hmain], by rw [hmain]; rfl, ?_⟩
  intro w
  exact Execute_of_failed_Download files NewIMDBGenresScrapingCommand w (ReadFile_genres files)

end WebScraping

namespace DocumentProcessing

theorem GetCommand_of_undecodable (w : World) (r : Row) (hsel : w.db.selectPending = some r)
    (hbad : (Base64.DecodeString r.command).2 = false ∨
      ∃ e, gobDecode (Base64.DecodeString r.command).1 = Except.error e) :
    ∃ line : String, Queue.GetCommand w = (none, { w with stdout := w.stdout ++ [line] }) := by
  cases hb : Base64.CorruptInputError r.command with
  | some offset => exact ⟨_, GetCommand_of_bad_base64 w r offset hsel hb⟩
  | none =>
      rcases hbad with h | ⟨e, he⟩
      · rw [Base64.DecodeString_snd, hb] at h
        cases h
      · exact ⟨_, GetCommand_of_gob_error w r e hsel hb he⟩

/-- C14 as stated fails: in the store whose oldest Pending row (id 1) holds a payload that
is not base64 and whose later Pending row (id 2) is the row `Add` stores for a Save
command, `Queue.Work` prints the decoding error and stops at once: it executes nothing,
and both rows are still Pending. -/
theorem C14_counterexample :
    Queue.Add { db := { rows := [{ id := 1, command := "!", status := 0 }], seq := 1 },
                stdout := [] }
        (Command.SaveDocumentCommand { ID := 0, Status := 0, Document := "X.pdf" })
      = badRowStore ∧
    (Queue.Work 5 badRowStore).finished = true ∧
    (Queue.Work 5 badRowStore).executed = [] ∧
    (Queue.Work 5 badRowStore).world.stdout
      = ["Error decoding command: illegal base64 data at input byte 0"] ∧
    (Queue.Work 5 badRowStore).world.db.rows.map (fun r => (r.id, r.status))
      = [(1, 0), (2, 0)] := by
  decide

/-- C14, amended. For every store state (rows in rowid order) in which the oldest Pending
row holds a payload that does not decode (bad base64 or undecodable bytes), `Queue.Work`
prints one line for the decoding error and then stops, whatever the later rows hold: it
executes no command and leaves the table as it was. In the scraping program the loop of
`main` stops in the same way at a Pending row whose bytes do not decode, without printing
anything. -/
theorem C14_Work_stops_at_undecodable_row (w : World) (r : Row) (hord : w.db.Ordered)
    (hr : r ∈ w.db.rows) (hs : r.status = 0)
    (hmin : ∀ q ∈ w.db.rows, q.status = 0 → r.id ≤ q.id)
    (hbad : (Base64.DecodeString r.command).2 = false ∨
      ∃ e, gobDecode (Base64.DecodeString r.command).1 = Except.error e) (fuel : Nat) :
    ((Queue.Work (fuel + 1) w).finished = true ∧
     (Queue.Work (fuel + 1) w).executed = [] ∧
     (Queue.Work (fuel + 1) w).world.db = w.db ∧
     ∃ line : String, (Queue.Work (fuel + 1) w).world.stdout = w.stdout ++ [line]) ∧
    (∀ (files : String → Option String) (v : WebScraping.World) (row : Row),
      v.db.selectPending = some row →
      (∃ e, WebScraping.gobDecode (Base64.DecodeString row.command).1 = Except.error e) →
      WebScraping.mainLoop files (fuel + 1) v =
        { world := v, executed := [], ending := WebScraping.Ending.done }) := by
  constructor
  · obtain ⟨line, hget⟩ := GetCommand_of_undecodable w r
      (selectPending_of_oldest w.db hord r hr hs hmin) hbad
    simp only [Queue.Work, hget]
    exact ⟨trivial, trivial, trivial, line, rfl⟩
  · intro files v row hsel _
    have hget := WebScraping.web_GetCommand_of_row v row hsel
    simp only [WebScraping.mainLoop, hget]

/-- C14, amended, at the store with the bad row 1 and the valid row 2: the rows are in
rowid order, row 1 is the oldest Pending row, and `Work` stops without executing. -/
theorem C14_Work_stops_witness :
    badRowStore.db.Ordered ∧
    (Base64.DecodeString "!").2 = false ∧
    (Queue.Work 1 badRowStore).finished = true ∧
    (Queue.Work 1 badRowStore).executed = [] ∧
    (Queue.Work 1 badRowStore).world.db = badRowStore.db :=
  ⟨by decide, by decide,
   (C14_Work_stops_at_undecodable_row badRowStore { id := 1, command := "!", status := 0 }
      (by decide) (by decide) rfl (by decide) (Or.inl (by decide)) 0).1.1,
   (C14_Work_stops_at_undecodable_row badRowStore { id := 1, command := "!", status := 0 }
      (by decide) (by decide) rfl (by decide) (Or.inl (by decide)) 0).1.2.1,
   (C14_Work_stops_at_undecodable_row badRowStore { id := 1, command := "!", status := 0 }
      (by decide) (by decide) rfl (by decide) (Or.inl (by decide)) 0).1.2.2.1⟩

end DocumentProcessing

namespace DocumentProcessing

/-- C21. Fetch does not claim the row: for every store state, `GetCommand` leaves the
table exactly as it was, so the row it read is still Pending, and a second `GetCommand`
with nothing in between returns the same command (or nil again). -/
theorem C21_GetCommand_leaves_store (w : World) :
    (Queue.GetCommand w).2.db = w.db ∧
    (∀ r : Row, w.db.selectPending = some r →
      r.status = 0 ∧ r ∈ (Queue.GetCommand w).2.db.rows ∧
      (Queue.GetCommand w).2.db.selectPending = some r) ∧
    (Queue.GetCommand (Queue.GetCommand w).2).1 = (Queue.GetCommand w).1 := by
  have hdb := GetCommand_db w
  refine ⟨hdb, ?_, ?_⟩
  · intro r hr
    rw [hdb]
    refine ⟨?_, List.mem_of_find?_eq_some hr, hr⟩
    simpa using List.find?_some hr
  · rw [GetCommand_nil, GetCommand_nil]

end DocumentProcessing

/-! ## Lemmas: the methods with the mutex -/

namespace DocumentProcessing

theorem LockedAdd_free (encodeErr insertErr : Option String) (w : World) (t : List Event)
    (c : Command) :
    Queue.LockedAdd encodeErr insertErr { world := w, locked := false, trace := t } c
      = Outcome.returned ()
          { world :=
              match encodeErr, insertErr with
              | some err, _ => { w with stdout := w.stdout ++ ["Error encoding command: " ++ err] }
              | none, some err =>
                  { w with stdout := w.stdout ++ ["Error inserting command into DB: " ++ err] }
              | none, none => Queue.Add w c,
            locked := false,
            trace := t ++ [Event.Add c, Event.Lock, Event.Unlock] } := by
  cases encodeErr <;> cases insertErr <;>
    simp [Queue.LockedAdd, Mutex.Lock, Mutex.Unlock, returnWithUnlock, Locked.println,
      Queue.Add]

theorem LockedGetCommand_free (w : World) (t : List Event) :
    Queue.LockedGetCommand { world := w, locked := false, trace := t }
      = Outcome.returned (Queue.GetCommand w).1
          { world := (Queue.GetCommand w).2, locked := false,
            trace := t ++ [Event.GetCommand, Event.Lock, Event.Unlock] } := by
  cases hsel : w.db.selectPending with
  | none =>
      simp [Queue.LockedGetCommand, Queue.GetCommand, Mutex.Lock, Mutex.Unlock,
        returnWithUnlock, hsel]
  | some row =>
      cases hb : Base64.CorruptInputError row.command with
      | some offset =>
          simp [Queue.LockedGetCommand, Queue.GetCommand, Mutex.Lock, Mutex.Unlock,
            returnWithUnlock, Locked.println, hsel, hb]
      | none =>
          cases hd : gobDecode (Base64.DecodeString row.command).1 with
          | error err =>
              simp [Queue.LockedGetCommand, Queue.GetCommand, Mutex.Lock, Mutex.Unlock,
                returnWithUnlock, Locked.println, hsel, hb, hd]
          | ok command =>
              simp [Queue.LockedGetCommand, Queue.GetCommand, Mutex.Lock, Mutex.Unlock,
                returnWithUnlock, hsel, hb, hd]

theorem LockedCompleteCommand_free (w : World) (t : List Event) (c : Command) :
    Queue.LockedCompleteCommand { world := w, locked := false, trace := t } c
      = Outcome.returned ()
          { world := Queue.CompleteCommand w c, locked := false,
            trace := t ++ [Event.CompleteCommand c, Event.Lock, Event.Unlock] } := by
  simp [Queue.LockedCompleteCommand, Mutex.Lock, Mutex.Unlock, returnWithUnlock,
    Queue.CompleteCommand]

theorem LockedExecute_free (w : World) (t : List Event) (c : Command) :
    c.LockedExecute { world := w, locked := false, trace := t }
      = Outcome.returned (c.setStatus 1)
          { world := (c.Execute w).2, locked := false,
            trace := t ++ [Event.Execute c, Event.CompleteCommand (c.setStatus 1), Event.Lock,
              Event.Unlock] } := by
  simp [Command.LockedExecute, Command.LockedComplete, Locked.println,
    LockedCompleteCommand_free, Command.Execute, Command.Complete]

theorem LockedWork_free (fuel : Nat) (w : World) (t : List Event) :
    Queue.LockedWork (fuel + 1) { world := w, locked := false, trace := t }
      = Outcome.returned ([], true)
          { world := (Queue.GetCommand w).2, locked := false,
            trace := t ++ [Event.GetCommand, Event.Lock, Event.Unlock] } := by
  simp [Queue.LockedWork, LockedGetCommand_free, GetCommand_nil]

theorem Locked_eta (s : Locked) (h : s.locked = false) :
    s = { world := s.world, locked := false, trace := s.trace } := by
  cases s
  simp_all

end DocumentProcessing

namespace DocumentProcessing

/-- C22. Self-completion: for every Print, Save or Convert command `c`, invoked with the
mutex free, `Execute` returns, and it returns the command with `GetStatus()` equal to
Complete (1), its other fields as they were. Between its entry and its return exactly one
call of `CompleteCommand` has been made, after the print and with that command as its
argument, `Status` already 1; the store after it is the one the base embedding of
`Execute` gives. -/
theorem C22_Execute_calls_CompleteCommand_once (s : Locked) (c : Command)
    (hfree : s.locked = false) :
    c.LockedExecute s
      = Outcome.returned (c.setStatus 1)
          { world := (c.Execute s.world).2, locked := false,
            trace := s.trace ++ [Event.Execute c, Event.CompleteCommand (c.setStatus 1),
              Event.Lock, Event.Unlock] } ∧
    (c.setStatus 1).GetStatus = 1 ∧
    (c.setStatus 1).DocumentCommand = { c.DocumentCommand with Status := 1 } ∧
    (c.setStatus 1).typeName = c.typeName ∧
    (c.Execute s.world).1 = c.setStatus 1 ∧
    (c.Execute s.world).2.stdout = s.world.stdout ++ [c.executeLine] ∧
    (∀ (r : Command) (s1 : Locked), c.LockedExecute s = Outcome.returned r s1 →
      r.GetStatus = 1 ∧
      (s1.trace.drop s.trace.length).filter Event.isCompleteCommand
        = [Event.CompleteCommand r]) := by
  have hexec : c.LockedExecute s
      = Outcome.returned (c.setStatus 1)
          { world := (c.Execute s.world).2, locked := false,
            trace := s.trace ++ [Event.Execute c, Event.CompleteCommand (c.setStatus 1),
              Event.Lock, Event.Unlock] } := by
    conv_lhs => rw [Locked_eta s hfree]
    exact LockedExecute_free s.world s.trace c
  refine ⟨hexec, by cases c <;> rfl, by cases c <;> rfl, by cases c <;> rfl, rfl, rfl, ?_⟩
  intro r s1 hret
  rw [hexec] at hret
  simp only [Outcome.returned.injEq] at hret
  obtain ⟨hr, hs1⟩ := hret
  subst hr hs1
  refine ⟨by cases c <;> rfl, ?_⟩
  simp [Event.isCompleteCommand]

/-- C22, at the Print command of `main` on the store of `main`, with the mutex free and
nothing on record: `Execute` returns the command with status 1, and the record holds
the entry into `Execute`, one `CompleteCommand` call and the `Lock` and `Unlock` inside
it. -/
theorem C22_Execute_witness :
    ({ world := mainAdds World.empty "Document1.pdf", locked := false, trace := [] }
      : Locked).locked = false ∧
    (Command.PrintDocumentCommand
        { ID := 0, Status := 0, Document := "Document1.pdf" }).LockedExecute
        { world := mainAdds World.empty "Document1.pdf", locked := false, trace := [] }
      = Outcome.returned
          ((Command.PrintDocumentCommand
            { ID := 0, Status := 0, Document := "Document1.pdf" }).setStatus 1)
          { world :=
              ((Command.PrintDocumentCommand
                { ID := 0, Status := 0, Document := "Document1.pdf" }).Execute
                (mainAdds World.empty "Document1.pdf")).2,
            locked := false,
            trace := [] ++
              [Event.Execute (Command.PrintDocumentCommand
                 { ID := 0, Status := 0, Document := "Document1.pdf" }),
               Event.CompleteCommand ((Command.PrintDocumentCommand
                 { ID := 0, Status := 0, Document := "Document1.pdf" }).setStatus 1),
               Event.Lock, Event.Unlock] } :=
  ⟨rfl,
   (C22_Execute_calls_CompleteCommand_once
      { world := mainAdds World.empty "Document1.pdf", locked := false, trace := [] }
      (Command.PrintDocumentCommand { ID := 0, Status := 0, Document := "Document1.pdf" })
      rfl).1⟩

/-- C23. No self-deadlock on the store lock. Started with the mutex free, each of `Add`
(on its three returns: encoding error, insertion error, success), `GetCommand` (on its
four returns) and `CompleteCommand` takes the mutex once, does what the method does, and
returns with the mutex free again, the `Unlock` being the last thing on record. So when
`Work` invokes `Execute` after `GetCommand` has returned, the mutex is free and the
`CompleteCommand` call inside `Execute` takes and frees it; a run of `Work` returns with
the mutex free. Started with the mutex held, each of the three methods, and `Execute` with
them, blocks. -/
theorem C23_every_return_path_frees_the_lock (s : Locked) (hfree : s.locked = false) :
    (∀ (c : Command) (err : String) (insertErr : Option String),
      Queue.LockedAdd (some err) insertErr s c
        = Outcome.returned ()
            { world := { s.world with stdout := s.world.stdout ++
                ["Error encoding command: " ++ err] },
              locked := false,
              trace := s.trace ++ [Event.Add c, Event.Lock, Event.Unlock] }) ∧
    (∀ (c : Command) (err : String),
      Queue.LockedAdd none (some err) s c
        = Outcome.returned ()
            { world := { s.world with stdout := s.world.stdout ++
                ["Error inserting command into DB: " ++ err] },
              locked := false,
              trace := s.trace ++ [Event.Add c, Event.Lock, Event.Unlock] }) ∧
    (∀ c : Command,
      Queue.LockedAdd none none s c
        = Outcome.returned ()
            { world := Queue.Add s.world c, locked := false,
              trace := s.trace ++ [Event.Add c, Event.Lock, Event.Unlock] }) ∧
    Queue.LockedGetCommand s
      = Outcome.returned (Queue.GetCommand s.world).1
          { world := (Queue.GetCommand s.world).2, locked := false,
            trace := s.trace ++ [Event.GetCommand, Event.Lock, Event.Unlock] } ∧
    (∀ c : Command,
      Queue.LockedCompleteCommand s c
        = Outcome.returned ()
            { world := Queue.CompleteCommand s.world c, locked := false,
              trace := s.trace ++ [Event.CompleteCommand c, Event.Lock, Event.Unlock] }) ∧
    (∀ c : Command,
      c.LockedExecute
          { world := (Queue.GetCommand s.world).2, locked := false,
            trace := s.trace ++ [Event.GetCommand, Event.Lock, Event.Unlock] }
        = Outcome.returned (c.setStatus 1)
            { world := (c.Execute (Queue.GetCommand s.world).2).2, locked := false,
              trace := s.trace ++ [Event.GetCommand, Event.Lock, Event.Unlock]
                ++ [Event.Execute c, Event.CompleteCommand (c.setStatus 1), Event.Lock,
                    Event.Unlock] }) ∧
    (∀ fuel : Nat,
      Queue.LockedWork (fuel + 1) s
        = Outcome.returned ((Queue.Work (fuel + 1) s.world).executed,
              (Queue.Work (fuel + 1) s.world).finished)
            { world := (Queue.Work (fuel + 1) s.world).world, locked := false,
              trace := s.trace ++ [Event.GetCommand, Event.Lock, Event.Unlock] }) ∧
    (∀ (c : Command) (encodeErr insertErr : Option String),
      Queue.LockedAdd encodeErr insertErr { s with locked := true } c = Outcome.blocked ∧
      Queue.LockedGetCommand { s with locked := true } = Outcome.blocked ∧
      Queue.LockedCompleteCommand { s with locked := true } c = Outcome.blocked ∧
      c.LockedExecute { s with locked := true } = Outcome.blocked) := by
  have hs := Locked_eta s hfree
  refine ⟨?_, ?_, ?_, ?_, ?_, ?_, ?_, ?_⟩
  · intro c err insertErr
    conv_lhs => rw [hs]
    rw [LockedAdd_free]
  · intro c err
    conv_lhs => rw [hs]
    rw [LockedAdd_free]
  · intro c
    conv_lhs => rw [hs]
    rw [LockedAdd_free]
  · conv_lhs => rw [hs]
    exact LockedGetCommand_free s.world s.trace
  · intro c
    conv_lhs => rw [hs]
    exact LockedCompleteCommand_free s.world s.trace c
  · intro c
    exact LockedExecute_free _ _ c
  · intro fuel
    conv_lhs => rw [hs]
    rw [LockedWork_free, Work_succ]
  · intro c encodeErr insertErr
    refine ⟨?_, ?_, ?_, ?_⟩
    · simp [Queue.LockedAdd, Mutex.Lock]
    · simp [Queue.LockedGetCommand, Mutex.Lock]
    · simp [Queue.LockedCompleteCommand, Mutex.Lock]
    · simp [Command.LockedExecute, Command.LockedComplete, Queue.LockedCompleteCommand,
        Mutex.Lock, Locked.println]

/-- C23, at the store of `main` with the mutex free and nothing on record: `Add`
returns with the mutex free on its insertion-error path, the `Lock` and the `Unlock` on
record. -/
theorem C23_lock_witness :
    ({ world := mainAdds World.empty "Document1.pdf", locked := false, trace := [] }
      : Locked).locked = false ∧
    Queue.LockedAdd none (some "disk I/O error")
        { world := mainAdds World.empty "Document1.pdf", locked := false, trace := [] }
        (Command.SaveDocumentCommand { ID := 0, Status := 0, Document := "X.pdf" })
      = Outcome.returned ()
          { world := { (mainAdds World.empty "Document1.pdf") with
              stdout := (mainAdds World.empty "Document1.pdf").stdout ++
                ["Error inserting command into DB: " ++ "disk I/O error"] },
            locked := false,
            trace := [] ++ [Event.Add (Command.SaveDocumentCommand
              { ID := 0, Status := 0, Document := "X.pdf" }), Event.Lock, Event.Unlock] } :=
  ⟨rfl,
   (C23_every_return_path_frees_the_lock
      { world := mainAdds World.empty "Document1.pdf", locked := false, trace := [] } rfl).2.1
      (Command.SaveDocumentCommand { ID := 0, Status := 0, Document := "X.pdf" })
      "disk I/O error"⟩

end DocumentProcessing

/-! ## Lemmas: the query builder -/

namespace SQL

theorem append_limit (sql limit : String) :
    (if limit = "" then sql else sql ++ limit) = sql ++ limit := by
  by_cases h : limit = ""
  · simp [h]
  · simp [h]

theorem limit_ne_empty (x : String) : " LIMIT " ++ x ≠ "" := by
  intro h
  have hlen := congrArg String.length h
  rw [String.length_append] at hlen
  have h7 : " LIMIT ".length = 7 := by decide
  have h0 : "".length = 0 := by decide
  omega

theorem chain_wheres (conds : List (String × String × String)) (rest : List Step) :
    ∀ q : SQLQuery, q.queryType = "select" →
      chain (SQLQueryBuilder.mysql { query := some q })
          (conds.map (fun c => Step.Where c.1 c.2.1 c.2.2) ++ rest)
        = chain (SQLQueryBuilder.mysql
            { query := some { q with where_ := q.where_ ++ conds.map condition } }) rest := by
  induction conds with
  | nil => intro q _; simp
  | cons c cs ih =>
      intro q hq
      have hstep : chain (SQLQueryBuilder.mysql { query := some q })
          (Step.Where c.1 c.2.1 c.2.2 :: (cs.map (fun c => Step.Where c.1 c.2.1 c.2.2) ++ rest))
          = chain (SQLQueryBuilder.mysql
              { query := some { q with where_ := q.where_ ++ [condition c] } })
              (cs.map (fun c => Step.Where c.1 c.2.1 c.2.2) ++ rest) := by
        simp [chain, SQLQueryBuilder.Where, MysqlQueryBuilder.Where, hq, condition]
      rw [List.map_cons, List.cons_append, hstep,
        ih { q with where_ := q.where_ ++ [condition c] } hq]
      simp [List.append_assoc]

end SQL

/-- C25, what the code does. For every table, field list and integers s, o, the chain
`Select(t, fs).Limit(s, o).GetSQL()` started on a `&PostgresQueryBuilder{}` returns the
query with the MySQL limit ` LIMIT s, o;`: the promoted `Select` returns the embedded
`*MysqlQueryBuilder`, so the `Limit` of the chain is the MySQL one. `Limit` called on the
`*PostgresQueryBuilder` itself gives ` LIMIT s OFFSET o;`, and `clientCode` prints the
MySQL form for the PostgreSQL builder. -/
theorem C25_postgres_chain_emits_mysql_limit (table : String) (fields : List String)
    (start offset : Int) :
    SQL.selectLimitSQL (SQL.SQLQueryBuilder.postgres { MysqlQueryBuilder := { query := none } })
        table fields start offset
      = Except.ok ("SELECT " ++ ", ".intercalate fields ++ " FROM " ++ table
          ++ (" LIMIT " ++ toString start ++ ", " ++ toString offset) ++ ";") ∧
    (∀ p : SQL.PostgresQueryBuilder,
      (SQL.SQLQueryBuilder.postgres p).Select table fields
        = SQL.SQLQueryBuilder.mysql (p.MysqlQueryBuilder.Select table fields)) ∧
    (match SQL.SQLQueryBuilder.Limit
        (SQL.SQLQueryBuilder.postgres
          { MysqlQueryBuilder := SQL.MysqlQueryBuilder.Select { query := none } table fields })
        start offset with
      | Except.error e => Except.error e
      | Except.ok b => b.GetSQL)
      = Except.ok ("SELECT " ++ ", ".intercalate fields ++ " FROM " ++ table
          ++ (" LIMIT " ++ toString start ++ " OFFSET " ++ toString offset) ++ ";") ∧
    SQL.clientCode (SQL.SQLQueryBuilder.postgres { MysqlQueryBuilder := { query := none } })
      = Except.ok
          "SELECT name, email, password FROM users WHERE age > '18' AND age < '30' LIMIT 10, 20;" := by
  refine ⟨?_, fun _ => rfl, ?_, rfl⟩
  · simp [SQL.selectLimitSQL, SQL.SQLQueryBuilder.Select, SQL.SQLQueryBuilder.Limit,
      SQL.MysqlQueryBuilder.Select, SQL.MysqlQueryBuilder.reset, SQL.MysqlQueryBuilder.Limit,
      SQL.SQLQueryBuilder.GetSQL, SQL.MysqlQueryBuilder.GetSQL, SQL.append_limit]
  · simp [SQL.SQLQueryBuilder.Limit, SQL.PostgresQueryBuilder.Limit,
      SQL.MysqlQueryBuilder.Select, SQL.MysqlQueryBuilder.reset, SQL.MysqlQueryBuilder.Limit,
      SQL.SQLQueryBuilder.GetSQL, SQL.MysqlQueryBuilder.GetSQL, SQL.append_limit]

/-- C26. MySQL query assembly: for every table, field list, sequence of `Where` calls and
optional `Limit(s, o)` made after `Select(t, fs)` on a MySQL builder in any state, `GetSQL`
returns "SELECT " + the fields joined by ", " + " FROM " + t, then " WHERE " + the
conditions `field op 'value'` in call order joined by " AND " exactly when there is at
least one `Where` call, then " LIMIT s, o" exactly when `Limit` was called, then ";"; and
a `Select` on a builder in any state gives a query without where and limit parts. -/
theorem C26_mysql_query_assembly (b : SQL.MysqlQueryBuilder) (table : String)
    (fields : List String) (conds : List (String × String × String))
    (lim : Option (Int × Int)) :
    (match SQL.chain ((SQL.SQLQueryBuilder.mysql b).Select table fields) (SQL.steps conds lim) with
      | Except.error e => Except.error e
      | Except.ok r => r.GetSQL)
      = Except.ok ("SELECT " ++ ", ".intercalate fields ++ " FROM " ++ table
          ++ (if conds.length > 0 then " WHERE " ++ " AND ".intercalate (conds.map SQL.condition)
              else "")
          ++ (match lim with
              | none => ""
              | some l => " LIMIT " ++ toString l.1 ++ ", " ++ toString l.2)
          ++ ";") ∧
    (∀ (r : SQL.SQLQueryBuilder) (table2 : String) (fields2 : List String),
      (r.Select table2 fields2).GetSQL
        = Except.ok ("SELECT " ++ ", ".intercalate fields2 ++ " FROM " ++ table2 ++ ";")) := by
  constructor
  · have hsel : (SQL.SQLQueryBuilder.mysql b).Select table fields
        = SQL.SQLQueryBuilder.mysql (SQL.MysqlQueryBuilder.mk (some
            (SQL.SQLQuery.mk ("SELECT " ++ ", ".intercalate fields ++ " FROM " ++ table)
              [] "" "select"))) := rfl
    rw [hsel]
    unfold SQL.steps
    rw [SQL.chain_wheres conds _ _ rfl]
    cases lim with
    | none =>
        by_cases hc : conds.length > 0
        · simp [SQL.chain, SQL.SQLQueryBuilder.GetSQL, SQL.MysqlQueryBuilder.GetSQL, hc,
            String.append_assoc]
        · have : conds = [] := by
            cases conds with
            | nil => rfl
            | cons a l => simp at hc
          subst this
          simp [SQL.chain, SQL.SQLQueryBuilder.GetSQL, SQL.MysqlQueryBuilder.GetSQL]
    | some l =>
        by_cases hc : conds.length > 0
        · simp [SQL.chain, SQL.SQLQueryBuilder.Limit, SQL.MysqlQueryBuilder.Limit,
            SQL.SQLQueryBuilder.GetSQL, SQL.MysqlQueryBuilder.GetSQL, hc, SQL.limit_ne_empty,
            String.append_assoc]
        · have : conds = [] := by
            cases conds with
            | nil => rfl
            | cons a l => simp at hc
          subst this
          simp [SQL.chain, SQL.SQLQueryBuilder.Limit, SQL.MysqlQueryBuilder.Limit,
            SQL.SQLQueryBuilder.GetSQL, SQL.MysqlQueryBuilder.GetSQL, SQL.limit_ne_empty,
            String.append_assoc]
  · intro r table2 fields2
    cases r <;> rfl

namespace PrototypeGo

/-- C27. `Prototype.Clone` rewires the back reference: for every heap and every prototype
`p` in it, `Clone` returns a new pointer `q`, different from `p`; the object at `q` has the
`Primitive` and the `Component` of `p`; its `CircularReference` points to a new component
whose `Prototype` is `q` itself; and every object that was on the heap is unchanged. -/
theorem C27_Clone_points_back_to_the_clone (h : Heap) (p : Nat) (obj : Prototype)
    (hp : h.prototypes[p]? = some obj) :
    ∃ (q : Nat) (h1 : Heap) (clone : Prototype) (back : Nat),
      Clone h p = some (q, h1) ∧ q ≠ p ∧ h.prototypes[q]? = none ∧
      h1.prototypes[q]? = some clone ∧
      clone.Primitive = obj.Primitive ∧ clone.Component = obj.Component ∧
      clone.CircularReference = some back ∧ h.components[back]? = none ∧
      h1.components[back]? = some { Prototype := some q } ∧
      (∀ (a : Nat) (o : Prototype), h.prototypes[a]? = some o → h1.prototypes[a]? = some o) ∧
      (∀ (a : Nat) (o : ComponentWithBackReference),
        h.components[a]? = some o → h1.components[a]? = some o) := by
  have hlt : p < h.prototypes.length := by
    rcases Nat.lt_or_ge p h.prototypes.length with hlt | hge
    · exact hlt
    · rw [List.getElem?_eq_none hge] at hp
      cases hp
  refine ⟨h.prototypes.length,
    { prototypes := h.prototypes ++
        [{ Primitive := obj.Primitive, Component := obj.Component,
           CircularReference := some h.components.length }],
      components := h.components ++ [{ Prototype := some h.prototypes.length }] },
    { Primitive := obj.Primitive, Component := obj.Component,
      CircularReference := some h.components.length },
    h.components.length, ?_, ?_, ?_, ?_, rfl, rfl, rfl, ?_, ?_, ?_, ?_⟩
  · simp only [Clone, hp]
  · omega
  · exact List.getElem?_eq_none (Nat.le_refl _)
  · simp
  · exact List.getElem?_eq_none (Nat.le_refl _)
  · simp
  · intro a o ha
    have hlt : a < h.prototypes.length := by
      rcases Nat.lt_or_ge a h.prototypes.length with hlt | hge
      · exact hlt
      · rw [List.getElem?_eq_none hge] at ha
        cases ha
    show (h.prototypes ++ _)[a]? = some o
    rw [List.getElem?_append_left hlt]
    exact ha
  · intro a o ha
    have hlt : a < h.components.length := by
      rcases Nat.lt_or_ge a h.components.length with hlt | hge
      · exact hlt
      · rw [List.getElem?_eq_none hge] at ha
        cases ha
    show (h.components ++ _)[a]? = some o
    rw [List.getElem?_append_left hlt]
    exact ha

/-- C27, at `clientCode`: `p1` is at address 1; its clone `p2` is at address 2, carries
245 and the same instant, and the component it refers to points back to address 2. -/
theorem C27_Clone_witness :
    (clientHeap 1700000000).prototypes[1]?
      = some { Primitive := 245, Component := 1700000000, CircularReference := some 0 } ∧
    Clone (clientHeap 1700000000) 1
      = some (2,
          { prototypes := [{ Primitive := 0, Component := 0, CircularReference := none },
                           { Primitive := 245, Component := 1700000000,
                             CircularReference := some 0 },
                           { Primitive := 245, Component := 1700000000,
                             CircularReference := some 1 }],
            components := [{ Prototype := some 0 }, { Prototype := some 2 }] }) := by
  refine ⟨rfl, ?_⟩
  obtain ⟨q, h1, clone, back, hclone, _⟩ :=
    C27_Clone_points_back_to_the_clone (clientHeap 1700000000) 1 _ rfl
  rw [hclone]
  have h2 : Clone (clientHeap 1700000000) 1 = some (2, _) := rfl
  rw [h2] at hclone
  exact hclone.symm

end PrototypeGo

/-! ## Lemmas: the history of the controller -/

namespace HomeAutomation

open HomeAutomationController

theorem UndoLastCommand_append (s : Home) (h : List Command) (c : Command)
    (hs : s.commandHistory = h ++ [c]) :
    UndoLastCommand s =
      { commandHistory := h, stdout := s.stdout ++ [c.undoLine],
        calls := s.calls ++ [Call.Undo c] } := by
  unfold UndoLastCommand
  simp [hs, Command.Undo]

theorem executeAll_state (cmds : List Command) :
    ∀ s : Home, executeAll s cmds =
      { commandHistory := s.commandHistory ++ cmds,
        stdout := s.stdout ++ cmds.map Command.executeLine,
        calls := s.calls ++ cmds.map Call.Execute } := by
  induction cmds with
  | nil => intro s; simp [executeAll]
  | cons c cs ih =>
      intro s
      have hstep : executeAll s (c :: cs) = executeAll (ExecuteCommand s c) cs := rfl
      rw [hstep, ih]
      simp [ExecuteCommand, Command.Execute]

theorem undoTimes_state (cmds : List Command) :
    ∀ (h : List Command) (out : List String) (calls : List Call),
      undoTimes cmds.length { commandHistory := h ++ cmds, stdout := out, calls := calls } =
        { commandHistory := h,
          stdout := out ++ cmds.reverse.map Command.undoLine,
          calls := calls ++ cmds.reverse.map Call.Undo } := by
  induction cmds using List.reverseRecOn with
  | nil => intro h out calls; simp [undoTimes]
  | append_singleton cs c ih =>
      intro h out calls
      rw [List.length_append, List.length_singleton, undoTimes,
        UndoLastCommand_append _ (h ++ cs) c (by simp), ih]
      simp

/-- C28. Undo is last-in-first-out: for every state of the controller with history `h` and
every command `c`, `ExecuteCommand(c)` followed by `UndoLastCommand()` calls `c.Execute()`
and then `c.Undo()` and leaves the history equal to `h`; after `ExecuteCommand` of
c1 .. cn, n calls of `UndoLastCommand` call `Undo` on cn, .., c1 in that order and leave the
history as it was before; and `UndoLastCommand` on an empty history changes nothing. -/
theorem C28_undo_is_last_in_first_out (s : Home) :
    (∀ c : Command,
      (UndoLastCommand (ExecuteCommand s c)).commandHistory = s.commandHistory ∧
      (UndoLastCommand (ExecuteCommand s c)).calls
        = s.calls ++ [Call.Execute c, Call.Undo c]) ∧
    (∀ cmds : List Command,
      (undoTimes cmds.length (executeAll s cmds)).commandHistory = s.commandHistory ∧
      (undoTimes cmds.length (executeAll s cmds)).calls
        = s.calls ++ cmds.map Call.Execute ++ cmds.reverse.map Call.Undo) ∧
    (s.commandHistory = [] → UndoLastCommand s = s) := by
  refine ⟨?_, ?_, ?_⟩
  · intro c
    rw [UndoLastCommand_append (ExecuteCommand s c) s.commandHistory c rfl]
    simp [ExecuteCommand, Command.Execute]
  · intro cmds
    rw [executeAll_state, undoTimes_state]
    exact ⟨rfl, rfl⟩
  · intro h
    simp [UndoLastCommand, h]

/-- C28, at `main`: the three commands are executed and three undos call `Undo` on the
security command, the thermostat command and the light command, in that order, leaving
an empty history; a fourth undo changes nothing. -/
theorem C28_undo_witness :
    (undoTimes 3 (executeAll { commandHistory := [], stdout := [], calls := [] }
      [Command.LightOnCommand, Command.ThermostatSetCommand 22,
       Command.SecuritySystemActivateCommand])).calls
      = [Call.Execute Command.LightOnCommand, Call.Execute (Command.ThermostatSetCommand 22),
         Call.Execute Command.SecuritySystemActivateCommand,
         Call.Undo Command.SecuritySystemActivateCommand,
         Call.Undo (Command.ThermostatSetCommand 22), Call.Undo Command.LightOnCommand] ∧
    UndoLastCommand { commandHistory := [], stdout := [], calls := [] }
      = { commandHistory := [], stdout := [], calls := [] } :=
  ⟨((C28_undo_is_last_in_first_out { commandHistory := [], stdout := [], calls := [] }).2.1
      [Command.LightOnCommand, Command.ThermostatSetCommand 22,
       Command.SecuritySystemActivateCommand]).2,
   (C28_undo_is_last_in_first_out { commandHistory := [], stdout := [], calls := [] }).2.2 rfl⟩

end HomeAutomation

/-! ## Lemmas: the builder and its product -/

namespace BuilderGo

open ConcreteBuilder1

theorem produceAll_state (calls : List Part) :
    ∀ (s : State) (a : Nat) (p : Product), s.builder.product = some a →
      s.products[a]? = some p →
      produceAll s calls = some
        { s with products := s.products.set a { parts := p.parts ++ calls.map Part.name } } := by
  induction calls with
  | nil =>
      intro s a p _ hp
      have hset : s.products.set a { parts := p.parts } = s.products := by
        apply List.ext_getElem?
        intro i
        by_cases hi : a = i
        · subst hi
          have hlt : a < s.products.length := by
            rcases Nat.lt_or_ge a s.products.length with h | h
            · exact h
            · rw [List.getElem?_eq_none h] at hp
              cases hp
          rw [List.getElem?_set_self hlt, hp]
        · rw [List.getElem?_set_ne hi]
      simp [produceAll, hset]
  | cons c cs ih =>
      intro s a p ha hp
      have hlt : a < s.products.length := by
        rcases Nat.lt_or_ge a s.products.length with h | h
        · exact h
        · rw [List.getElem?_eq_none h] at hp
          cases hp
      have hstep : Produce c s = some
          { s with products := s.products.set a { parts := p.parts ++ [c.name] } } := by
        simp [Produce, ha, hp]
      simp only [produceAll, hstep]
      have hp1 : (s.products.set a { parts := p.parts ++ [c.name] })[a]?
          = some { parts := p.parts ++ [c.name] } := List.getElem?_set_self hlt
      rw [ih { s with products := s.products.set a { parts := p.parts ++ [c.name] } } a
        { parts := p.parts ++ [c.name] } ha hp1]
      simp [List.set_set, List.append_assoc]

end BuilderGo

namespace BuilderGo

open ConcreteBuilder1

theorem GetProduct_fresh (t : State) :
    (GetProduct t).2.builder.product = some t.products.length ∧
    (GetProduct t).2.products[t.products.length]? = some { parts := [] } := by
  simp [GetProduct, Reset]

theorem BuildFull_eq (t : State) :
    Director.BuildFullFeaturedProduct t = produceAll t [Part.A, Part.B, Part.C] := by
  simp only [Director.BuildFullFeaturedProduct, ProducePartA, ProducePartB, ProducePartC,
    produceAll]
  cases Produce Part.A t with
  | none => rfl
  | some s1 =>
      simp only
      cases Produce Part.B s1 with
      | none => rfl
      | some s2 =>
          simp only
          cases Produce Part.C s2 <;> rfl

theorem handed_over (s : State) (a : Nat) (ha : s.builder.product = some a)
    (hp : s.products[a]? = some { parts := [] }) (calls : List Part) :
    ∃ s1 : State, produceAll s calls = some s1 ∧
      (GetProduct s1).1 = some a ∧
      partsAt (GetProduct s1).2 (GetProduct s1).1 = some (calls.map Part.name) ∧
      partsAt (GetProduct s1).2 (GetProduct s1).2.builder.product = some [] ∧
      (GetProduct s1).2.builder.product ≠ some a := by
  have hlt : a < s.products.length := by
    rcases Nat.lt_or_ge a s.products.length with h | h
    · exact h
    · rw [List.getElem?_eq_none h] at hp
      cases hp
  refine ⟨_, produceAll_state calls s a _ ha hp, ha, ?_, ?_, ?_⟩
  · simp only [GetProduct, Reset, ha, partsAt]
    rw [List.getElem?_append_left (by simpa using hlt), List.getElem?_set_self hlt]
    simp
  · simp [GetProduct, Reset, partsAt]
  · simp only [GetProduct, Reset, List.length_set]
    intro h
    have := Option.some.inj h
    omega

/-- C30. The builder hands over and resets: when the builder holds a fresh product (as
after `NewConcreteBuilder1` and after every `GetProduct`), for every sequence of
`ProducePartA/B/C` calls, `GetProduct` returns that product with exactly the parts of
these calls, in call order, and leaves the builder holding another, new product with no
parts. Hence after `NewConcreteBuilder1`, or after a `GetProduct` in any state whatever,
`Director.BuildFullFeaturedProduct` followed by `GetProduct` yields
[PartA1, PartB1, PartC1]. -/
theorem C30_GetProduct_hands_over_and_resets (s : State) (a : Nat)
    (ha : s.builder.product = some a) (hp : s.products[a]? = some { parts := [] })
    (calls : List Part) :
    (∃ s1 : State, produceAll s calls = some s1 ∧
      (GetProduct s1).1 = some a ∧
      partsAt (GetProduct s1).2 (GetProduct s1).1 = some (calls.map Part.name) ∧
      partsAt (GetProduct s1).2 (GetProduct s1).2.builder.product = some [] ∧
      (GetProduct s1).2.builder.product ≠ some a) ∧
    (∀ products : List Product, ∃ t2 : State,
      Director.BuildFullFeaturedProduct (NewConcreteBuilder1 products) = some t2 ∧
      partsAt (GetProduct t2).2 (GetProduct t2).1 = some ["PartA1", "PartB1", "PartC1"]) ∧
    (∀ t : State, ∃ t2 : State,
      Director.BuildFullFeaturedProduct (GetProduct t).2 = some t2 ∧
      partsAt (GetProduct t2).2 (GetProduct t2).1 = some ["PartA1", "PartB1", "PartC1"]) := by
  refine ⟨handed_over s a ha hp calls, ?_, ?_⟩
  · intro products
    obtain ⟨t2, h1, _, h3, _⟩ := handed_over (NewConcreteBuilder1 products) products.length rfl
      (by simp [NewConcreteBuilder1]) [Part.A, Part.B, Part.C]
    exact ⟨t2, by rw [BuildFull_eq]; exact h1, h3⟩
  · intro t
    obtain ⟨t2, h1, _, h3, _⟩ := handed_over (GetProduct t).2 t.products.length
      (GetProduct_fresh t).1 (GetProduct_fresh t).2 [Part.A, Part.B, Part.C]
    exact ⟨t2, by rw [BuildFull_eq]; exact h1, h3⟩

/-- C30, at `main`: after `NewConcreteBuilder1` the builder holds the fresh product at
address 0; `ProducePartA` and `ProducePartC` followed by `GetProduct` return it with
[PartA1, PartC1] and leave the builder with a new empty product. -/
theorem C30_GetProduct_witness :
    (NewConcreteBuilder1 []).builder.product = some 0 ∧
    (NewConcreteBuilder1 []).products[0]? = some { parts := [] } ∧
    ∃ s1 : State, produceAll (NewConcreteBuilder1 []) [Part.A, Part.C] = some s1 ∧
      (GetProduct s1).1 = some 0 ∧
      partsAt (GetProduct s1).2 (GetProduct s1).1 = some ["PartA1", "PartC1"] ∧
      partsAt (GetProduct s1).2 (GetProduct s1).2.builder.product = some [] ∧
      (GetProduct s1).2.builder.product ≠ some 0 :=
  ⟨rfl, rfl,
   (C30_GetProduct_hands_over_and_resets (NewConcreteBuilder1 []) 0 rfl rfl
      [Part.A, Part.C]).1⟩

end BuilderGo

/-! ## Lemmas: `strings.ReplaceAll` -/

namespace WebTemplate

theorem replaceAux_skip (old new : List Char) (z : List Char) :
    ∀ y : List Char, replaceAux old new z.length (z ++ y) = replaceAux old new 0 y := by
  induction z with
  | nil => intro y; rfl
  | cons c z ih =>
      intro y
      have h : replaceAux old new (z.length + 1) (c :: (z ++ y))
          = replaceAux old new z.length (z ++ y) := by
        simp [replaceAux]
      rw [List.length_cons, List.cons_append, h, ih]

theorem startsWith_append (old : List Char) : ∀ y : List Char, startsWith old (old ++ y) = true := by
  induction old with
  | nil => intro y; rfl
  | cons c cs ih => intro y; simp [startsWith, ih]

theorem replaceAux_match (c0 : Char) (rest new y : List Char) :
    replaceAux (c0 :: rest) new 0 ((c0 :: rest) ++ y)
      = new ++ replaceAux (c0 :: rest) new 0 y := by
  have h := startsWith_append (c0 :: rest) y
  rw [List.cons_append] at h ⊢
  rw [replaceAux, if_pos h]
  have hs := replaceAux_skip (c0 :: rest) new rest y
  simp only [List.length_cons, Nat.add_sub_cancel]
  rw [hs]

theorem replaceAux_pass (c0 : Char) (rest new : List Char) (x : List Char)
    (hx : ∀ c ∈ x, c ≠ c0) :
    ∀ y : List Char, replaceAux (c0 :: rest) new 0 (x ++ y)
      = x ++ replaceAux (c0 :: rest) new 0 y := by
  induction x with
  | nil => intro y; rfl
  | cons c x ih =>
      intro y
      have hc : c0 ≠ c := fun h => hx c (List.mem_cons_self _ _) h.symm
      have hp : startsWith (c0 :: rest) (c :: (x ++ y)) = false := by
        simp [startsWith, hc]
      rw [List.cons_append, replaceAux, hp]
      simp only [Bool.false_eq_true, if_false, List.cons_append]
      rw [ih (fun d hd => hx d (List.mem_cons_of_mem _ hd))]

theorem replaceAux_two_orders (a0 b0 : Char) (ra rb P M S t c : List Char)
    (hAP : ∀ new y, replaceAux (a0 :: ra) new 0 (P ++ y) = P ++ replaceAux (a0 :: ra) new 0 y)
    (hBP : ∀ new y, replaceAux (b0 :: rb) new 0 (P ++ y) = P ++ replaceAux (b0 :: rb) new 0 y)
    (hAM : ∀ new y, replaceAux (a0 :: ra) new 0 (M ++ y) = M ++ replaceAux (a0 :: ra) new 0 y)
    (hBM : ∀ new y, replaceAux (b0 :: rb) new 0 (M ++ y) = M ++ replaceAux (b0 :: rb) new 0 y)
    (hAS : ∀ new y, replaceAux (a0 :: ra) new 0 (S ++ y) = S ++ replaceAux (a0 :: ra) new 0 y)
    (hBS : ∀ new y, replaceAux (b0 :: rb) new 0 (S ++ y) = S ++ replaceAux (b0 :: rb) new 0 y)
    (hAB : ∀ new y, replaceAux (a0 :: ra) new 0 ((b0 :: rb) ++ y)
      = (b0 :: rb) ++ replaceAux (a0 :: ra) new 0 y)
    (hBA : ∀ new y, replaceAux (b0 :: rb) new 0 ((a0 :: ra) ++ y)
      = (a0 :: ra) ++ replaceAux (b0 :: rb) new 0 y)
    (hAc : ∀ new y, replaceAux (a0 :: ra) new 0 (c ++ y) = c ++ replaceAux (a0 :: ra) new 0 y)
    (hBt : ∀ new y, replaceAux (b0 :: rb) new 0 (t ++ y) = t ++ replaceAux (b0 :: rb) new 0 y) :
    replaceAux (b0 :: rb) c 0
        (replaceAux (a0 :: ra) t 0 (P ++ ((a0 :: ra) ++ (M ++ ((b0 :: rb) ++ (S ++ []))))))
      = P ++ (t ++ (M ++ (c ++ (S ++ [])))) ∧
    replaceAux (a0 :: ra) t 0
        (replaceAux (b0 :: rb) c 0 (P ++ ((a0 :: ra) ++ (M ++ ((b0 :: rb) ++ (S ++ []))))))
      = P ++ (t ++ (M ++ (c ++ (S ++ [])))) := by
  have hnil : ∀ old new : List Char, replaceAux old new 0 [] = [] := fun _ _ => rfl
  constructor
  · rw [hAP, replaceAux_match, hAM, hAB, hAS, hnil]
    rw [hBP, hBt, hBM, replaceAux_match, hBS, hnil]
  · rw [hBP, hBA, hBM, replaceAux_match, hBS, hnil]
    rw [hAP, replaceAux_match, hAM, hAc, hAS, hnil]

theorem ReplaceAll_of_cons (s old new : String) (c0 : Char) (rest : List Char)
    (h : old.toList = c0 :: rest) :
    ReplaceAll s old new = String.mk (replaceAux (c0 :: rest) new.toList 0 s.toList) := by
  unfold ReplaceAll
  rw [h]
  simp

theorem Render_page (p : Page) (factory : TemplateFactory)
    (ht : ∀ c ∈ p.title.toList, c ≠ factory.GetRenderer.opening)
    (hc : ∀ c ∈ p.content.toList, c ≠ factory.GetRenderer.opening) (titleFirst : Bool) :
    p.Render factory titleFirst
      = "\n\t\t<div class=\"page\">\n\t\t\t<h1>" ++ p.title
          ++ "</h1>\n\t\t\t<article class=\"content\">" ++ p.content
          ++ "</article>\n\t\t</div>\n\t" := by
  have hfinal : String.mk ("\n\t\t<div class=\"page\">\n\t\t\t<h1>".toList
        ++ (p.title.toList ++ ("</h1>\n\t\t\t<article class=\"content\">".toList
        ++ (p.content.toList ++ ("</article>\n\t\t</div>\n\t".toList ++ [])))))
      = "\n\t\t<div class=\"page\">\n\t\t\t<h1>" ++ p.title
          ++ "</h1>\n\t\t\t<article class=\"content\">" ++ p.content
          ++ "</article>\n\t\t</div>\n\t" := by
    apply String.ext
    simp [String.toList]
  rw [← hfinal]
  cases factory with
  | TwigTemplateFactory =>
      have h := replaceAux_two_orders (Char.ofNat 123) (Char.ofNat 123)
        "\x7b title \x7d\x7d".toList "\x7b content \x7d\x7d".toList
        "\n\t\t<div class=\"page\">\n\t\t\t<h1>".toList
        "</h1>\n\t\t\t<article class=\"content\">".toList
        "</article>\n\t\t</div>\n\t".toList p.title.toList p.content.toList
        (fun _ _ => rfl) (fun _ _ => rfl) (fun _ _ => rfl) (fun _ _ => rfl)
        (fun _ _ => rfl) (fun _ _ => rfl) (fun _ _ => rfl) (fun _ _ => rfl)
        (fun new y => replaceAux_pass _ _ new _ hc y)
        (fun new y => replaceAux_pass _ _ new _ ht y)
      cases titleFirst with
      | true =>
          have e1 := ReplaceAll_of_cons
            (TemplateFactory.pageTemplateString TemplateFactory.TwigTemplateFactory)
            (TemplateRenderer.placeholder TemplateRenderer.TwigRenderer "title") p.title
            (Char.ofNat 123) "\x7b title \x7d\x7d".toList rfl
          have e2 := fun s => ReplaceAll_of_cons s
            (TemplateRenderer.placeholder TemplateRenderer.TwigRenderer "content") p.content
            (Char.ofNat 123) "\x7b content \x7d\x7d".toList rfl
          simp only [Page.Render, TemplateRenderer.Render, TemplateFactory.GetRenderer,
            List.foldl, if_true]
          rw [e2, e1]
          exact congrArg String.mk h.1
      | false =>
          have e1 := fun s => ReplaceAll_of_cons s
            (TemplateRenderer.placeholder TemplateRenderer.TwigRenderer "title") p.title
            (Char.ofNat 123) "\x7b title \x7d\x7d".toList rfl
          have e2 := ReplaceAll_of_cons
            (TemplateFactory.pageTemplateString TemplateFactory.TwigTemplateFactory)
            (TemplateRenderer.placeholder TemplateRenderer.TwigRenderer "content") p.content
            (Char.ofNat 123) "\x7b content \x7d\x7d".toList rfl
          simp only [Page.Render, TemplateRenderer.Render, TemplateFactory.GetRenderer,
            List.foldl, Bool.false_eq_true, if_false]
          rw [e1, e2]
          exact congrArg String.mk h.2
  | PHPTemplateFactory =>
      have h := replaceAux_two_orders '<' '<'
        "?= $title; ?>".toList "?= $content; ?>".toList
        "\n\t\t<div class=\"page\">\n\t\t\t<h1>".toList
        "</h1>\n\t\t\t<article class=\"content\">".toList
        "</article>\n\t\t</div>\n\t".toList p.title.toList p.content.toList
        (fun _ _ => rfl) (fun _ _ => rfl) (fun _ _ => rfl) (fun _ _ => rfl)
        (fun _ _ => rfl) (fun _ _ => rfl) (fun _ _ => rfl) (fun _ _ => rfl)
        (fun new y => replaceAux_pass _ _ new _ hc y)
        (fun new y => replaceAux_pass _ _ new _ ht y)
      cases titleFirst with
      | true =>
          have e1 := ReplaceAll_of_cons
            (TemplateFactory.pageTemplateString TemplateFactory.PHPTemplateFactory)
            (TemplateRenderer.placeholder TemplateRenderer.PHPTemplateRenderer "title") p.title
            '<' "?= $title; ?>".toList rfl
          have e2 := fun s => ReplaceAll_of_cons s
            (TemplateRenderer.placeholder TemplateRenderer.PHPTemplateRenderer "content")
            p.content '<' "?= $content; ?>".toList rfl
          simp only [Page.Render, TemplateRenderer.Render, TemplateFactory.GetRenderer,
            List.foldl, if_true]
          rw [e2, e1]
          exact congrArg String.mk h.1
      | false =>
          have e1 := fun s => ReplaceAll_of_cons s
            (TemplateRenderer.placeholder TemplateRenderer.PHPTemplateRenderer "title") p.title
            '<' "?= $title; ?>".toList rfl
          have e2 := ReplaceAll_of_cons
            (TemplateFactory.pageTemplateString TemplateFactory.PHPTemplateFactory)
            (TemplateRenderer.placeholder TemplateRenderer.PHPTemplateRenderer "content")
            p.content '<' "?= $content; ?>".toList rfl
          simp only [Page.Render, TemplateRenderer.Render, TemplateFactory.GetRenderer,
            List.foldl, Bool.false_eq_true, if_false]
          rw [e1, e2]
          exact congrArg String.mk h.2

end WebTemplate

namespace WebTemplate

/-- C29 as stated fails: with the template `{{ title }}` and the map that holds title =
`{{ content }}` and content = `X`, the Twig renderer returns `X` when the loop visits title
first and `{{ content }}` when it visits content first; the two visits are of the same
entries. The same happens to `Page.Render` for a page with that title. -/
theorem C29_counterexample :
    TemplateRenderer.TwigRenderer.Render "\x7b\x7b title \x7d\x7d"
        [("title", "\x7b\x7b content \x7d\x7d"), ("content", "X")] = "X" ∧
    TemplateRenderer.TwigRenderer.Render "\x7b\x7b title \x7d\x7d"
        [("content", "X"), ("title", "\x7b\x7b content \x7d\x7d")]
      = "\x7b\x7b content \x7d\x7d" ∧
    List.Perm [("title", "\x7b\x7b content \x7d\x7d"), ("content", "X")]
      [("content", "X"), ("title", "\x7b\x7b content \x7d\x7d")] ∧
    Page.Render { title := "\x7b\x7b content \x7d\x7d", content := "X" }
        TemplateFactory.TwigTemplateFactory true
      ≠ Page.Render { title := "\x7b\x7b content \x7d\x7d", content := "X" }
        TemplateFactory.TwigTemplateFactory false := by
  refine ⟨by decide, by decide, List.Perm.swap _ _ _, by decide⟩

/-- C29, amended. `Render` applies `strings.ReplaceAll` once per entry in the order the
map is visited, and its result can depend on that order. For `Page.Render`, with either
factory, the result is the same for both visiting orders whenever neither the title nor
the content contains the first character of the renderer's placeholders (the opening
brace for Twig, `<` for PHP): it is the page template with the title and the content in
the place of their placeholders. -/
theorem C29_Page_Render_same_for_both_orders (p : Page) (factory : TemplateFactory)
    (ht : ∀ c ∈ p.title.toList, c ≠ factory.GetRenderer.opening)
    (hc : ∀ c ∈ p.content.toList, c ≠ factory.GetRenderer.opening) :
    p.Render factory true = p.Render factory false ∧
    (∀ titleFirst : Bool, p.Render factory titleFirst
      = "\n\t\t<div class=\"page\">\n\t\t\t<h1>" ++ p.title
          ++ "</h1>\n\t\t\t<article class=\"content\">" ++ p.content
          ++ "</article>\n\t\t</div>\n\t") ∧
    (∀ (r : TemplateRenderer) (t : String) (k v : String) (rest : List (String × String)),
      r.Render t ((k, v) :: rest) = r.Render (ReplaceAll t (r.placeholder k) v) rest) :=
  ⟨(Render_page p factory ht hc true).trans (Render_page p factory ht hc false).symm,
   fun b => Render_page p factory ht hc b, fun _ _ _ _ _ => rfl⟩

/-- C29, amended, at the page of `main` with the PHP factory: title and content hold no
`<`, and both visiting orders render the same page. -/
theorem C29_Page_Render_witness :
    (∀ c ∈ "Sample page".toList, c ≠ '<') ∧ (∀ c ∈ "This is the body.".toList, c ≠ '<') ∧
    Page.Render { title := "Sample page", content := "This is the body." }
        TemplateFactory.PHPTemplateFactory true
      = Page.Render { title := "Sample page", content := "This is the body." }
        TemplateFactory.PHPTemplateFactory false :=
  ⟨by decide, by decide,
   (C29_Page_Render_same_for_both_orders
      { title := "Sample page", content := "This is the body." }
      TemplateFactory.PHPTemplateFactory (by decide) (by decide)).1⟩

end WebTemplate
